import Mathlib

/-!
# Connect Four character device (`fourinarow.c`)

A shallow embedding of the board engine and of the command handler of the
`fourinarow` module, followed by theorems about them.

* the global `char board[8][8]` is a value of type `Board`;
* `int` values are `Int`, `char` values are `Char`;
* a bounded `for` loop is a structural recursion on the number of
  iterations that remain, the loop variable being passed along;
* an array access whose index is stepped arithmetically (`check_for_four`)
  goes through `Board.get?`, which answers `none` outside the grid; `none`
  propagates to the caller as "the C program read outside `board`".
-/

namespace FourInARow

/-! ## Board engine -/

/-- The global `static char board[8][8]`: row 0 is the bottom, row 7 the top. -/
abbrev Board := Fin 8 → Fin 8 → Char

/-- The write `board[r][c] = v`. -/
def Board.set (b : Board) (r c : Fin 8) (v : Char) : Board :=
  fun r' c' => if r' = r ∧ c' = c then v else b r' c'

/-- The read `board[r][c]` for `int` indices: `none` when an index is outside `0..7`. -/
def Board.get? (b : Board) (r c : Int) : Option Char :=
  if h : 0 ≤ r ∧ r < 8 ∧ 0 ≤ c ∧ c < 8 then
    some (b ⟨r.toNat, by omega⟩ ⟨c.toNat, by omega⟩)
  else none

/-- The board `reset_board` leaves behind: both loops store `'0'` in every cell. -/
def reset_board : Board := fun _ _ => '0'

/-- The function `col_to_index`: `'A'..'H'` and `'a'..'h'` map to `0..7`, anything else to `-1`. -/
def col_to_index (col_char : Char) : Int :=
  if 'A'.toNat ≤ col_char.toNat ∧ col_char.toNat ≤ 'H'.toNat then
    (col_char.toNat : Int) - ('A'.toNat : Int)
  else if 'a'.toNat ≤ col_char.toNat ∧ col_char.toNat ≤ 'h'.toNat then
    (col_char.toNat : Int) - ('a'.toNat : Int)
  else -1

/-- The loop `for (row = ...; row < 8; row++)` of `drop_chip` with `n`
iterations left; the column index has passed the range check. -/
def drop_chip_loop (b : Board) (player : Char) (c : Fin 8) : Nat → Nat → Int × Board
  | 0, _ => (1, b)
  | n + 1, row =>
    if h : row < 8 then
      if b ⟨row, h⟩ c = '0' then (0, b.set ⟨row, h⟩ c player)
      else drop_chip_loop b player c n (row + 1)
    else (1, b)

/-- The function `drop_chip(player, col_idx)`: the return code (`0` placed, `1` column
full, `-1` invalid column) and the board afterwards. -/
def drop_chip (b : Board) (player : Char) (col_idx : Int) : Int × Board :=
  if h : col_idx < 0 ∨ col_idx > 7 then (-1, b)
  else drop_chip_loop b player ⟨col_idx.toNat, by omega⟩ 8 0

/-- Inner loop of `board_is_full` over the columns of row `r`. -/
def board_is_full_cols (b : Board) (r : Fin 8) : Nat → Nat → Bool
  | 0, _ => true
  | n + 1, c =>
    if h : c < 8 then
      if b r ⟨c, h⟩ = '0' then false else board_is_full_cols b r n (c + 1)
    else true

/-- Outer loop of `board_is_full` over the rows. -/
def board_is_full_rows (b : Board) : Nat → Nat → Bool
  | 0, _ => true
  | n + 1, r =>
    if h : r < 8 then
      if board_is_full_cols b ⟨r, h⟩ 8 0 then board_is_full_rows b n (r + 1) else false
    else true

/-- The function `board_is_full()`. -/
def board_is_full (b : Board) : Bool := board_is_full_rows b 8 0

/-- The loop `for (i = ...; i < 4; i++)` of `check_for_four` with `n`
iterations left; `rr`, `cc` are the coordinates before the step. -/
def check_for_four_loop (b : Board) (start : Char) (dr dc : Int) :
    Nat → Int → Int → Option Char
  | 0, _, _ => some start
  | n + 1, rr, cc =>
    let rr := rr + dr
    let cc := cc + dc
    if rr < 0 ∨ rr ≥ 8 ∨ cc < 0 ∨ cc ≥ 8 then some '0'
    else
      match b.get? rr cc with
      | none => none
      | some x => if x ≠ start then some '0' else check_for_four_loop b start dr dc n rr cc

/-- The function `check_for_four(r, c, dr, dc)`: the colour of the run of four that starts
at `(r, c)` and steps by `(dr, dc)`, or `'0'`. -/
def check_for_four (b : Board) (r c dr dc : Int) : Option Char :=
  match b.get? r c with
  | none => none
  | some start =>
    if start = '0' then some '0' else check_for_four_loop b start dr dc 3 r c

/-- The body of the inner loop of `check_game_over` at the cell `(r, c)`:
the four direction checks in source order. `'0'` means the loop goes on,
any other character is returned by `check_game_over`. -/
def check_game_over_cell (b : Board) (r c : Int) : Option Char :=
  match check_for_four b r c 0 1 with
  | none => none
  | some w1 =>
    if w1 ≠ '0' then some w1
    else
      match check_for_four b r c 1 0 with
      | none => none
      | some w2 =>
        if w2 ≠ '0' then some w2
        else
          match check_for_four b r c 1 1 with
          | none => none
          | some w3 =>
            if w3 ≠ '0' then some w3
            else
              match check_for_four b r c (-1) 1 with
              | none => none
              | some w4 => if w4 ≠ '0' then some w4 else some '0'

/-- Inner loop `for (c = ...; c < 8; c++)` of `check_game_over` in row `r`,
with `n` iterations left. -/
def check_game_over_cols (b : Board) (r : Int) : Nat → Int → Option Char
  | 0, _ => some '0'
  | n + 1, c =>
    match check_game_over_cell b r c with
    | none => none
    | some w => if w ≠ '0' then some w else check_game_over_cols b r n (c + 1)

/-- Outer loop `for (r = ...; r < 8; r++)` of `check_game_over`, with `n`
iterations left. -/
def check_game_over_rows (b : Board) : Nat → Int → Option Char
  | 0, _ => some '0'
  | n + 1, r =>
    match check_game_over_cols b r 8 0 with
    | none => none
    | some w => if w ≠ '0' then some w else check_game_over_rows b n (r + 1)

/-- The function `check_game_over()`: `'R'`/`'Y'` for a run of four, `'T'` for a full
board without one, `'0'` otherwise. -/
def check_game_over (b : Board) : Option Char :=
  match check_game_over_rows b 8 0 with
  | none => none
  | some w =>
    if w ≠ '0' then some w
    else if board_is_full b then some 'T'
    else some '0'

/-- Inner loop `for (c = ...; c < 8; c++)` of `build_board_string`: the cells
of row `r` are appended to the buffer, `n` iterations being left. -/
def build_board_string_cols (b : Board) (r : Fin 8) : Nat → Nat → List Char → List Char
  | 0, _, buf => buf
  | n + 1, c, buf =>
    if h : c < 8 then build_board_string_cols b r n (c + 1) (buf ++ [b r ⟨c, h⟩])
    else buf

/-- Outer loop `for (r = 7; r >= 0; r--)` of `build_board_string`; the row
is `n - 1` when `n` iterations are left, and a newline follows its cells. -/
def build_board_string_rows (b : Board) : Nat → List Char → List Char
  | 0, buf => buf
  | n + 1, buf =>
    if h : n < 8 then
      build_board_string_rows b n (build_board_string_cols b ⟨n, h⟩ 8 0 buf ++ ['\n'])
    else buf

/-- The function `build_board_string()`: the 72 bytes stored in `msg_buffer`. -/
def build_board_string (b : Board) : List Char := build_board_string_rows b 8 []

/-! ## Session controller -/

/-- The NUL byte. -/
def NUL : Char := Char.ofNat 0

/-- The constant `BUF_LEN`. -/
def BUF_LEN : Nat := 512

/-- The process-wide state: the board, the three session variables and the
`msg_size` bytes of `msg_buffer` that a read would deliver. -/
structure State where
  board : Board
  game_in_progress : Bool
  current_player : Char
  user_color : Char
  msg_buffer : List Char
deriving DecidableEq

/-- The state `fourinarow_init` sets up. -/
def init_state : State :=
  { board := reset_board, game_in_progress := false, current_player := 'R',
    user_color := 'R', msg_buffer := [] }

/-- The byte `buf[i]` of a zero-filled buffer holding `buf`. -/
def buf_at (buf : List Char) (i : Nat) : Char := buf.getD i NUL

/-- The `strlen` cut of a zero-filled buffer: the bytes before the first NUL. -/
def c_string (buf : List Char) : List Char := buf.takeWhile (fun ch => ch != NUL)

/-- The test `strncmp(s1, s2, n) == 0` for zero-filled buffers: bytes are compared one
by one, and the comparison stops at a difference, at a NUL, or after `n` bytes. -/
def strncmp_eq : List Char → List Char → Nat → Bool
  | _, _, 0 => true
  | s1, s2, n + 1 =>
    if s1.headD NUL ≠ s2.headD NUL then false
    else if s1.headD NUL = NUL then true
    else strncmp_eq s1.tail s2.tail n

/-- The input buffer after `input[len] = 0` and the trailing-newline trim:
a final `'\n'` is overwritten with NUL. -/
def trim_newline (user : List Char) : List Char :=
  if user.getLast? = some '\n' then user.dropLast ++ [NUL] else user

/-- The `while (tries < 100)` loop of the `CTURN` branch with `n` iterations
left: the `tries`-th byte of the random source picks the column; the loop
stops at the first `drop_chip` that returns `0`. Yields `success` and the board. -/
def cturn_loop (player : Char) (rand : Nat → Nat) : Nat → Nat → Board → Bool × Board
  | 0, _, b => (false, b)
  | n + 1, tries, b =>
    let rand_val := rand tries % 256
    let col_idx : Int := ((rand_val % 8 : Nat) : Int)
    let res := drop_chip b player col_idx
    if res.1 = 0 then (true, res.2)
    else cturn_loop player rand n (tries + 1) res.2

/-- The `DROPC` branch of `fourinarow_write`. -/
def write_dropc (s : State) (input : List Char) : Option State :=
  if !s.game_in_progress then some { s with msg_buffer := "NOGAME\n".toList }
  else if s.current_player ≠ s.user_color then some { s with msg_buffer := "OOT\n".toList }
  else
    let col_char := buf_at input 6
    let col_idx := col_to_index col_char
    if col_idx < 0 ∨ col_idx > 7 then some { s with msg_buffer := "NOGAME\n".toList }
    else
      let res := drop_chip s.board s.user_color col_idx
      if res.1 = -1 then some { s with board := res.2, msg_buffer := "NOGAME\n".toList }
      else if res.1 = 1 then some { s with board := res.2, msg_buffer := "OK\n".toList }
      else
        match check_game_over res.2 with
        | none => none
        | some result =>
          if result = s.user_color then
            some { s with board := res.2, msg_buffer := "WIN\n".toList,
                          game_in_progress := false }
          else if result = 'T' then
            some { s with board := res.2, msg_buffer := "TIE\n".toList,
                          game_in_progress := false }
          else
            some { s with board := res.2, msg_buffer := "OK\n".toList,
                          current_player := if s.user_color = 'R' then 'Y' else 'R' }

/-- The `CTURN` branch of `fourinarow_write`. -/
def write_cturn (s : State) (rand : Nat → Nat) : Option State :=
  if !s.game_in_progress then some { s with msg_buffer := "NOGAME\n".toList }
  else if s.current_player = s.user_color then some { s with msg_buffer := "OOT\n".toList }
  else
    let res := cturn_loop s.current_player rand 100 0 s.board
    if !res.1 then
      if board_is_full res.2 then
        some { s with board := res.2, msg_buffer := "TIE\n".toList,
                      game_in_progress := false }
      else some { s with board := res.2, msg_buffer := "NOGAME\n".toList }
    else
      match check_game_over res.2 with
      | none => none
      | some result =>
        if result = s.current_player then
          some { s with board := res.2, msg_buffer := "LOSE\n".toList,
                        game_in_progress := false }
        else if result = 'T' then
          some { s with board := res.2, msg_buffer := "TIE\n".toList,
                        game_in_progress := false }
        else
          some { s with board := res.2, msg_buffer := "OK\n".toList,
                        current_player := s.user_color }

/-- The function `fourinarow_write` on the `len = user.length` bytes `user`, the copy from
user space succeeding; `rand` is the sequence of bytes `get_random_bytes`
hands out during this call. The result is the state afterwards (the return
value, `len` or `-EINVAL`, is not part of it); `none` stands for a read
outside `board`. -/
def fourinarow_write (s : State) (user : List Char) (rand : Nat → Nat) : Option State :=
  let s := { s with msg_buffer := [] }
  if user.length ≥ BUF_LEN then some s
  else
    let input := trim_newline user
    if strncmp_eq input "RESET R".toList 7 then
      some { board := reset_board, user_color := 'R', current_player := 'R',
             game_in_progress := true, msg_buffer := "OK\n".toList }
    else if strncmp_eq input "RESET Y".toList 7 then
      some { board := reset_board, user_color := 'Y', current_player := 'Y',
             game_in_progress := true, msg_buffer := "OK\n".toList }
    else if strncmp_eq input "BOARD".toList 5 then
      some { s with msg_buffer := c_string (build_board_string s.board) }
    else if strncmp_eq input "DROPC ".toList 6 then write_dropc s input
    else if strncmp_eq input "CTURN".toList 5 then write_cturn s rand
    else some { s with msg_buffer := "UNKNOWN\n".toList }

/-! ## Vocabulary of the specification -/

/-- The four scanned directions `(dr, dc)` in the order `check_game_over`
tries them: right, up, up-right, down-right. -/
def dir (d : Fin 4) : Int × Int :=
  match d with
  | 0 => (0, 1)
  | 1 => (1, 0)
  | 2 => (1, 1)
  | 3 => (-1, 1)

/-- A run of four from the cell `(r, c)` with step `(dr, dc)`: the cell is
not empty, and the three cells reached by repeating the step lie inside the
grid and hold the same character. -/
def fourAtDir (b : Board) (r c : Fin 8) (dr dc : Int) : Prop :=
  b r c ≠ '0' ∧
  b.get? ((r.val : Int) + dr) ((c.val : Int) + dc) = some (b r c) ∧
  b.get? ((r.val : Int) + 2 * dr) ((c.val : Int) + 2 * dc) = some (b r c) ∧
  b.get? ((r.val : Int) + 3 * dr) ((c.val : Int) + 3 * dc) = some (b r c)

instance (b : Board) (r c : Fin 8) (dr dc : Int) : Decidable (fourAtDir b r c dr dc) := by
  unfold fourAtDir; infer_instance

/-- A run of four from `(r, c)` in the `d`-th scanned direction. -/
def fourAt (b : Board) (r c : Fin 8) (d : Fin 4) : Prop :=
  fourAtDir b r c (dir d).1 (dir d).2

instance (b : Board) (r c : Fin 8) (d : Fin 4) : Decidable (fourAt b r c d) := by
  unfold fourAt; infer_instance

/-- The board contains a four-in-a-row. -/
def hasFour (b : Board) : Prop := ∃ r c : Fin 8, ∃ d : Fin 4, fourAt b r c d

instance (b : Board) : Decidable (hasFour b) := by
  unfold hasFour; infer_instance

/-- Scan order of `check_game_over`: start row, then start column, then direction. -/
def scanBefore (r' c' : Fin 8) (d' : Fin 4) (r c : Fin 8) (d : Fin 4) : Prop :=
  r' < r ∨ (r' = r ∧ (c' < c ∨ (c' = c ∧ d' < d)))

instance (r' c' : Fin 8) (d' : Fin 4) (r c : Fin 8) (d : Fin 4) :
    Decidable (scanBefore r' c' d' r c d) := by
  unfold scanBefore; infer_instance

/-- Every cell holds `'0'` (empty), `'R'` or `'Y'`. -/
def validCells (b : Board) : Prop := ∀ r c : Fin 8, b r c = '0' ∨ b r c = 'R' ∨ b r c = 'Y'

instance (b : Board) : Decidable (validCells b) := by
  unfold validCells; infer_instance

/-- The board has an empty cell. -/
def hasEmpty (b : Board) : Prop := ∃ r c : Fin 8, b r c = '0'

instance (b : Board) : Decidable (hasEmpty b) := by
  unfold hasEmpty; infer_instance

/-- The board after `n` successive calls `drop_chip(player, col_idx)`. -/
def drop_chip_n (b : Board) (player : Char) (col_idx : Int) : Nat → Board
  | 0 => b
  | n + 1 => drop_chip_n (drop_chip b player col_idx).2 player col_idx n

/-- Gravity: a cell is non-empty only if every cell below it in the same
column is non-empty. -/
def gravity (b : Board) : Prop :=
  ∀ r c : Fin 8, b r c ≠ '0' → ∀ r' : Fin 8, r' < r → b r' c ≠ '0'

instance (b : Board) : Decidable (gravity b) := by
  unfold gravity; infer_instance

/-- The states reachable from `init_state` by writes: any command line, any
random bytes. -/
inductive Reachable : State → Prop
  | init : Reachable init_state
  | write (s s' : State) (user : List Char) (rand : Nat → Nat) :
      Reachable s → fourinarow_write s user rand = some s' → Reachable s'

/-- The responses to a sequence of writes, each with its own random bytes. -/
def run_commands (s : State) : List (List Char × (Nat → Nat)) → Option (List (List Char))
  | [] => some []
  | (user, rand) :: rest =>
    match fourinarow_write s user rand with
    | none => none
    | some s' =>
      match run_commands s' rest with
      | none => none
      | some out => some (s'.msg_buffer :: out)

/-- Column `c` has no empty cell. -/
def colFull (b : Board) (c : Fin 8) : Prop := ∀ r : Fin 8, b r c ≠ '0'

instance (b : Board) (c : Fin 8) : Decidable (colFull b c) := by
  unfold colFull; infer_instance

/-- The column the `i`-th random byte selects: `rand_val % 8`. -/
def rand_col (rand : Nat → Nat) (i : Nat) : Fin 8 :=
  ⟨rand i % 256 % 8, Nat.mod_lt _ (by decide)⟩

/-! ## Auxiliary functions used in the proofs -/

/-- The common shape of the two loops of `check_game_over`: the first value
other than `'0'` among `f i, f (i+1), ...` (`n` of them), `'0'` if there is none. -/
def scanFirst (f : Int → Option Char) : Nat → Int → Option Char
  | 0, _ => some '0'
  | n + 1, i =>
    match f i with
    | none => none
    | some w => if w ≠ '0' then some w else scanFirst f n (i + 1)

/-- The first value other than `'0'` among `g i, g (i+1), ...` (`n` of them). -/
def firstNonZero (g : Nat → Char) : Nat → Nat → Char
  | 0, _ => '0'
  | n + 1, i => if g i ≠ '0' then g i else firstNonZero g n (i + 1)

/-- What the four direction checks at `(r, c)` yield. -/
def cellWin (b : Board) (r c : Fin 8) : Char :=
  if ∃ d : Fin 4, fourAt b r c d then b r c else '0'

/-- What the scan of row `r` yields. -/
def rowWin (b : Board) (r : Nat) : Char :=
  if h : r < 8 then
    firstNonZero (fun c => if hc : c < 8 then cellWin b ⟨r, h⟩ ⟨c, hc⟩ else '0') 8 0
  else '0'

/-- What the scan of the whole board yields. -/
def scanWin (b : Board) : Char := firstNonZero (rowWin b) 8 0

/-- The state after a `RESET` for the colour `color`. -/
def reset_state (color : Char) : State :=
  { board := reset_board, user_color := color, current_player := color,
    game_in_progress := true, msg_buffer := "OK\n".toList }

/-- What `check_game_over` returns, as a total function. -/
def winner (b : Board) : Char :=
  if scanWin b ≠ '0' then scanWin b else if board_is_full b then 'T' else '0'

/-- The session variables and the board, without the response buffer. -/
def sameSession (s s' : State) : Prop :=
  s'.board = s.board ∧ s'.game_in_progress = s.game_in_progress ∧
  s'.current_player = s.current_player ∧ s'.user_color = s.user_color

/-- The response is one of the three rejections. -/
def rejected (s' : State) : Prop :=
  s'.msg_buffer = "UNKNOWN\n".toList ∨ s'.msg_buffer = "NOGAME\n".toList ∨
  s'.msg_buffer = "OOT\n".toList

/-- A state in which it is the opponent's turn: the state after `RESET R`
and `DROPC A`. -/
def state_after_first_drop : State :=
  { board := (drop_chip reset_board 'R' 0).2, game_in_progress := true,
    current_player := 'Y', user_color := 'R', msg_buffer := "OK\n".toList }

/-- A state in which it is the opponent's turn and column 5 is full. -/
def state_column_full : State :=
  { board := drop_chip_n reset_board 'R' 5 8, game_in_progress := true,
    current_player := 'Y', user_color := 'R', msg_buffer := [] }

/-- The state after `RESET R`, `DROPC A` and a `CTURN` whose first random
byte selects column `k`. -/
def state_after_cturn (k : Fin 8) : State :=
  { board := (drop_chip state_after_first_drop.board 'Y' (k.val : Int)).2,
    game_in_progress := true, current_player := 'R', user_color := 'R',
    msg_buffer := "OK\n".toList }

/-- The state after `RESET R`, `DROPC A`, that `CTURN` and a second `DROPC A`. -/
def state_after_second_drop (k : Fin 8) : State :=
  { board := (drop_chip (state_after_cturn k).board 'R' 0).2,
    game_in_progress := true, current_player := 'Y', user_color := 'R',
    msg_buffer := "OK\n".toList }

/-- A full board without a run of four: the colours alternate along every
row and change every two rows along every column. -/
def sample_tie_board : Board :=
  fun r c => if (r.val / 2 + c.val) % 2 = 0 then 'R' else 'Y'

/-- A full board with runs of four: every cell is red. -/
def sample_red_board : Board := fun _ _ => 'R'

/-- The command line without one trailing newline. -/
def strip_newline (user : List Char) : List Char :=
  if user.getLast? = some '\n' then user.dropLast else user

/-- A state in which it is the human's turn and column 5 is full. -/
def state_column_full_human : State :=
  { board := drop_chip_n reset_board 'R' 5 8, game_in_progress := true,
    current_player := 'R', user_color := 'R', msg_buffer := [] }

/-- The line starts with `RESET R` or `RESET Y`. -/
def isResetLine (user : List Char) : Prop :=
  "RESET R".toList <+: strip_newline user ∨ "RESET Y".toList <+: strip_newline user

instance (user : List Char) : Decidable (isResetLine user) := by
  unfold isResetLine; infer_instance

/-- The state after a sequence of writes, each with its own random bytes. -/
def run_state (s : State) : List (List Char × (Nat → Nat)) → Option State
  | [] => some s
  | (user, rand) :: rest =>
    match fourinarow_write s user rand with
    | none => none
    | some s' => run_state s' rest

/-- The function `fourinarow_read` with `*off = off`, the copy to user space
succeeding: the return value, the bytes handed to the reader and the offset
afterwards. The state is not touched, and the source does not look at `len`. -/
def fourinarow_read (s : State) (off : Int) : Int × List Char × Int :=
  if off > 0 then (0, [], off)
  else if s.msg_buffer.length = 0 then (0, [], off)
  else ((s.msg_buffer.length : Int), s.msg_buffer, off + (s.msg_buffer.length : Int))

/-- The colour of the other side. -/
def other_color (p : Char) : Char := if p = 'R' then 'Y' else 'R'

/-- Board `b'` is board `b` with one chip of colour `p` on the lowest empty
cell of some column. -/
def placed (b b' : Board) (p : Char) : Prop :=
  ∃ r0 c : Fin 8, b r0 c = '0' ∧ (∀ r : Fin 8, r.val < r0.val → b r c ≠ '0') ∧
    b' = b.set r0 c p

/-- A `DROPC` that placed a chip: the three outcomes of the source. -/
def dropc_placed (s s' : State) : Prop :=
  s.game_in_progress = true ∧ s.current_player = s.user_color ∧
  placed s.board s'.board s.user_color ∧ s'.user_color = s.user_color ∧
  ((winner s'.board = s.user_color ∧ s'.game_in_progress = false ∧
      s'.current_player = s.current_player ∧ s'.msg_buffer = "WIN\n".toList) ∨
   (winner s'.board ≠ s.user_color ∧ winner s'.board = 'T' ∧ s'.game_in_progress = false ∧
      s'.current_player = s.current_player ∧ s'.msg_buffer = "TIE\n".toList) ∨
   (winner s'.board ≠ s.user_color ∧ winner s'.board ≠ 'T' ∧ s'.game_in_progress = true ∧
      s'.current_player = other_color s.user_color ∧ s'.msg_buffer = "OK\n".toList))

/-- A `CTURN` that placed a chip: the three outcomes of the source. -/
def cturn_placed (s s' : State) : Prop :=
  s.game_in_progress = true ∧ s.current_player ≠ s.user_color ∧
  placed s.board s'.board s.current_player ∧ s'.user_color = s.user_color ∧
  ((winner s'.board = s.current_player ∧ s'.game_in_progress = false ∧
      s'.current_player = s.current_player ∧ s'.msg_buffer = "LOSE\n".toList) ∨
   (winner s'.board ≠ s.current_player ∧ winner s'.board = 'T' ∧
      s'.game_in_progress = false ∧ s'.current_player = s.current_player ∧
      s'.msg_buffer = "TIE\n".toList) ∨
   (winner s'.board ≠ s.current_player ∧ winner s'.board ≠ 'T' ∧
      s'.game_in_progress = true ∧ s'.current_player = s.user_color ∧
      s'.msg_buffer = "OK\n".toList))

/-- A `CTURN` whose loop placed nothing on a full board: the answer is `TIE`. -/
def cturn_full_tie (s s' : State) : Prop :=
  s.game_in_progress = true ∧ s.current_player ≠ s.user_color ∧
  board_is_full s.board = true ∧ s'.board = s.board ∧ s'.game_in_progress = false ∧
  s'.current_player = s.current_player ∧ s'.user_color = s.user_color ∧
  s'.msg_buffer = "TIE\n".toList

/-- A write that left board and session alone: what it can have answered. -/
def quiet_response (s s' : State) : Prop :=
  s'.msg_buffer = "NOGAME\n".toList ∨ s'.msg_buffer = "OOT\n".toList ∨
  (s'.msg_buffer = "OK\n".toList ∧ s.game_in_progress = true)

/-- The cells and the two colours of the session are well formed. -/
def sessionInv (s : State) : Prop :=
  validCells s.board ∧ (s.user_color = 'R' ∨ s.user_color = 'Y') ∧
  (s.current_player = 'R' ∨ s.current_player = 'Y')

/-- The number of cells of `b` that hold `p`. -/
def count_chips (b : Board) (p : Char) : Nat :=
  (Finset.univ.filter (fun rc : Fin 8 × Fin 8 => b rc.1 rc.2 = p)).card

/-- The chips alternate: while a game is in progress the human has as many
chips as the opponent on the human's turn and one more on the opponent's. -/
def countInv (s : State) : Prop :=
  s.game_in_progress = true →
    count_chips s.board s.user_color =
      count_chips s.board (other_color s.user_color) +
        (if s.current_player = s.user_color then 0 else 1)

/-! ## Properties of `drop_chip` -/

theorem Board.set_same (b : Board) (r c : Fin 8) (v : Char) : b.set r c v r c = v := by
  simp [Board.set]

theorem Board.set_other (b : Board) (r c r' c' : Fin 8) (v : Char)
    (h : ¬(r' = r ∧ c' = c)) : b.set r c v r' c' = b r' c' := by
  simp [Board.set, h]

/-- The loop of `drop_chip` stores the chip at the first empty row it meets. -/
theorem drop_chip_loop_hit (b : Board) (player : Char) (c : Fin 8) (r0 : Fin 8)
    (h0 : b r0 c = '0') :
    ∀ (n row : Nat), row ≤ r0.val → r0.val < row + n →
      (∀ r : Fin 8, row ≤ r.val → r.val < r0.val → b r c ≠ '0') →
      drop_chip_loop b player c n row = (0, b.set r0 c player) := by
  intro n
  induction n with
  | zero => intro row h1 h2; omega
  | succ n ih =>
    intro row h1 h2 hmin
    have hrow : row < 8 := lt_of_le_of_lt h1 r0.isLt
    rw [drop_chip_loop, dif_pos hrow]
    by_cases heq : row = r0.val
    · have hr : (⟨row, hrow⟩ : Fin 8) = r0 := Fin.ext heq
      rw [hr, if_pos h0]
    · have hne : b ⟨row, hrow⟩ c ≠ '0' := hmin ⟨row, hrow⟩ (le_refl _) (by simp; omega)
      rw [if_neg hne]
      exact ih (row + 1) (by omega) (by omega)
        (fun r hr1 hr2 => hmin r (by omega) hr2)

/-- The loop of `drop_chip` leaves the board alone when it meets no empty row. -/
theorem drop_chip_loop_full (b : Board) (player : Char) (c : Fin 8) :
    ∀ (n row : Nat), (∀ r : Fin 8, row ≤ r.val → r.val < row + n → b r c ≠ '0') →
      drop_chip_loop b player c n row = (1, b) := by
  intro n
  induction n with
  | zero => intro row _; rfl
  | succ n ih =>
    intro row hfull
    rw [drop_chip_loop]
    by_cases hrow : row < 8
    · rw [dif_pos hrow, if_neg (hfull ⟨row, hrow⟩ (le_refl _) (by simp))]
      exact ih (row + 1) (fun r hr1 hr2 => hfull r (by omega) (by omega))
    · rw [dif_neg hrow]

/-- In a column with an empty cell there is a lowest empty row. -/
theorem exists_lowest_empty (b : Board) (c : Fin 8) (h : ∃ r : Fin 8, b r c = '0') :
    ∃ r0 : Fin 8, b r0 c = '0' ∧ ∀ r : Fin 8, r.val < r0.val → b r c ≠ '0' := by
  have hex : ∃ k : Nat, ∃ hk : k < 8, b ⟨k, hk⟩ c = '0' := by
    obtain ⟨r, hr⟩ := h
    exact ⟨r.val, r.isLt, hr⟩
  obtain ⟨hk, hk0⟩ := Nat.find_spec hex
  refine ⟨⟨Nat.find hex, hk⟩, hk0, ?_⟩
  intro r hr hr0
  exact Nat.find_min hex hr ⟨r.isLt, hr0⟩

theorem drop_chip_valid (b : Board) (player : Char) (c : Fin 8) :
    drop_chip b player (c.val : Int) = drop_chip_loop b player c 8 0 := by
  have hc := c.isLt
  have h : ¬((c.val : Int) < 0 ∨ (c.val : Int) > 7) := by omega
  rw [drop_chip, dif_neg h]
  congr 1

/-- Effect of `drop_chip` on a column that has an empty cell. -/
theorem drop_chip_of_empty (b : Board) (player : Char) (c r0 : Fin 8)
    (h0 : b r0 c = '0') (hmin : ∀ r : Fin 8, r.val < r0.val → b r c ≠ '0') :
    drop_chip b player (c.val : Int) = (0, b.set r0 c player) := by
  rw [drop_chip_valid]
  exact drop_chip_loop_hit b player c r0 h0 8 0 (Nat.zero_le _) (by have := r0.isLt; omega)
    (fun r _ hr => hmin r hr)

/-- Effect of `drop_chip` on a column without an empty cell. -/
theorem drop_chip_of_full (b : Board) (player : Char) (c : Fin 8)
    (hfull : ∀ r : Fin 8, b r c ≠ '0') :
    drop_chip b player (c.val : Int) = (1, b) := by
  rw [drop_chip_valid]
  exact drop_chip_loop_full b player c 8 0 (fun r _ _ => hfull r)

/-- Effect of `drop_chip` on an index outside `0..7`. -/
theorem drop_chip_of_invalid (b : Board) (player : Char) (col_idx : Int)
    (h : col_idx < 0 ∨ col_idx > 7) : drop_chip b player col_idx = (-1, b) := by
  rw [drop_chip, dif_pos h]

/-- Every index in `0..7` is the value of a `Fin 8`. -/
theorem exists_fin_of_range (col_idx : Int) (h : ¬(col_idx < 0 ∨ col_idx > 7)) :
    ∃ c : Fin 8, col_idx = (c.val : Int) :=
  ⟨⟨col_idx.toNat, by omega⟩, by simp; omega⟩

/-- Claim C2. For every board, every chip colour and every column `c` in `0..7`
that has an empty cell, `drop_chip` returns `0`, the lowest empty row `r0` of
the column now holds the chip colour, and every other cell is unchanged; the
cell `(r0, c)` itself changes whenever the colour is not `'0'`. -/
theorem drop_chip_places (b : Board) (player : Char) (c : Fin 8)
    (hempty : ∃ r : Fin 8, b r c = '0') :
    ∃ r0 : Fin 8,
      b r0 c = '0' ∧ (∀ r : Fin 8, r.val < r0.val → b r c ≠ '0') ∧
      (drop_chip b player (c.val : Int)).1 = 0 ∧
      (drop_chip b player (c.val : Int)).2 r0 c = player ∧
      (∀ r' c' : Fin 8, ¬(r' = r0 ∧ c' = c) →
        (drop_chip b player (c.val : Int)).2 r' c' = b r' c') ∧
      (player ≠ '0' → (drop_chip b player (c.val : Int)).2 r0 c ≠ b r0 c) := by
  obtain ⟨r0, h0, hmin⟩ := exists_lowest_empty b c hempty
  refine ⟨r0, h0, hmin, ?_⟩
  rw [drop_chip_of_empty b player c r0 h0 hmin]
  refine ⟨rfl, Board.set_same b r0 c player, ?_, ?_⟩
  · intro r' c' h
    exact Board.set_other b r0 c r' c' player h
  · intro hp
    show b.set r0 c player r0 c ≠ b r0 c
    rw [Board.set_same, h0]
    exact hp

/-- Witness of C2: a red chip dropped into column 3 of the empty board. -/
theorem drop_chip_places_witness :
    ∃ r0 : Fin 8,
      reset_board r0 3 = '0' ∧ (∀ r : Fin 8, r.val < r0.val → reset_board r 3 ≠ '0') ∧
      (drop_chip reset_board 'R' ((3 : Fin 8).val : Int)).1 = 0 ∧
      (drop_chip reset_board 'R' ((3 : Fin 8).val : Int)).2 r0 3 = 'R' ∧
      (∀ r' c' : Fin 8, ¬(r' = r0 ∧ c' = 3) →
        (drop_chip reset_board 'R' ((3 : Fin 8).val : Int)).2 r' c' = reset_board r' c') ∧
      ('R' ≠ '0' → (drop_chip reset_board 'R' ((3 : Fin 8).val : Int)).2 r0 3
        ≠ reset_board r0 3) :=
  drop_chip_places reset_board 'R' 3 ⟨0, by decide⟩

/-- Claim C3. For every board, colour and integer column index, `drop_chip`
returns `-1` exactly when the index is outside `0..7`, returns `1` exactly
when the index is in `0..7` and no cell of that column is empty, and in both
cases the board afterwards is the board before. -/
theorem drop_chip_errors (b : Board) (player : Char) (col_idx : Int) :
    ((drop_chip b player col_idx).1 = -1 ↔ (col_idx < 0 ∨ col_idx > 7)) ∧
    ((drop_chip b player col_idx).1 = 1 ↔
      ∃ c : Fin 8, col_idx = (c.val : Int) ∧ ∀ r : Fin 8, b r c ≠ '0') ∧
    ((drop_chip b player col_idx).1 = -1 ∨ (drop_chip b player col_idx).1 = 1 →
      (drop_chip b player col_idx).2 = b) := by
  by_cases h : col_idx < 0 ∨ col_idx > 7
  · rw [drop_chip_of_invalid b player col_idx h]
    refine ⟨⟨fun _ => h, fun _ => rfl⟩, ?_, fun _ => rfl⟩
    constructor
    · intro h1; simp at h1
    · rintro ⟨c, hc, _⟩
      have := c.isLt
      omega
  · obtain ⟨c, rfl⟩ := exists_fin_of_range col_idx h
    by_cases hcol : ∃ r : Fin 8, b r c = '0'
    · obtain ⟨r0, h0, hmin⟩ := exists_lowest_empty b c hcol
      rw [drop_chip_of_empty b player c r0 h0 hmin]
      refine ⟨⟨fun h1 => by simp at h1, fun h1 => absurd h1 h⟩, ?_, ?_⟩
      · constructor
        · intro h1; simp at h1
        · rintro ⟨c', hc', hfull⟩
          have hcc : c = c' := Fin.ext (by exact_mod_cast hc')
          subst hcc
          exact absurd h0 (hfull r0)
      · rintro (h1 | h1) <;> simp at h1
    · have hfull : ∀ r : Fin 8, b r c ≠ '0' := fun r hr => hcol ⟨r, hr⟩
      rw [drop_chip_of_full b player c hfull]
      refine ⟨⟨fun h1 => by simp at h1, fun h1 => absurd h1 h⟩, ?_, fun _ => rfl⟩
      constructor
      · intro _; exact ⟨c, rfl, hfull⟩
      · intro _; rfl

/-! ## Properties of `check_for_four` and `check_game_over` -/

theorem Board.get?_val (b : Board) (r c : Fin 8) :
    b.get? (r.val : Int) (c.val : Int) = some (b r c) := by
  have hr := r.isLt
  have hc := c.isLt
  have h : 0 ≤ (r.val : Int) ∧ (r.val : Int) < 8 ∧ 0 ≤ (c.val : Int) ∧ (c.val : Int) < 8 := by
    omega
  rw [Board.get?, dif_pos h]
  simp

theorem Board.get?_eq_none (b : Board) (r c : Int)
    (h : r < 0 ∨ r ≥ 8 ∨ c < 0 ∨ c ≥ 8) : b.get? r c = none := by
  have h' : ¬(0 ≤ r ∧ r < 8 ∧ 0 ≤ c ∧ c < 8) := by omega
  rw [Board.get?, dif_neg h']

/-- One iteration of the loop of `check_for_four`, the range check folded
into the bounded read. -/
theorem check_for_four_loop_succ (b : Board) (start : Char) (dr dc : Int) (n : Nat)
    (rr cc : Int) :
    check_for_four_loop b start dr dc (n + 1) rr cc =
      if b.get? (rr + dr) (cc + dc) = some start then
        check_for_four_loop b start dr dc n (rr + dr) (cc + dc)
      else some '0' := by
  rw [check_for_four_loop]
  by_cases hb : rr + dr < 0 ∨ rr + dr ≥ 8 ∨ cc + dc < 0 ∨ cc + dc ≥ 8
  · simp only [if_pos hb, Board.get?_eq_none b _ _ hb]
    simp
  · simp only [if_neg hb]
    have hin : 0 ≤ rr + dr ∧ rr + dr < 8 ∧ 0 ≤ cc + dc ∧ cc + dc < 8 := by omega
    have hget : b.get? (rr + dr) (cc + dc)
        = some (b ⟨(rr + dr).toNat, by omega⟩ ⟨(cc + dc).toNat, by omega⟩) := by
      rw [Board.get?, dif_pos hin]
    rw [hget]
    by_cases hx : b ⟨(rr + dr).toNat, by omega⟩ ⟨(cc + dc).toNat, by omega⟩ = start
    · simp [hx]
    · simp [hx]

/-- The function `check_for_four` from a cell of the grid returns the colour of the cell
when a run of four starts there in the given direction, and `'0'` otherwise. -/
theorem check_for_four_eq (b : Board) (r c : Fin 8) (dr dc : Int) :
    check_for_four b (r.val : Int) (c.val : Int) dr dc =
      some (if fourAtDir b r c dr dc then b r c else '0') := by
  rw [check_for_four, Board.get?_val]
  by_cases h0 : b r c = '0'
  · simp [h0, fourAtDir]
  · show (if b r c = '0' then some '0' else check_for_four_loop b (b r c) dr dc 3 _ _) = _
    rw [if_neg h0, check_for_four_loop_succ, check_for_four_loop_succ,
      check_for_four_loop_succ]
    simp only [check_for_four_loop]
    have e2 : (r.val : Int) + dr + dr = (r.val : Int) + 2 * dr := by ring
    have e2' : (c.val : Int) + dc + dc = (c.val : Int) + 2 * dc := by ring
    have e3 : (r.val : Int) + 2 * dr + dr = (r.val : Int) + 3 * dr := by ring
    have e3' : (c.val : Int) + 2 * dc + dc = (c.val : Int) + 3 * dc := by ring
    rw [e2, e2', e3, e3']
    by_cases h1 : b.get? ((r.val : Int) + dr) ((c.val : Int) + dc) = some (b r c)
    · by_cases h2 : b.get? ((r.val : Int) + 2 * dr) ((c.val : Int) + 2 * dc) = some (b r c)
      · by_cases h3 : b.get? ((r.val : Int) + 3 * dr) ((c.val : Int) + 3 * dc) = some (b r c)
        · simp [fourAtDir, h0, h1, h2, h3]
        · simp [fourAtDir, h0, h1, h2, h3]
      · simp [fourAtDir, h0, h1, h2]
    · simp [fourAtDir, h0, h1]

theorem exists_fin_four (P : Fin 4 → Prop) : (∃ d : Fin 4, P d) ↔ P 0 ∨ P 1 ∨ P 2 ∨ P 3 := by
  constructor
  · rintro ⟨d, hd⟩
    fin_cases d
    · exact Or.inl hd
    · exact Or.inr (Or.inl hd)
    · exact Or.inr (Or.inr (Or.inl hd))
    · exact Or.inr (Or.inr (Or.inr hd))
  · rintro (h | h | h | h)
    exacts [⟨0, h⟩, ⟨1, h⟩, ⟨2, h⟩, ⟨3, h⟩]

theorem fourAtDir_ne (b : Board) (r c : Fin 8) (dr dc : Int) (h : fourAtDir b r c dr dc) :
    b r c ≠ '0' := h.1

/-- The four direction checks at a cell of the grid. -/
theorem check_game_over_cell_eq (b : Board) (r c : Fin 8) :
    check_game_over_cell b (r.val : Int) (c.val : Int) = some (cellWin b r c) := by
  simp only [check_game_over_cell, check_for_four_eq, cellWin, exists_fin_four, fourAt, dir]
  by_cases h1 : fourAtDir b r c 0 1
  · simp [h1, fourAtDir_ne b r c _ _ h1]
  · by_cases h2 : fourAtDir b r c 1 0
    · simp [h1, h2, fourAtDir_ne b r c _ _ h2]
    · by_cases h3 : fourAtDir b r c 1 1
      · simp [h1, h2, h3, fourAtDir_ne b r c _ _ h3]
      · by_cases h4 : fourAtDir b r c (-1) 1
        · simp [h1, h2, h3, h4, fourAtDir_ne b r c _ _ h4]
        · simp [h1, h2, h3, h4]

theorem check_game_over_cols_eq_scanFirst (b : Board) (r : Int) (n : Nat) (c : Int) :
    check_game_over_cols b r n c = scanFirst (check_game_over_cell b r) n c := by
  induction n generalizing c with
  | zero => rfl
  | succ n ih => simp only [check_game_over_cols, scanFirst, ih]

theorem check_game_over_rows_eq_scanFirst (b : Board) (n : Nat) (r : Int) :
    check_game_over_rows b n r = scanFirst (fun r => check_game_over_cols b r 8 0) n r := by
  induction n generalizing r with
  | zero => rfl
  | succ n ih => simp only [check_game_over_rows, scanFirst, ih]

/-- A scan whose steps all return is the pure scan of the returned values. -/
theorem scanFirst_eq (f : Int → Option Char) (g : Nat → Char) (n i : Nat)
    (h : ∀ j : Nat, i ≤ j → j < i + n → f (j : Int) = some (g j)) :
    scanFirst f n (i : Int) = some (firstNonZero g n i) := by
  induction n generalizing i with
  | zero => rfl
  | succ n ih =>
    rw [scanFirst, h i (le_refl _) (by omega), firstNonZero]
    by_cases hg : g i = '0'
    · simp only [hg, ne_eq, not_true_eq_false, if_false]
      have := ih (i + 1) (fun j h1 h2 => h j (by omega) (by omega))
      exact_mod_cast this
    · simp [hg]

theorem firstNonZero_eq_zero (g : Nat → Char) (n i : Nat)
    (h : ∀ j : Nat, i ≤ j → j < i + n → g j = '0') : firstNonZero g n i = '0' := by
  induction n generalizing i with
  | zero => rfl
  | succ n ih =>
    rw [firstNonZero, if_neg (by simp [h i (le_refl _) (by omega)])]
    exact ih (i + 1) (fun j h1 h2 => h j (by omega) (by omega))

theorem firstNonZero_eq_first (g : Nat → Char) (n i k : Nat) (hik : i ≤ k) (hkn : k < i + n)
    (hk : g k ≠ '0') (hmin : ∀ j : Nat, i ≤ j → j < k → g j = '0') :
    firstNonZero g n i = g k := by
  induction n generalizing i with
  | zero => omega
  | succ n ih =>
    rw [firstNonZero]
    by_cases heq : i = k
    · subst heq
      rw [if_pos hk]
    · rw [if_neg (by simp [hmin i (le_refl _) (by omega)])]
      exact ih (i + 1) (by omega) (by omega) (fun j h1 h2 => hmin j (by omega) h2)

theorem firstNonZero_ne_zero (g : Nat → Char) (n i : Nat) (h : firstNonZero g n i ≠ '0') :
    ∃ k : Nat, i ≤ k ∧ k < i + n ∧ g k = firstNonZero g n i := by
  induction n generalizing i with
  | zero => exact absurd rfl h
  | succ n ih =>
    rw [firstNonZero] at h ⊢
    by_cases hg : g i = '0'
    · simp only [hg, ne_eq, not_true_eq_false, if_false] at h ⊢
      obtain ⟨k, h1, h2, h3⟩ := ih (i + 1) h
      exact ⟨k, by omega, by omega, h3⟩
    · rw [if_pos hg]
      exact ⟨i, le_refl _, by omega, rfl⟩

theorem firstNonZero_zero_all (g : Nat → Char) (n i : Nat) (h : firstNonZero g n i = '0') :
    ∀ j : Nat, i ≤ j → j < i + n → g j = '0' := by
  induction n generalizing i with
  | zero => intro j h1 h2; omega
  | succ n ih =>
    intro j h1 h2
    rw [firstNonZero] at h
    by_cases hg : g i = '0'
    · simp only [hg, ne_eq, not_true_eq_false, if_false] at h
      by_cases hj : j = i
      · rw [hj]; exact hg
      · exact ih (i + 1) h j (by omega) (by omega)
    · rw [if_pos hg] at h
      exact absurd h hg

/-- The scan of a row of the grid. -/
theorem check_game_over_cols_eq (b : Board) (r : Fin 8) :
    check_game_over_cols b (r.val : Int) 8 0 = some (rowWin b r.val) := by
  rw [check_game_over_cols_eq_scanFirst, rowWin, dif_pos r.isLt]
  have := scanFirst_eq (check_game_over_cell b (r.val : Int))
    (fun c => if hc : c < 8 then cellWin b r ⟨c, hc⟩ else '0') 8 0
    (fun j _ hj => by
      have hj8 : j < 8 := by omega
      simp only [dif_pos hj8]
      exact check_game_over_cell_eq b r ⟨j, hj8⟩)
  exact_mod_cast this

/-- The scan of the whole grid. -/
theorem check_game_over_rows_eq (b : Board) :
    check_game_over_rows b 8 0 = some (scanWin b) := by
  rw [check_game_over_rows_eq_scanFirst, scanWin]
  have := scanFirst_eq (fun r => check_game_over_cols b r 8 0) (rowWin b) 8 0
    (fun j _ hj => by
      have hj8 : j < 8 := by omega
      exact check_game_over_cols_eq b ⟨j, hj8⟩)
  exact_mod_cast this

/-- The function `check_game_over` always returns: the scan result if it is not `'0'`,
else `'T'` on a full board and `'0'` on any other. -/
theorem check_game_over_eq (b : Board) :
    check_game_over b =
      some (if scanWin b ≠ '0' then scanWin b else if board_is_full b then 'T' else '0') := by
  rw [check_game_over, check_game_over_rows_eq]
  by_cases h : scanWin b = '0'
  · by_cases hf : board_is_full b = true
    · simp [h, hf]
    · simp [h, hf]
  · simp [h]

theorem board_is_full_cols_iff (b : Board) (r : Fin 8) (n c : Nat) :
    board_is_full_cols b r n c = true ↔
      ∀ j : Fin 8, c ≤ j.val → j.val < c + n → b r j ≠ '0' := by
  induction n generalizing c with
  | zero =>
    simp only [board_is_full_cols, true_iff]
    intro j h1 h2; omega
  | succ n ih =>
    rw [board_is_full_cols]
    by_cases hc : c < 8
    · rw [dif_pos hc]
      by_cases h0 : b r ⟨c, hc⟩ = '0'
      · rw [if_pos h0]
        constructor
        · intro h; exact absurd h (by decide)
        · intro h; exact absurd h0 (h ⟨c, hc⟩ (le_refl _) (by simp))
      · rw [if_neg h0, ih]
        constructor
        · intro h j h1 h2
          by_cases hj : j.val = c
          · have : j = ⟨c, hc⟩ := Fin.ext hj
            rw [this]; exact h0
          · exact h j (by omega) (by omega)
        · intro h j h1 h2
          exact h j (by omega) (by omega)
    · rw [dif_neg hc]
      simp only [true_iff]
      intro j h1 h2
      have := j.isLt
      omega

theorem board_is_full_rows_iff (b : Board) (n r : Nat) :
    board_is_full_rows b n r = true ↔
      ∀ i : Fin 8, r ≤ i.val → i.val < r + n → ∀ j : Fin 8, b i j ≠ '0' := by
  induction n generalizing r with
  | zero =>
    simp only [board_is_full_rows, true_iff]
    intro i h1 h2; omega
  | succ n ih =>
    rw [board_is_full_rows]
    by_cases hr : r < 8
    · rw [dif_pos hr]
      by_cases hrow : board_is_full_cols b ⟨r, hr⟩ 8 0 = true
      · rw [if_pos hrow, ih]
        rw [board_is_full_cols_iff] at hrow
        constructor
        · intro h i h1 h2 j
          by_cases hi : i.val = r
          · have : i = ⟨r, hr⟩ := Fin.ext hi
            rw [this]
            exact hrow j (Nat.zero_le _) (by have := j.isLt; omega)
          · exact h i (by omega) (by omega) j
        · intro h i h1 h2 j
          exact h i (by omega) (by omega) j
      · rw [if_neg hrow]
        constructor
        · intro h; exact absurd h (by decide)
        · intro h
          exfalso
          apply hrow
          rw [board_is_full_cols_iff]
          intro j _ _
          exact h ⟨r, hr⟩ (le_refl _) (by simp) j
    · rw [dif_neg hr]
      simp only [true_iff]
      intro i h1 h2
      have := i.isLt
      omega

/-- The function `board_is_full` answers `true` exactly when no cell is `'0'`. -/
theorem board_is_full_iff (b : Board) :
    board_is_full b = true ↔ ∀ r c : Fin 8, b r c ≠ '0' := by
  rw [board_is_full, board_is_full_rows_iff]
  constructor
  · intro h r c
    exact h r (Nat.zero_le _) (by have := r.isLt; omega) c
  · intro h r _ _ c
    exact h r c

theorem board_is_full_iff_not_hasEmpty (b : Board) :
    board_is_full b = true ↔ ¬hasEmpty b := by
  rw [board_is_full_iff, hasEmpty]
  constructor
  · rintro h ⟨r, c, hrc⟩
    exact h r c hrc
  · intro h r c hrc
    exact h ⟨r, c, hrc⟩

theorem cellWin_of_four (b : Board) (r c : Fin 8) (h : ∃ d : Fin 4, fourAt b r c d) :
    cellWin b r c = b r c ∧ b r c ≠ '0' := by
  obtain ⟨d, hd⟩ := h
  exact ⟨by rw [cellWin, if_pos ⟨d, hd⟩], hd.1⟩

theorem cellWin_of_none (b : Board) (r c : Fin 8) (h : ¬∃ d : Fin 4, fourAt b r c d) :
    cellWin b r c = '0' := by
  rw [cellWin, if_neg h]

theorem cellWin_ne_zero (b : Board) (r c : Fin 8) (h : cellWin b r c ≠ '0') :
    (∃ d : Fin 4, fourAt b r c d) ∧ cellWin b r c = b r c := by
  by_cases hex : ∃ d : Fin 4, fourAt b r c d
  · exact ⟨hex, (cellWin_of_four b r c hex).1⟩
  · exact absurd (cellWin_of_none b r c hex) h

/-- The scan yields the colour of the first run of four in scan order. -/
theorem scanWin_of_first (b : Board) (r c : Fin 8) (d : Fin 4) (h : fourAt b r c d)
    (hmin : ∀ (r' c' : Fin 8) (d' : Fin 4), scanBefore r' c' d' r c d → ¬fourAt b r' c' d') :
    scanWin b = b r c := by
  have hcell := cellWin_of_four b r c ⟨d, h⟩
  have hrow : rowWin b r.val = b r c := by
    rw [rowWin, dif_pos r.isLt]
    rw [firstNonZero_eq_first _ 8 0 c.val (Nat.zero_le _) (by have := c.isLt; omega)]
    · simp only [dif_pos c.isLt]
      exact hcell.1
    · simp only [dif_pos c.isLt]
      rw [show (⟨r.val, r.isLt⟩ : Fin 8) = r from rfl, show (⟨c.val, c.isLt⟩ : Fin 8) = c from rfl,
        hcell.1]
      exact hcell.2
    · intro j _ hj
      have hj8 : j < 8 := by have := c.isLt; omega
      simp only [dif_pos hj8]
      apply cellWin_of_none
      rintro ⟨d', hd'⟩
      exact hmin r ⟨j, hj8⟩ d' (Or.inr ⟨rfl, Or.inl hj⟩) hd'
  rw [scanWin, firstNonZero_eq_first _ 8 0 r.val (Nat.zero_le _) (by have := r.isLt; omega)]
  · exact hrow
  · rw [hrow]; exact hcell.2
  · intro j _ hj
    have hj8 : j < 8 := by have := r.isLt; omega
    rw [rowWin, dif_pos hj8]
    apply firstNonZero_eq_zero
    intro k _ hk
    have hk8 : k < 8 := by omega
    simp only [dif_pos hk8]
    apply cellWin_of_none
    rintro ⟨d', hd'⟩
    exact hmin ⟨j, hj8⟩ ⟨k, hk8⟩ d' (Or.inl hj) hd'

/-- A scan result other than `'0'` is the colour of a run of four. -/
theorem scanWin_ne_zero (b : Board) (h : scanWin b ≠ '0') :
    ∃ (r c : Fin 8) (d : Fin 4), fourAt b r c d ∧ scanWin b = b r c := by
  obtain ⟨i, _, hi, hrow⟩ := firstNonZero_ne_zero (rowWin b) 8 0 h
  have hi8 : i < 8 := by omega
  rw [← scanWin] at hrow
  have hrow0 : rowWin b i ≠ '0' := by rw [hrow]; exact h
  rw [rowWin, dif_pos hi8] at hrow0 hrow
  obtain ⟨j, _, hj, hcell⟩ := firstNonZero_ne_zero _ 8 0 hrow0
  have hj8 : j < 8 := by omega
  simp only [dif_pos hj8] at hcell
  rw [← hcell] at hrow0
  obtain ⟨⟨d, hd⟩, hcw⟩ := cellWin_ne_zero b ⟨i, hi8⟩ ⟨j, hj8⟩ hrow0
  exact ⟨⟨i, hi8⟩, ⟨j, hj8⟩, d, hd, by rw [← hrow, ← hcell, hcw]⟩

/-- The scan yields `'0'` exactly on the boards without a run of four. -/
theorem scanWin_eq_zero_iff (b : Board) : scanWin b = '0' ↔ ¬hasFour b := by
  constructor
  · rintro h ⟨r, c, d, hd⟩
    have hrow := firstNonZero_zero_all (rowWin b) 8 0 h r.val (Nat.zero_le _)
      (by have := r.isLt; omega)
    rw [rowWin, dif_pos r.isLt] at hrow
    have hcell := firstNonZero_zero_all _ 8 0 hrow c.val (Nat.zero_le _)
      (by have := c.isLt; omega)
    simp only [dif_pos c.isLt] at hcell
    have := cellWin_of_four b r c ⟨d, hd⟩
    exact this.2 (this.1 ▸ hcell)
  · intro h
    by_contra hne
    obtain ⟨r, c, d, hd, _⟩ := scanWin_ne_zero b hne
    exact h ⟨r, c, d, hd⟩

/-- On a board of `'0'`, `'R'`, `'Y'` a scan result other than `'0'` is a colour. -/
theorem scanWin_color (b : Board) (hv : validCells b) (h : scanWin b ≠ '0') :
    scanWin b = 'R' ∨ scanWin b = 'Y' := by
  obtain ⟨r, c, d, hd, heq⟩ := scanWin_ne_zero b h
  rw [heq]
  rcases hv r c with h0 | hR | hY
  · exact absurd h0 hd.1
  · exact Or.inl hR
  · exact Or.inr hY

/-- Claim C1. (1) When the board has a run of four, `check_game_over` returns
the colour of the first one in scan order (start row, then start column, then
direction). (2) On a board whose cells are `'0'`, `'R'` or `'Y'` it returns
`'R'` or `'Y'` exactly when the board has a run of four. (3) After
`reset_board` and four drops of one colour into one column it returns that
colour, and after three it does not. -/
theorem check_game_over_winner (b : Board) :
    (∀ (r c : Fin 8) (d : Fin 4), fourAt b r c d →
      (∀ (r' c' : Fin 8) (d' : Fin 4), scanBefore r' c' d' r c d → ¬fourAt b r' c' d') →
      check_game_over b = some (b r c)) ∧
    (validCells b →
      ((check_game_over b = some 'R' ∨ check_game_over b = some 'Y') ↔ hasFour b)) ∧
    (∀ (player : Char) (c : Fin 8), player = 'R' ∨ player = 'Y' →
      check_game_over (drop_chip_n reset_board player (c.val : Int) 4) = some player ∧
      check_game_over (drop_chip_n reset_board player (c.val : Int) 3) ≠ some player) := by
  refine ⟨?_, ?_, ?_⟩
  · intro r c d h hmin
    rw [check_game_over_eq, scanWin_of_first b r c d h hmin, if_pos h.1]
  · intro hv
    rw [check_game_over_eq]
    by_cases h0 : scanWin b = '0'
    · have hno : ¬hasFour b := (scanWin_eq_zero_iff b).1 h0
      simp only [h0, ne_eq, not_true_eq_false, if_false, hno, iff_false]
      by_cases hf : board_is_full b = true
      · simp [hf]
      · simp [hf]
    · have hyes : hasFour b := by
        by_contra hno
        exact h0 ((scanWin_eq_zero_iff b).2 hno)
      simp only [ne_eq, h0, not_false_eq_true, if_true, hyes, iff_true, Option.some.injEq]
      exact scanWin_color b hv h0
  · intro player c hp
    rcases hp with rfl | rfl <;> fin_cases c <;> exact ⟨by decide, by decide⟩

/-- Witness of C1: four red chips in column 3 of the empty board. -/
theorem check_game_over_winner_witness :
    fourAt (drop_chip_n reset_board 'R' 3 4) 0 3 1 ∧
    check_game_over (drop_chip_n reset_board 'R' 3 4)
      = some (drop_chip_n reset_board 'R' 3 4 0 3) ∧
    validCells (drop_chip_n reset_board 'R' 3 4) ∧
    ((check_game_over (drop_chip_n reset_board 'R' 3 4) = some 'R' ∨
      check_game_over (drop_chip_n reset_board 'R' 3 4) = some 'Y') ↔
        hasFour (drop_chip_n reset_board 'R' 3 4)) :=
  ⟨by decide,
   (check_game_over_winner (drop_chip_n reset_board 'R' 3 4)).1 0 3 1 (by decide) (by decide),
   by decide,
   (check_game_over_winner (drop_chip_n reset_board 'R' 3 4)).2.1 (by decide)⟩

/-- Claim C4. On a board whose cells are `'0'`, `'R'` or `'Y'`, `check_game_over`
returns `'T'` exactly when the board has no empty cell and no run of four, and
`'0'` exactly when it has an empty cell and no run of four; a full board with
a run of four is reported as a win for a colour and not as a tie. -/
theorem check_game_over_tie (b : Board) (hv : validCells b) :
    (check_game_over b = some 'T' ↔ (¬hasEmpty b ∧ ¬hasFour b)) ∧
    (check_game_over b = some '0' ↔ (hasEmpty b ∧ ¬hasFour b)) ∧
    (¬hasEmpty b → hasFour b →
      (check_game_over b = some 'R' ∨ check_game_over b = some 'Y') ∧
      check_game_over b ≠ some 'T') := by
  rw [check_game_over_eq]
  by_cases h0 : scanWin b = '0'
  · have hno : ¬hasFour b := (scanWin_eq_zero_iff b).1 h0
    simp only [h0, ne_eq, not_true_eq_false, if_false, hno, not_false_eq_true, and_true]
    by_cases hf : board_is_full b = true
    · have hne : ¬hasEmpty b := (board_is_full_iff_not_hasEmpty b).1 hf
      simp [hf, hne]
    · have hne : hasEmpty b := by
        by_contra hc
        exact hf ((board_is_full_iff_not_hasEmpty b).2 hc)
      simp [hf, hne]
  · have hyes : hasFour b := by
      by_contra hno
      exact h0 ((scanWin_eq_zero_iff b).2 hno)
    have hcol := scanWin_color b hv h0
    simp only [ne_eq, h0, not_false_eq_true, if_true, hyes, not_true_eq_false, and_false,
      Option.some.injEq, iff_false]
    refine ⟨?_, trivial, ?_⟩
    · rcases hcol with h | h <;> rw [h] <;> decide
    · intro _ _
      refine ⟨hcol, ?_⟩
      rcases hcol with h | h <;> rw [h] <;> decide

/-- Witness of C4: a full board without a run of four is a tie, the empty
board is `'0'`, and a full red board is a win for Red. -/
theorem check_game_over_tie_witness :
    validCells sample_tie_board ∧ check_game_over sample_tie_board = some 'T' ∧
    validCells reset_board ∧ check_game_over reset_board = some '0' ∧
    validCells sample_red_board ∧
    (check_game_over sample_red_board = some 'R' ∨
      check_game_over sample_red_board = some 'Y') ∧
    check_game_over sample_red_board ≠ some 'T' :=
  ⟨by decide,
   (check_game_over_tie sample_tie_board (by decide)).1.2 ⟨by decide, by decide⟩,
   by decide,
   (check_game_over_tie reset_board (by decide)).2.1.2 ⟨by decide, by decide⟩,
   by decide,
   (check_game_over_tie sample_red_board (by decide)).2.2 (by decide) (by decide)⟩

/-! ## Invariants of the board -/

/-- The function `drop_chip` returns the board it was given or that board with one more
chip on the lowest empty cell of a column. -/
theorem drop_chip_cases (b : Board) (player : Char) (col_idx : Int) :
    (drop_chip b player col_idx).2 = b ∨
    ∃ r0 c : Fin 8, b r0 c = '0' ∧ (∀ r : Fin 8, r.val < r0.val → b r c ≠ '0') ∧
      col_idx = (c.val : Int) ∧ drop_chip b player col_idx = (0, b.set r0 c player) := by
  by_cases h : col_idx < 0 ∨ col_idx > 7
  · left; rw [drop_chip_of_invalid b player col_idx h]
  · obtain ⟨c, rfl⟩ := exists_fin_of_range col_idx h
    by_cases hcol : ∃ r : Fin 8, b r c = '0'
    · obtain ⟨r0, h0, hmin⟩ := exists_lowest_empty b c hcol
      right
      exact ⟨r0, c, h0, hmin, rfl, drop_chip_of_empty b player c r0 h0 hmin⟩
    · left
      rw [drop_chip_of_full b player c (fun r hr => hcol ⟨r, hr⟩)]

/-- A call of `drop_chip` that does not return `0` leaves the board alone. -/
theorem drop_chip_board_of_ne_zero (b : Board) (player : Char) (col_idx : Int)
    (h : (drop_chip b player col_idx).1 ≠ 0) : (drop_chip b player col_idx).2 = b := by
  rcases drop_chip_cases b player col_idx with hb | ⟨_, _, _, _, _, heq⟩
  · exact hb
  · rw [heq] at h
    exact absurd rfl h

/-- The function `drop_chip` preserves gravity, whatever the colour and the column index. -/
theorem drop_chip_gravity (b : Board) (player : Char) (col_idx : Int) (hg : gravity b) :
    gravity (drop_chip b player col_idx).2 := by
  rcases drop_chip_cases b player col_idx with h | ⟨r0, c, h0, hmin, _, heq⟩
  · rw [h]; exact hg
  · rw [heq]
    intro r c' hne r' hlt
    show b.set r0 c player r' c' ≠ '0'
    have hne' : b.set r0 c player r c' ≠ '0' := hne
    by_cases hcc : c' = c
    · subst hcc
      by_cases hr : r = r0
      · subst hr
        rw [Board.set_other b r c' r' c' player (by
          rintro ⟨h1, _⟩; rw [h1] at hlt; exact absurd hlt (lt_irrefl _))]
        exact hmin r' hlt
      · rw [Board.set_other b r0 c' r c' player (by rintro ⟨h1, _⟩; exact hr h1)] at hne'
        by_cases hr' : r' = r0
        · subst hr'
          exact absurd h0 (hg r c' hne' r' hlt)
        · rw [Board.set_other b r0 c' r' c' player (by rintro ⟨h1, _⟩; exact hr' h1)]
          exact hg r c' hne' r' hlt
    · rw [Board.set_other b r0 c r c' player (by rintro ⟨_, h1⟩; exact hcc h1)] at hne'
      rw [Board.set_other b r0 c r' c' player (by rintro ⟨_, h1⟩; exact hcc h1)]
      exact hg r c' hne' r' hlt

/-- Whatever `drop_chip` preserves for the colour `player`, the loop of
`CTURN` preserves. -/
theorem cturn_loop_inv (P : Board → Prop) (player : Char) (rand : Nat → Nat)
    (hd : ∀ (b : Board) (col_idx : Int), P b → P (drop_chip b player col_idx).2) :
    ∀ (n tries : Nat) (b : Board), P b → P (cturn_loop player rand n tries b).2 := by
  intro n
  induction n with
  | zero => intro tries b hb; exact hb
  | succ n ih =>
    intro tries b hb
    rw [cturn_loop]
    split
    · exact hd b _ hb
    · exact ih (tries + 1) _ (hd b _ hb)

/-- The board after the `DROPC` branch. -/
theorem write_dropc_board (s s' : State) (input : List Char)
    (h : write_dropc s input = some s') :
    s'.board = s.board ∨ ∃ col_idx : Int, s'.board = (drop_chip s.board s.user_color col_idx).2 := by
  unfold write_dropc at h
  simp only [] at h
  split_ifs at h
  all_goals first
    | (injection h with h; subst h; exact Or.inl rfl)
    | (injection h with h; subst h; exact Or.inr ⟨_, rfl⟩)
    | skip
  all_goals
    split at h
    · exact absurd h (by simp)
    · split_ifs at h <;> (injection h with h; subst h; exact Or.inr ⟨_, rfl⟩)

/-- The board after the `CTURN` branch. -/
theorem write_cturn_board (s s' : State) (rand : Nat → Nat)
    (h : write_cturn s rand = some s') :
    s'.board = s.board ∨ s'.board = (cturn_loop s.current_player rand 100 0 s.board).2 := by
  unfold write_cturn at h
  simp only [] at h
  split_ifs at h
  all_goals first
    | (injection h with h; subst h; exact Or.inl rfl)
    | (injection h with h; subst h; exact Or.inr rfl)
    | skip
  all_goals
    split at h
    · exact absurd h (by simp)
    · split_ifs at h <;> (injection h with h; subst h; exact Or.inr rfl)

/-- A property of the board that holds after `reset_board` and that
`drop_chip` preserves for the two colours of the session is preserved by
`fourinarow_write`. -/
theorem fourinarow_write_board_inv (P : Board → Prop) (s s' : State) (user : List Char)
    (rand : Nat → Nat) (h0 : P reset_board)
    (hdu : ∀ (b : Board) (col_idx : Int), P b → P (drop_chip b s.user_color col_idx).2)
    (hdc : ∀ (b : Board) (col_idx : Int), P b → P (drop_chip b s.current_player col_idx).2)
    (h : fourinarow_write s user rand = some s') (hs : P s.board) : P s'.board := by
  unfold fourinarow_write at h
  simp only [] at h
  split_ifs at h
  · injection h with h; subst h; exact hs
  · injection h with h; subst h; exact h0
  · injection h with h; subst h; exact h0
  · injection h with h; subst h; exact hs
  · rcases write_dropc_board _ s' _ h with hb | ⟨col_idx, hb⟩
    · rw [hb]; exact hs
    · rw [hb]; exact hdu _ col_idx hs
  · rcases write_cturn_board _ s' _ h with hb | hb
    · rw [hb]; exact hs
    · rw [hb]; exact cturn_loop_inv P _ rand hdc 100 0 _ hs
  · injection h with h; subst h; exact hs

/-- Claim C5. Gravity holds for the board `reset_board` produces, `drop_chip`
preserves it for every colour and every column index, and it holds for the
board of every state reachable from the initial state. -/
theorem gravity_invariant :
    gravity reset_board ∧
    (∀ (b : Board) (player : Char) (col_idx : Int),
      gravity b → gravity (drop_chip b player col_idx).2) ∧
    (∀ s : State, Reachable s → gravity s.board) := by
  have h0 : gravity reset_board := by decide
  refine ⟨h0, drop_chip_gravity, ?_⟩
  intro s hs
  induction hs with
  | init => exact h0
  | write s s' user rand _ hw ih =>
    exact fourinarow_write_board_inv gravity s s' user rand h0
      (fun b col_idx hb => drop_chip_gravity b _ col_idx hb)
      (fun b col_idx hb => drop_chip_gravity b _ col_idx hb) hw ih

/-- Witness of C5: one drop on the empty board, and the initial state. -/
theorem gravity_invariant_witness :
    gravity reset_board ∧ gravity (drop_chip reset_board 'R' 3).2 ∧
    Reachable init_state ∧ gravity init_state.board :=
  ⟨by decide, gravity_invariant.2.1 reset_board 'R' 3 (by decide), Reachable.init,
   gravity_invariant.2.2 init_state Reachable.init⟩

/-! ## Command parsing -/

/-- The trim of the trailing newline leaves a prefix alone that does not end
the line with a newline itself. -/
theorem trim_newline_append (p rest : List Char)
    (hp : rest = [] → p.getLast? ≠ some '\n') :
    ∃ rest' : List Char, trim_newline (p ++ rest) = p ++ rest' := by
  unfold trim_newline
  split
  · rename_i h
    have hne : rest ≠ [] := by
      intro he
      subst he
      rw [List.append_nil] at h
      exact hp rfl h
    exact ⟨rest.dropLast ++ [NUL], by
      rw [List.dropLast_append_of_ne_nil _ hne, List.append_assoc]⟩
  · exact ⟨rest, rfl⟩

theorem write_reset_R (s : State) (rest : List Char) (rand : Nat → Nat)
    (hlen : ("RESET R".toList ++ rest).length < BUF_LEN) :
    fourinarow_write s ("RESET R".toList ++ rest) rand = some (reset_state 'R') := by
  have hlen' : ¬(("RESET R".toList ++ rest).length ≥ BUF_LEN) := by omega
  obtain ⟨rest', hrest⟩ := trim_newline_append "RESET R".toList rest (fun _ => by decide)
  unfold fourinarow_write
  simp only [if_neg hlen', hrest]
  rw [if_pos (by simp [strncmp_eq, NUL])]
  rfl

theorem write_reset_Y (s : State) (rest : List Char) (rand : Nat → Nat)
    (hlen : ("RESET Y".toList ++ rest).length < BUF_LEN) :
    fourinarow_write s ("RESET Y".toList ++ rest) rand = some (reset_state 'Y') := by
  have hlen' : ¬(("RESET Y".toList ++ rest).length ≥ BUF_LEN) := by omega
  obtain ⟨rest', hrest⟩ := trim_newline_append "RESET Y".toList rest (fun _ => by decide)
  unfold fourinarow_write
  simp only [if_neg hlen', hrest]
  rw [if_neg (by simp [strncmp_eq, NUL]), if_pos (by simp [strncmp_eq, NUL])]
  rfl

/-- Claim C9. From every state, a line that starts with `RESET R` (resp.
`RESET Y`) empties every cell, makes Red (resp. Yellow) the human colour and
the current player, starts a game and answers `OK`. -/
theorem reset_command (s : State) (color : Char) (rest : List Char) (rand : Nat → Nat)
    (hcolor : color = 'R' ∨ color = 'Y')
    (hlen : ("RESET ".toList ++ color :: rest).length < BUF_LEN) :
    ∃ s' : State, fourinarow_write s ("RESET ".toList ++ color :: rest) rand = some s' ∧
      (∀ r c : Fin 8, s'.board r c = '0') ∧ s'.user_color = color ∧
      s'.current_player = s'.user_color ∧ s'.game_in_progress = true ∧
      s'.msg_buffer = "OK\n".toList := by
  refine ⟨reset_state color, ?_, fun _ _ => rfl, rfl, rfl, rfl, rfl⟩
  rcases hcolor with rfl | rfl
  · exact write_reset_R s rest rand hlen
  · exact write_reset_Y s rest rand hlen

/-- Witness of C9: `RESET Y` with its newline, in the middle of a game. -/
theorem reset_command_witness :
    ∃ s' : State,
      fourinarow_write
        { board := (drop_chip reset_board 'R' 3).2, game_in_progress := true,
          current_player := 'Y', user_color := 'R', msg_buffer := [] }
        ("RESET ".toList ++ 'Y' :: ['\n']) (fun _ => 0) = some s' ∧
      (∀ r c : Fin 8, s'.board r c = '0') ∧ s'.user_color = 'Y' ∧
      s'.current_player = s'.user_color ∧ s'.game_in_progress = true ∧
      s'.msg_buffer = "OK\n".toList :=
  reset_command _ 'Y' ['\n'] (fun _ => 0) (Or.inr rfl) (by decide)

/-! ## The `DROPC` command -/

theorem check_game_over_some (b : Board) : check_game_over b = some (winner b) :=
  check_game_over_eq b

/-- A line that starts with `DROPC ` reaches the `DROPC` branch. -/
theorem write_dropc_cmd (s : State) (mid rest : List Char) (rand : Nat → Nat)
    (hmid : rest = [] → ("DROPC ".toList ++ mid).getLast? ≠ some '\n')
    (hlen : ("DROPC ".toList ++ mid ++ rest).length < BUF_LEN) :
    ∃ rest' : List Char,
      fourinarow_write s ("DROPC ".toList ++ mid ++ rest) rand =
        write_dropc { s with msg_buffer := [] } ("DROPC ".toList ++ mid ++ rest') := by
  have hlen' : ¬(("DROPC ".toList ++ mid ++ rest).length ≥ BUF_LEN) := by omega
  obtain ⟨rest', hrest⟩ := trim_newline_append ("DROPC ".toList ++ mid) rest hmid
  refine ⟨rest', ?_⟩
  unfold fourinarow_write
  simp only [if_neg hlen', hrest]
  rw [if_neg (by simp [strncmp_eq, NUL]), if_neg (by simp [strncmp_eq, NUL]),
    if_neg (by simp [strncmp_eq, NUL]), if_pos (by simp [strncmp_eq, NUL])]

/-- The `DROPC` branch when it is the human's turn and the column has room. -/
theorem write_dropc_place (s : State) (input : List Char) (c r0 : Fin 8)
    (hgame : s.game_in_progress = true) (hturn : s.current_player = s.user_color)
    (hc : col_to_index (buf_at input 6) = (c.val : Int))
    (h0 : s.board r0 c = '0') (hmin : ∀ r : Fin 8, r.val < r0.val → s.board r c ≠ '0') :
    write_dropc s input =
      some (if winner (s.board.set r0 c s.user_color) = s.user_color then
          { s with board := s.board.set r0 c s.user_color, msg_buffer := "WIN\n".toList,
                   game_in_progress := false }
        else if winner (s.board.set r0 c s.user_color) = 'T' then
          { s with board := s.board.set r0 c s.user_color, msg_buffer := "TIE\n".toList,
                   game_in_progress := false }
        else
          { s with board := s.board.set r0 c s.user_color, msg_buffer := "OK\n".toList,
                   current_player := if s.user_color = 'R' then 'Y' else 'R' }) := by
  have hr : ¬((c.val : Int) < 0 ∨ (c.val : Int) > 7) := by have := c.isLt; omega
  unfold write_dropc
  simp only [hgame, hturn, hc, drop_chip_of_empty s.board s.user_color c r0 h0 hmin,
    check_game_over_some, if_neg hr]
  simp only [Bool.not_true, Bool.false_eq_true, if_false, ne_eq, not_true_eq_false]
  split_ifs <;> first | rfl | omega | simp_all

/-- The sixteen column letters: `A`/`a` is column 0, `H`/`h` is column 7. -/
theorem col_to_index_letter (c : Fin 8) :
    col_to_index (Char.ofNat ('A'.toNat + c.val)) = (c.val : Int) ∧
    col_to_index (Char.ofNat ('a'.toNat + c.val)) = (c.val : Int) ∧
    Char.ofNat ('A'.toNat + c.val) ≠ '\n' ∧ Char.ofNat ('a'.toNat + c.val) ≠ '\n' := by
  fin_cases c <;> decide

/-- Claim C6. In a game where it is the human's turn, `DROPC <X>` with `X` the
upper- or lower-case letter of a column `c` (A = column 0) that is not full
puts a chip of the human's colour on the lowest empty cell of that column;
with `result` what `check_game_over` then returns, the response is `WIN` and
the game ends if `result` is the human's colour, `TIE` and the game ends if
it is `'T'`, and otherwise `OK`, the game goes on and `current_player`
becomes the other colour. -/
theorem dropc_command (s : State) (c : Fin 8) (X : Char) (rest : List Char)
    (rand : Nat → Nat)
    (hgame : s.game_in_progress = true) (hturn : s.current_player = s.user_color)
    (hX : X = Char.ofNat ('A'.toNat + c.val) ∨ X = Char.ofNat ('a'.toNat + c.val))
    (hcol : ∃ r : Fin 8, s.board r c = '0')
    (hlen : ("DROPC ".toList ++ X :: rest).length < BUF_LEN) :
    col_to_index X = (c.val : Int) ∧
    ∃ (r0 : Fin 8) (result : Char) (s' : State),
      s.board r0 c = '0' ∧ (∀ r : Fin 8, r.val < r0.val → s.board r c ≠ '0') ∧
      fourinarow_write s ("DROPC ".toList ++ X :: rest) rand = some s' ∧
      s'.board = s.board.set r0 c s.user_color ∧
      check_game_over s'.board = some result ∧
      s'.user_color = s.user_color ∧
      (result = s.user_color →
        s'.msg_buffer = "WIN\n".toList ∧ s'.game_in_progress = false ∧
        s'.current_player = s.current_player) ∧
      (result ≠ s.user_color → result = 'T' →
        s'.msg_buffer = "TIE\n".toList ∧ s'.game_in_progress = false ∧
        s'.current_player = s.current_player) ∧
      (result ≠ s.user_color → result ≠ 'T' →
        s'.msg_buffer = "OK\n".toList ∧ s'.game_in_progress = true ∧
        s'.current_player = (if s.user_color = 'R' then 'Y' else 'R') ∧
        s'.current_player ≠ s.user_color) := by
  obtain ⟨r0, h0, hmin⟩ := exists_lowest_empty s.board c hcol
  have hletter := col_to_index_letter c
  have hXc : col_to_index X = (c.val : Int) := by
    rcases hX with rfl | rfl
    · exact hletter.1
    · exact hletter.2.1
  have hXn : X ≠ '\n' := by
    rcases hX with rfl | rfl
    · exact hletter.2.2.1
    · exact hletter.2.2.2
  obtain ⟨rest', hw⟩ := write_dropc_cmd s [X] rest rand
    (fun _ => by
      show some X ≠ some '\n'
      intro h
      exact hXn (Option.some.inj h)) hlen
  have hw' : fourinarow_write s ("DROPC ".toList ++ X :: rest) rand =
      write_dropc { s with msg_buffer := [] } ("DROPC ".toList ++ [X] ++ rest') := hw
  have hplace := write_dropc_place { s with msg_buffer := [] }
    ("DROPC ".toList ++ [X] ++ rest') c r0 hgame hturn hXc h0 hmin
  rw [← hw'] at hplace
  by_cases h1 : winner (s.board.set r0 c s.user_color) = s.user_color
  · rw [if_pos h1] at hplace
    exact ⟨hXc, r0, winner (s.board.set r0 c s.user_color), _, h0, hmin, hplace, rfl,
      check_game_over_some _, rfl, fun _ => ⟨rfl, rfl, rfl⟩, fun h => absurd h1 h,
      fun h => absurd h1 h⟩
  · by_cases h2 : winner (s.board.set r0 c s.user_color) = 'T'
    · rw [if_neg h1, if_pos h2] at hplace
      exact ⟨hXc, r0, winner (s.board.set r0 c s.user_color), _, h0, hmin, hplace, rfl,
        check_game_over_some _, rfl, fun h => absurd h h1, fun _ _ => ⟨rfl, rfl, rfl⟩,
        fun _ h => absurd h2 h⟩
    · rw [if_neg h1, if_neg h2] at hplace
      have hother : (if s.user_color = 'R' then 'Y' else 'R') ≠ s.user_color := by
        by_cases hu : s.user_color = 'R'
        · rw [if_pos hu, hu]; decide
        · rw [if_neg hu]; exact fun h => hu h.symm
      exact ⟨hXc, r0, winner (s.board.set r0 c s.user_color), _, h0, hmin, hplace, rfl,
        check_game_over_some _, rfl, fun h => absurd h h1, fun _ h => absurd h h2,
        fun _ _ => ⟨rfl, hgame, rfl, hother⟩⟩

/-- Witness of C6: `DROPC A` with its newline, right after `RESET R`. -/
theorem dropc_command_witness :
    col_to_index 'A' = ((0 : Fin 8).val : Int) ∧
    ∃ (r0 : Fin 8) (result : Char) (s' : State),
      (reset_state 'R').board r0 0 = '0' ∧
      (∀ r : Fin 8, r.val < r0.val → (reset_state 'R').board r 0 ≠ '0') ∧
      fourinarow_write (reset_state 'R') ("DROPC ".toList ++ 'A' :: ['\n']) (fun _ => 0)
        = some s' ∧
      s'.board = (reset_state 'R').board.set r0 0 (reset_state 'R').user_color ∧
      check_game_over s'.board = some result ∧
      s'.user_color = (reset_state 'R').user_color ∧
      (result = (reset_state 'R').user_color →
        s'.msg_buffer = "WIN\n".toList ∧ s'.game_in_progress = false ∧
        s'.current_player = (reset_state 'R').current_player) ∧
      (result ≠ (reset_state 'R').user_color → result = 'T' →
        s'.msg_buffer = "TIE\n".toList ∧ s'.game_in_progress = false ∧
        s'.current_player = (reset_state 'R').current_player) ∧
      (result ≠ (reset_state 'R').user_color → result ≠ 'T' →
        s'.msg_buffer = "OK\n".toList ∧ s'.game_in_progress = true ∧
        s'.current_player = (if (reset_state 'R').user_color = 'R' then 'Y' else 'R') ∧
        s'.current_player ≠ (reset_state 'R').user_color) :=
  dropc_command (reset_state 'R') 0 'A' ['\n'] (fun _ => 0) rfl rfl (Or.inl (by decide))
    ⟨0, by decide⟩ (by decide)

/-! ## The `CTURN` command -/

theorem drop_chip_rand_col (b : Board) (player : Char) (rand : Nat → Nat) (i : Nat) :
    drop_chip b player ((rand i % 256 % 8 : Nat) : Int)
      = drop_chip b player ((rand_col rand i).val : Int) := rfl

/-- The loop of `CTURN` fails when every byte it draws selects a full column. -/
theorem cturn_loop_fail (player : Char) (rand : Nat → Nat) (b : Board) :
    ∀ (n tries : Nat),
      (∀ i : Nat, tries ≤ i → i < tries + n → colFull b (rand_col rand i)) →
      cturn_loop player rand n tries b = (false, b) := by
  intro n
  induction n with
  | zero => intro tries _; rfl
  | succ n ih =>
    intro tries hfull
    rw [cturn_loop]
    simp only [drop_chip_rand_col,
      drop_chip_of_full b player _ (hfull tries (le_refl _) (by omega))]
    rw [if_neg (by decide)]
    exact ih (tries + 1) (fun i h1 h2 => hfull i (by omega) (by omega))

/-- The loop of `CTURN` stops at the first byte that selects a column with room. -/
theorem cturn_loop_hit (player : Char) (rand : Nat → Nat) (b : Board) (i : Nat) (r0 : Fin 8)
    (h0 : b r0 (rand_col rand i) = '0')
    (hmin : ∀ r : Fin 8, r.val < r0.val → b r (rand_col rand i) ≠ '0') :
    ∀ (n tries : Nat), tries ≤ i → i < tries + n →
      (∀ j : Nat, tries ≤ j → j < i → colFull b (rand_col rand j)) →
      cturn_loop player rand n tries b = (true, b.set r0 (rand_col rand i) player) := by
  intro n
  induction n with
  | zero => intro tries h1 h2; omega
  | succ n ih =>
    intro tries h1 h2 hfull
    rw [cturn_loop]
    by_cases heq : tries = i
    · subst heq
      simp only [drop_chip_rand_col, drop_chip_of_empty b player _ r0 h0 hmin, if_true]
    · simp only [drop_chip_rand_col,
        drop_chip_of_full b player _ (hfull tries (le_refl _) (by omega))]
      rw [if_neg (by decide)]
      exact ih (tries + 1) (by omega) (by omega) (fun j h3 h4 => hfull j (by omega) h4)

/-- A line that starts with `CTURN` reaches the `CTURN` branch. -/
theorem write_cturn_cmd (s : State) (rest : List Char) (rand : Nat → Nat)
    (hlen : ("CTURN".toList ++ rest).length < BUF_LEN) :
    fourinarow_write s ("CTURN".toList ++ rest) rand =
      write_cturn { s with msg_buffer := [] } rand := by
  have hlen' : ¬(("CTURN".toList ++ rest).length ≥ BUF_LEN) := by omega
  obtain ⟨rest', hrest⟩ := trim_newline_append "CTURN".toList rest (fun _ => by decide)
  unfold fourinarow_write
  simp only [if_neg hlen', hrest]
  rw [if_neg (by simp [strncmp_eq, NUL]), if_neg (by simp [strncmp_eq, NUL]),
    if_neg (by simp [strncmp_eq, NUL]), if_neg (by simp [strncmp_eq, NUL]),
    if_pos (by simp [strncmp_eq, NUL])]

/-- The `CTURN` branch after a successful loop. -/
theorem write_cturn_place (s : State) (rand : Nat → Nat) (b' : Board)
    (hgame : s.game_in_progress = true) (hturn : s.current_player ≠ s.user_color)
    (hloop : cturn_loop s.current_player rand 100 0 s.board = (true, b')) :
    write_cturn s rand =
      some (if winner b' = s.current_player then
          { s with board := b', msg_buffer := "LOSE\n".toList, game_in_progress := false }
        else if winner b' = 'T' then
          { s with board := b', msg_buffer := "TIE\n".toList, game_in_progress := false }
        else
          { s with board := b', msg_buffer := "OK\n".toList,
                   current_player := s.user_color }) := by
  unfold write_cturn
  simp only [hgame, hloop, check_game_over_some, if_neg hturn]
  simp only [Bool.not_true, Bool.false_eq_true, if_false]
  split_ifs <;> rfl

/-- The `CTURN` branch after a loop that placed nothing. -/
theorem write_cturn_none (s : State) (rand : Nat → Nat)
    (hgame : s.game_in_progress = true) (hturn : s.current_player ≠ s.user_color)
    (hloop : cturn_loop s.current_player rand 100 0 s.board = (false, s.board)) :
    write_cturn s rand =
      some (if board_is_full s.board then
          { s with msg_buffer := "TIE\n".toList, game_in_progress := false }
        else { s with msg_buffer := "NOGAME\n".toList }) := by
  unfold write_cturn
  simp only [hgame, hloop, if_neg hturn]
  simp only [Bool.not_true, Bool.false_eq_true, if_false, Bool.not_false, if_true]
  split_ifs <;> rfl

/-- Claim C7. In a game where it is not the human's turn, with `rand` the bytes
the random source hands out: if `i < 100` is the least index whose column
`rand i % 256 % 8` is not full, `CTURN` puts one chip of `current_player`'s
colour on the lowest empty cell of that column and, with `result` what
`check_game_over` then returns, answers `LOSE` and ends the game if `result`
is that colour, `TIE` and ends the game if it is `'T'`, and otherwise `OK`
with `current_player` set back to the human's colour. If all hundred bytes
select full columns, no cell changes and the answer is `TIE`, ending the
game, when the board is full, and `NOGAME` with the state unchanged when it
is not. -/
theorem cturn_command (s : State) (rest : List Char) (rand : Nat → Nat)
    (hgame : s.game_in_progress = true) (hturn : s.current_player ≠ s.user_color)
    (hlen : ("CTURN".toList ++ rest).length < BUF_LEN) :
    (∀ i : Nat, i < 100 → (∀ j : Nat, j < i → colFull s.board (rand_col rand j)) →
      ¬colFull s.board (rand_col rand i) →
      ∃ (r0 : Fin 8) (result : Char) (s' : State),
        s.board r0 (rand_col rand i) = '0' ∧
        (∀ r : Fin 8, r.val < r0.val → s.board r (rand_col rand i) ≠ '0') ∧
        fourinarow_write s ("CTURN".toList ++ rest) rand = some s' ∧
        s'.board = s.board.set r0 (rand_col rand i) s.current_player ∧
        check_game_over s'.board = some result ∧
        s'.user_color = s.user_color ∧
        (result = s.current_player →
          s'.msg_buffer = "LOSE\n".toList ∧ s'.game_in_progress = false ∧
          s'.current_player = s.current_player) ∧
        (result ≠ s.current_player → result = 'T' →
          s'.msg_buffer = "TIE\n".toList ∧ s'.game_in_progress = false ∧
          s'.current_player = s.current_player) ∧
        (result ≠ s.current_player → result ≠ 'T' →
          s'.msg_buffer = "OK\n".toList ∧ s'.game_in_progress = true ∧
          s'.current_player = s.user_color)) ∧
    ((∀ i : Nat, i < 100 → colFull s.board (rand_col rand i)) →
      ∃ s' : State,
        fourinarow_write s ("CTURN".toList ++ rest) rand = some s' ∧
        s'.board = s.board ∧ s'.user_color = s.user_color ∧
        s'.current_player = s.current_player ∧
        (board_is_full s.board = true →
          s'.msg_buffer = "TIE\n".toList ∧ s'.game_in_progress = false) ∧
        (board_is_full s.board = false →
          s'.msg_buffer = "NOGAME\n".toList ∧ s'.game_in_progress = s.game_in_progress)) := by
  have hw := write_cturn_cmd s rest rand hlen
  constructor
  · intro i hi hfull hroom
    have hex : ∃ r : Fin 8, s.board r (rand_col rand i) = '0' := by
      by_contra hno
      exact hroom (fun r hr => hno ⟨r, hr⟩)
    obtain ⟨r0, h0, hmin⟩ := exists_lowest_empty s.board _ hex
    have hloop := cturn_loop_hit s.current_player rand s.board i r0 h0 hmin 100 0
      (Nat.zero_le _) (by omega) (fun j _ hj => hfull j hj)
    have hplace := write_cturn_place { s with msg_buffer := [] } rand _ hgame hturn hloop
    rw [← hw] at hplace
    by_cases h1 : winner (s.board.set r0 (rand_col rand i) s.current_player) = s.current_player
    · rw [if_pos h1] at hplace
      exact ⟨r0, winner (s.board.set r0 (rand_col rand i) s.current_player), _, h0, hmin,
        hplace, rfl, check_game_over_some _, rfl, fun _ => ⟨rfl, rfl, rfl⟩,
        fun h => absurd h1 h, fun h => absurd h1 h⟩
    · by_cases h2 : winner (s.board.set r0 (rand_col rand i) s.current_player) = 'T'
      · rw [if_neg h1, if_pos h2] at hplace
        exact ⟨r0, winner (s.board.set r0 (rand_col rand i) s.current_player), _, h0, hmin,
          hplace, rfl, check_game_over_some _, rfl, fun h => absurd h h1,
          fun _ _ => ⟨rfl, rfl, rfl⟩, fun _ h => absurd h2 h⟩
      · rw [if_neg h1, if_neg h2] at hplace
        exact ⟨r0, winner (s.board.set r0 (rand_col rand i) s.current_player), _, h0, hmin,
          hplace, rfl, check_game_over_some _, rfl, fun h => absurd h h1,
          fun _ h => absurd h h2, fun _ _ => ⟨rfl, hgame, rfl⟩⟩
  · intro hfull
    have hloop := cturn_loop_fail s.current_player rand s.board 100 0
      (fun i _ hi => hfull i (by omega))
    have hnone := write_cturn_none { s with msg_buffer := [] } rand hgame hturn hloop
    rw [← hw] at hnone
    by_cases hf : board_is_full s.board = true
    · rw [if_pos hf] at hnone
      exact ⟨_, hnone, rfl, rfl, rfl, fun _ => ⟨rfl, rfl⟩,
        fun h => absurd hf (by rw [h]; decide)⟩
    · rw [if_neg hf] at hnone
      exact ⟨_, hnone, rfl, rfl, rfl, fun h => absurd h hf, fun _ => ⟨rfl, rfl⟩⟩

/-! ## Rejected commands -/

/-- A failed loop of `CTURN` hands back the board it started from. -/
theorem cturn_loop_false (player : Char) (rand : Nat → Nat) :
    ∀ (n tries : Nat) (b : Board), (cturn_loop player rand n tries b).1 = false →
      (cturn_loop player rand n tries b).2 = b := by
  intro n
  induction n with
  | zero => intro tries b _; rfl
  | succ n ih =>
    intro tries b h
    rw [cturn_loop] at h ⊢
    by_cases hrc : (drop_chip b player ((rand tries % 256 % 8 : Nat) : Int)).1 = 0
    · simp only [hrc, if_true] at h
      exact absurd h (by decide)
    · simp only [hrc, if_false] at h ⊢
      have hsame : (drop_chip b player ((rand tries % 256 % 8 : Nat) : Int)).2 = b := by
        rcases drop_chip_cases b player ((rand tries % 256 % 8 : Nat) : Int) with hb | ⟨_, _, _, _, _, heq⟩
        · exact hb
        · rw [heq] at hrc
          exact absurd rfl hrc
      rw [hsame] at h ⊢
      exact ih (tries + 1) b h

theorem write_dropc_total (s : State) (input : List Char) :
    ∃ s' : State, write_dropc s input = some s' := by
  unfold write_dropc
  simp only [check_game_over_some]
  split_ifs <;> exact ⟨_, rfl⟩

theorem write_cturn_total (s : State) (rand : Nat → Nat) :
    ∃ s' : State, write_cturn s rand = some s' := by
  unfold write_cturn
  simp only [check_game_over_some]
  split_ifs <;> exact ⟨_, rfl⟩

/-- The function `fourinarow_write` always returns: no command reads outside the board. -/
theorem fourinarow_write_total (s : State) (user : List Char) (rand : Nat → Nat) :
    ∃ s' : State, fourinarow_write s user rand = some s' := by
  unfold fourinarow_write
  simp only []
  split_ifs
  · exact ⟨_, rfl⟩
  · exact ⟨_, rfl⟩
  · exact ⟨_, rfl⟩
  · exact ⟨_, rfl⟩
  · exact write_dropc_total _ _
  · exact write_cturn_total _ _
  · exact ⟨_, rfl⟩

/-- None of `OK`, `WIN`, `TIE`, `LOSE` is a rejection. -/
theorem not_rejected_msgs :
    (∀ m : List Char, m = "OK\n".toList ∨ m = "WIN\n".toList ∨ m = "TIE\n".toList ∨
        m = "LOSE\n".toList →
      ¬(m = "UNKNOWN\n".toList ∨ m = "NOGAME\n".toList ∨ m = "OOT\n".toList)) := by
  intro m hm
  rcases hm with rfl | rfl | rfl | rfl <;> decide

theorem write_dropc_atomic (s s' : State) (input : List Char)
    (h : write_dropc s input = some s') (hrej : rejected s') : sameSession s s' := by
  unfold write_dropc at h
  simp only [check_game_over_some] at h
  unfold rejected at hrej
  split_ifs at h with h1 h2 h3 h4
  all_goals injection h with h; subst h
  all_goals first
    | exact ⟨rfl, rfl, rfl, rfl⟩
    | exact ⟨drop_chip_board_of_ne_zero _ _ _ (by rw [h4]; decide), rfl, rfl, rfl⟩
    | exact absurd hrej (not_rejected_msgs _ (Or.inl rfl))
    | exact absurd hrej (not_rejected_msgs _ (Or.inr (Or.inl rfl)))
    | exact absurd hrej (not_rejected_msgs _ (Or.inr (Or.inr (Or.inl rfl))))

theorem write_cturn_atomic (s s' : State) (rand : Nat → Nat)
    (h : write_cturn s rand = some s') (hrej : rejected s') : sameSession s s' := by
  unfold write_cturn at h
  simp only [check_game_over_some] at h
  unfold rejected at hrej
  split_ifs at h with h1 h2 h3
  all_goals injection h with h; subst h
  all_goals first
    | exact ⟨rfl, rfl, rfl, rfl⟩
    | exact ⟨cturn_loop_false _ _ _ _ _ (by simpa using h3), rfl, rfl, rfl⟩
    | exact absurd hrej (not_rejected_msgs _ (Or.inl rfl))
    | exact absurd hrej (not_rejected_msgs _ (Or.inr (Or.inr (Or.inl rfl))))
    | exact absurd hrej (not_rejected_msgs _ (Or.inr (Or.inr (Or.inr rfl))))

/-- Claim C10. Every write returns, and whenever the response is `UNKNOWN`,
`NOGAME` or `OOT` the board, `game_in_progress`, `current_player` and the
human colour are what they were before the command. -/
theorem rejected_command_atomic (s : State) (user : List Char) (rand : Nat → Nat) :
    (∃ s' : State, fourinarow_write s user rand = some s') ∧
    ∀ s' : State, fourinarow_write s user rand = some s' →
      (s'.msg_buffer = "UNKNOWN\n".toList ∨ s'.msg_buffer = "NOGAME\n".toList ∨
        s'.msg_buffer = "OOT\n".toList) →
      s'.board = s.board ∧ s'.game_in_progress = s.game_in_progress ∧
      s'.current_player = s.current_player ∧ s'.user_color = s.user_color := by
  refine ⟨fourinarow_write_total s user rand, ?_⟩
  intro s' h hrej
  unfold fourinarow_write at h
  simp only [] at h
  split_ifs at h
  · injection h with h; subst h; exact ⟨rfl, rfl, rfl, rfl⟩
  · injection h with h; subst h; exact absurd hrej (not_rejected_msgs _ (Or.inl rfl))
  · injection h with h; subst h; exact absurd hrej (not_rejected_msgs _ (Or.inl rfl))
  · injection h with h; subst h; exact ⟨rfl, rfl, rfl, rfl⟩
  · exact write_dropc_atomic _ s' _ h hrej
  · exact write_cturn_atomic _ s' _ h hrej
  · injection h with h; subst h; exact ⟨rfl, rfl, rfl, rfl⟩

/-- Witness of C7: the opponent's first move into column 5, and a move
whose hundred draws all select the full column 5. -/
theorem cturn_command_witness :
    (∃ (r0 : Fin 8) (result : Char) (s' : State),
        state_after_first_drop.board r0 (rand_col (fun _ => 5) 0) = '0' ∧
        (∀ r : Fin 8, r.val < r0.val →
          state_after_first_drop.board r (rand_col (fun _ => 5) 0) ≠ '0') ∧
        fourinarow_write state_after_first_drop ("CTURN".toList ++ ['\n']) (fun _ => 5)
          = some s' ∧
        s'.board = state_after_first_drop.board.set r0 (rand_col (fun _ => 5) 0)
          state_after_first_drop.current_player ∧
        check_game_over s'.board = some result ∧
        s'.user_color = state_after_first_drop.user_color ∧
        (result = state_after_first_drop.current_player →
          s'.msg_buffer = "LOSE\n".toList ∧ s'.game_in_progress = false ∧
          s'.current_player = state_after_first_drop.current_player) ∧
        (result ≠ state_after_first_drop.current_player → result = 'T' →
          s'.msg_buffer = "TIE\n".toList ∧ s'.game_in_progress = false ∧
          s'.current_player = state_after_first_drop.current_player) ∧
        (result ≠ state_after_first_drop.current_player → result ≠ 'T' →
          s'.msg_buffer = "OK\n".toList ∧ s'.game_in_progress = true ∧
          s'.current_player = state_after_first_drop.user_color)) ∧
    (∃ s' : State,
        fourinarow_write state_column_full ("CTURN".toList ++ ['\n']) (fun _ => 5) = some s' ∧
        s'.board = state_column_full.board ∧ s'.user_color = state_column_full.user_color ∧
        s'.current_player = state_column_full.current_player ∧
        (board_is_full state_column_full.board = true →
          s'.msg_buffer = "TIE\n".toList ∧ s'.game_in_progress = false) ∧
        (board_is_full state_column_full.board = false →
          s'.msg_buffer = "NOGAME\n".toList ∧
          s'.game_in_progress = state_column_full.game_in_progress)) :=
  ⟨(cturn_command state_after_first_drop ['\n'] (fun _ => 5) rfl (by decide) (by decide)).1 0
      (by decide) (by decide) (by decide),
   (cturn_command state_column_full ['\n'] (fun _ => 5) rfl (by decide) (by decide)).2
      (by decide)⟩

/-- Witness of C10: `DROPC A` before any `RESET` is answered `NOGAME`. -/
theorem rejected_command_atomic_witness :
    fourinarow_write init_state "DROPC A\n".toList (fun _ => 0)
      = some { init_state with msg_buffer := "NOGAME\n".toList } ∧
    ({ init_state with msg_buffer := "NOGAME\n".toList } : State).board = init_state.board ∧
    ({ init_state with msg_buffer := "NOGAME\n".toList } : State).game_in_progress
      = init_state.game_in_progress ∧
    ({ init_state with msg_buffer := "NOGAME\n".toList } : State).current_player
      = init_state.current_player ∧
    ({ init_state with msg_buffer := "NOGAME\n".toList } : State).user_color
      = init_state.user_color :=
  ⟨by decide,
   (rejected_command_atomic init_state "DROPC A\n".toList (fun _ => 0)).2 _ (by decide)
     (Or.inr (Or.inl rfl))⟩

/-! ## Turn alternation -/

theorem msgs_ne_ok :
    "NOGAME\n".toList ≠ "OK\n".toList ∧ "OOT\n".toList ≠ "OK\n".toList ∧
    "WIN\n".toList ≠ "OK\n".toList ∧ "TIE\n".toList ≠ "OK\n".toList ∧
    "LOSE\n".toList ≠ "OK\n".toList := by decide

theorem msgs_ne_oot :
    "NOGAME\n".toList ≠ "OOT\n".toList ∧ "OK\n".toList ≠ "OOT\n".toList ∧
    "WIN\n".toList ≠ "OOT\n".toList ∧ "TIE\n".toList ≠ "OOT\n".toList ∧
    "LOSE\n".toList ≠ "OOT\n".toList := by decide

/-- A `DROPC` branch that answers `OK` with a changed board leaves the game
running with the opponent to move. -/
theorem write_dropc_ok_placed (s s' : State) (input : List Char)
    (h : write_dropc s input = some s') (hok : s'.msg_buffer = "OK\n".toList)
    (hboard : s'.board ≠ s.board) :
    s'.game_in_progress = true ∧ s'.current_player ≠ s'.user_color := by
  unfold write_dropc at h
  simp only [check_game_over_some] at h
  split_ifs at h with h1 h2 h3 h4 h5
  all_goals injection h with h; subst h
  all_goals first
    | exact absurd hok msgs_ne_ok.1
    | exact absurd hok msgs_ne_ok.2.1
    | exact absurd hok msgs_ne_ok.2.2.1
    | exact absurd hok msgs_ne_ok.2.2.2.1
    | exact absurd rfl hboard
    | exact absurd (drop_chip_board_of_ne_zero _ _ _ (by rw [h5]; decide)) hboard
    | (refine ⟨by simpa using h1, fun hc => ?_⟩
       rename_i hR
       first
         | exact hR (Eq.symm hc)
         | (rw [hR] at hc
            exact absurd (show 'Y' = 'R' from hc) (by decide)))

/-- Out of turn, the `DROPC` branch answers `OOT` and changes nothing else. -/
theorem write_dropc_oot (s : State) (input : List Char)
    (hgame : s.game_in_progress = true) (hturn : s.current_player ≠ s.user_color) :
    write_dropc s input = some { s with msg_buffer := "OOT\n".toList } := by
  unfold write_dropc
  simp only [hgame, Bool.not_true, Bool.false_eq_true, if_false, if_pos hturn]

/-- In turn, the `DROPC` branch does not answer `OOT`. -/
theorem write_dropc_not_oot (s : State) (input : List Char)
    (hgame : s.game_in_progress = true) (hturn : s.current_player = s.user_color) :
    ∃ s' : State, write_dropc s input = some s' ∧ s'.msg_buffer ≠ "OOT\n".toList := by
  unfold write_dropc
  simp only [check_game_over_some, hgame, Bool.not_true, Bool.false_eq_true, if_false,
    hturn, ne_eq, not_true_eq_false]
  split_ifs
  all_goals first
    | exact ⟨_, rfl, msgs_ne_oot.1⟩
    | exact ⟨_, rfl, msgs_ne_oot.2.1⟩
    | exact ⟨_, rfl, msgs_ne_oot.2.2.1⟩
    | exact ⟨_, rfl, msgs_ne_oot.2.2.2.1⟩

/-- A `CTURN` branch that answers `OK` leaves the game running with the human
to move. -/
theorem write_cturn_ok (s s' : State) (rand : Nat → Nat)
    (h : write_cturn s rand = some s') (hok : s'.msg_buffer = "OK\n".toList) :
    s'.game_in_progress = true ∧ s'.current_player = s'.user_color := by
  unfold write_cturn at h
  simp only [check_game_over_some] at h
  split_ifs at h with h1
  all_goals injection h with h; subst h
  all_goals first
    | exact absurd hok msgs_ne_ok.1
    | exact absurd hok msgs_ne_ok.2.1
    | exact absurd hok msgs_ne_ok.2.2.2.1
    | exact absurd hok msgs_ne_ok.2.2.2.2
    | exact ⟨by simpa using h1, rfl⟩

/-- Out of turn, the `CTURN` branch answers `OOT` and changes nothing else. -/
theorem write_cturn_oot (s : State) (rand : Nat → Nat)
    (hgame : s.game_in_progress = true) (hturn : s.current_player = s.user_color) :
    write_cturn s rand = some { s with msg_buffer := "OOT\n".toList } := by
  unfold write_cturn
  simp only [hgame, Bool.not_true, Bool.false_eq_true, if_false, if_pos hturn]

/-- In turn, the `CTURN` branch does not answer `OOT`. -/
theorem write_cturn_not_oot (s : State) (rand : Nat → Nat)
    (hgame : s.game_in_progress = true) (hturn : s.current_player ≠ s.user_color) :
    ∃ s' : State, write_cturn s rand = some s' ∧ s'.msg_buffer ≠ "OOT\n".toList := by
  unfold write_cturn
  simp only [check_game_over_some, hgame, Bool.not_true, Bool.false_eq_true, if_false,
    if_neg hturn]
  split_ifs
  all_goals first
    | exact ⟨_, rfl, msgs_ne_oot.1⟩
    | exact ⟨_, rfl, msgs_ne_oot.2.1⟩
    | exact ⟨_, rfl, msgs_ne_oot.2.2.2.1⟩
    | exact ⟨_, rfl, msgs_ne_oot.2.2.2.2⟩

/-- A line that starts with `DROPC ` and is not too long. -/
theorem write_dropc_line (s : State) (arg : List Char) (rand : Nat → Nat)
    (hlen : ("DROPC ".toList ++ arg).length < BUF_LEN) :
    ∃ input : List Char,
      fourinarow_write s ("DROPC ".toList ++ arg) rand =
        write_dropc { s with msg_buffer := [] } input := by
  obtain ⟨rest', h⟩ := write_dropc_cmd s [] arg rand (fun _ => by decide) hlen
  exact ⟨_, h⟩

/-- Any write that answers `OK` is shorter than the input buffer. -/
theorem length_of_response (s s' : State) (user : List Char) (rand : Nat → Nat)
    (h : fourinarow_write s user rand = some s') (hne : s'.msg_buffer ≠ []) :
    user.length < BUF_LEN := by
  by_contra hlen
  have hge : user.length ≥ BUF_LEN := by omega
  unfold fourinarow_write at h
  simp only [if_pos hge] at h
  injection h with h
  subst h
  exact hne rfl

/-- Out of turn, every line that starts with `DROPC ` is answered `OOT` and
changes nothing else. -/
theorem dropc_oot_line (s : State) (arg : List Char) (rand : Nat → Nat)
    (hgame : s.game_in_progress = true) (hturn : s.current_player ≠ s.user_color)
    (hlen : ("DROPC ".toList ++ arg).length < BUF_LEN) :
    fourinarow_write s ("DROPC ".toList ++ arg) rand
      = some { s with msg_buffer := "OOT\n".toList } := by
  obtain ⟨input, h⟩ := write_dropc_line s arg rand hlen
  rw [h, write_dropc_oot { s with msg_buffer := [] } input hgame hturn]

/-- Out of turn, every line that starts with `CTURN` is answered `OOT` and
changes nothing else. -/
theorem cturn_oot_line (s : State) (rest : List Char) (rand : Nat → Nat)
    (hgame : s.game_in_progress = true) (hturn : s.current_player = s.user_color)
    (hlen : ("CTURN".toList ++ rest).length < BUF_LEN) :
    fourinarow_write s ("CTURN".toList ++ rest) rand
      = some { s with msg_buffer := "OOT\n".toList } := by
  rw [write_cturn_cmd s rest rand hlen,
    write_cturn_oot { s with msg_buffer := [] } rand hgame hturn]

/-- Only the `CTURN` branch consults the random source. -/
theorem write_rand_irrelevant (s : State) (user : List Char) (rand rand' : Nat → Nat)
    (h : strncmp_eq (trim_newline user) "CTURN".toList 5 = false) :
    fourinarow_write s user rand = fourinarow_write s user rand' := by
  unfold fourinarow_write
  simp only [h, Bool.false_eq_true, if_false]

/-- When the first random byte selects a column with room, `CTURN` depends
on the random source through that column only. -/
theorem write_cturn_first (s : State) (rest : List Char) (rand : Nat → Nat)
    (hlen : ("CTURN".toList ++ rest).length < BUF_LEN)
    (hroom : ¬colFull s.board (rand_col rand 0)) :
    fourinarow_write s ("CTURN".toList ++ rest) rand =
      fourinarow_write s ("CTURN".toList ++ rest) (fun _ => (rand_col rand 0).val) := by
  have hex : ∃ r : Fin 8, s.board r (rand_col rand 0) = '0' := by
    by_contra hno
    exact hroom (fun r hr => hno ⟨r, hr⟩)
  obtain ⟨r0, h0, hmin⟩ := exists_lowest_empty s.board _ hex
  have hk : rand_col (fun _ => (rand_col rand 0).val) 0 = rand_col rand 0 := by
    apply Fin.ext
    show (rand 0 % 256 % 8) % 256 % 8 = rand 0 % 256 % 8
    omega
  have hl1 := fun p => cturn_loop_hit p rand s.board 0 r0 h0 hmin 100 0 (le_refl _)
    (by omega) (fun j h1 h2 => absurd h2 (by omega))
  have hl2 := fun p => cturn_loop_hit p (fun _ => (rand_col rand 0).val) s.board 0 r0
    (by rw [hk]; exact h0) (by rw [hk]; exact hmin) 100 0 (le_refl _)
    (by omega) (fun j h1 h2 => absurd h2 (by omega))
  rw [write_cturn_cmd s rest rand hlen, write_cturn_cmd s rest _ hlen]
  unfold write_cturn
  simp only [hl1, hl2, hk]

/-- One step of `run_commands`. -/
theorem run_commands_step (s s' : State) (user : List Char) (rand : Nat → Nat)
    (rest : List (List Char × (Nat → Nat))) (out : List (List Char))
    (h : fourinarow_write s user rand = some s') (hrest : run_commands s' rest = some out) :
    run_commands s ((user, rand) :: rest) = some (s'.msg_buffer :: out) := by
  rw [run_commands]
  simp only [h, hrest]

/-- The scenario of C8 up to its fourth response, for each column `k` the
opponent's first random byte can select. -/
theorem scenario_steps :
    (∀ c : Fin 8, ¬colFull state_after_first_drop.board c) ∧
    fourinarow_write (reset_state 'R') "DROPC A".toList (fun _ => 0)
      = some state_after_first_drop ∧
    (∀ k : Fin 8, fourinarow_write state_after_first_drop "CTURN".toList (fun _ => k.val)
      = some (state_after_cturn k)) ∧
    (∀ k : Fin 8, fourinarow_write (state_after_cturn k) "DROPC A".toList (fun _ => 0)
      = some (state_after_second_drop k)) := by
  refine ⟨by decide, by decide, by decide, by decide⟩

/-- Claim C8. (1) Right after a `DROPC` that changed the board and answered
`OK`, every line that starts with `DROPC ` is answered `OOT` and changes
nothing, while a `CTURN` line is not answered `OOT`. (2) Right after a
`CTURN` that answered `OK`, every `CTURN` line is answered `OOT` and changes
nothing, while a line that starts with `DROPC ` is not answered `OOT`.
(3) From any state and for any random bytes, `RESET R`, `DROPC A`, `CTURN`
and four times `DROPC A` are answered `OK`, `OK`, `OK`, `OK`, `OOT`, `OOT`,
`OOT`. -/
theorem turn_alternation :
    (∀ (s s' : State) (arg : List Char) (rand : Nat → Nat),
      fourinarow_write s ("DROPC ".toList ++ arg) rand = some s' →
      s'.msg_buffer = "OK\n".toList → s'.board ≠ s.board →
      (∀ (arg2 : List Char) (rand2 : Nat → Nat),
        ("DROPC ".toList ++ arg2).length < BUF_LEN →
        fourinarow_write s' ("DROPC ".toList ++ arg2) rand2
          = some { s' with msg_buffer := "OOT\n".toList }) ∧
      (∀ (rest : List Char) (rand2 : Nat → Nat),
        ("CTURN".toList ++ rest).length < BUF_LEN →
        ∃ s'' : State, fourinarow_write s' ("CTURN".toList ++ rest) rand2 = some s'' ∧
          s''.msg_buffer ≠ "OOT\n".toList)) ∧
    (∀ (s s' : State) (rest : List Char) (rand : Nat → Nat),
      fourinarow_write s ("CTURN".toList ++ rest) rand = some s' →
      s'.msg_buffer = "OK\n".toList →
      (∀ (rest2 : List Char) (rand2 : Nat → Nat),
        ("CTURN".toList ++ rest2).length < BUF_LEN →
        fourinarow_write s' ("CTURN".toList ++ rest2) rand2
          = some { s' with msg_buffer := "OOT\n".toList }) ∧
      (∀ (arg : List Char) (rand2 : Nat → Nat),
        ("DROPC ".toList ++ arg).length < BUF_LEN →
        ∃ s'' : State, fourinarow_write s' ("DROPC ".toList ++ arg) rand2 = some s'' ∧
          s''.msg_buffer ≠ "OOT\n".toList)) ∧
    (∀ (s : State) (rand : Nat → Nat → Nat),
      run_commands s
        [("RESET R".toList, rand 0), ("DROPC A".toList, rand 1), ("CTURN".toList, rand 2),
         ("DROPC A".toList, rand 3), ("DROPC A".toList, rand 4), ("DROPC A".toList, rand 5),
         ("DROPC A".toList, rand 6)]
      = some ["OK\n".toList, "OK\n".toList, "OK\n".toList, "OK\n".toList,
              "OOT\n".toList, "OOT\n".toList, "OOT\n".toList]) := by
  refine ⟨?_, ?_, ?_⟩
  · intro s s' arg rand hw hok hboard
    have hlen : ("DROPC ".toList ++ arg).length < BUF_LEN :=
      length_of_response s s' _ rand hw (by rw [hok]; decide)
    obtain ⟨input, hin⟩ := write_dropc_line s arg rand hlen
    rw [hin] at hw
    obtain ⟨hgame, hturn⟩ := write_dropc_ok_placed _ s' input hw hok hboard
    refine ⟨fun arg2 rand2 hlen2 => dropc_oot_line s' arg2 rand2 hgame hturn hlen2, ?_⟩
    intro rest rand2 hlen2
    rw [write_cturn_cmd s' rest rand2 hlen2]
    exact write_cturn_not_oot _ rand2 hgame hturn
  · intro s s' rest rand hw hok
    have hlen : ("CTURN".toList ++ rest).length < BUF_LEN :=
      length_of_response s s' _ rand hw (by rw [hok]; decide)
    rw [write_cturn_cmd s rest rand hlen] at hw
    obtain ⟨hgame, hturn⟩ := write_cturn_ok _ s' rand hw hok
    refine ⟨fun rest2 rand2 hlen2 => cturn_oot_line s' rest2 rand2 hgame hturn hlen2, ?_⟩
    intro arg rand2 hlen2
    obtain ⟨input, hin⟩ := write_dropc_line s' arg rand2 hlen2
    rw [hin]
    exact write_dropc_not_oot _ input hgame hturn
  · intro s rand
    obtain ⟨hroom, h2, h3, h4⟩ := scenario_steps
    have hd : strncmp_eq (trim_newline "DROPC A".toList) "CTURN".toList 5 = false := by decide
    have e1 : fourinarow_write s "RESET R".toList (rand 0) = some (reset_state 'R') :=
      write_reset_R s [] (rand 0) (by decide)
    have e2 : fourinarow_write (reset_state 'R') "DROPC A".toList (rand 1)
        = some state_after_first_drop :=
      (write_rand_irrelevant _ _ (rand 1) (fun _ => 0) hd).trans h2
    have e3 : fourinarow_write state_after_first_drop "CTURN".toList (rand 2)
        = some (state_after_cturn (rand_col (rand 2) 0)) :=
      (write_cturn_first state_after_first_drop [] (rand 2) (by decide) (hroom _)).trans
        (h3 _)
    have e4 : fourinarow_write (state_after_cturn (rand_col (rand 2) 0)) "DROPC A".toList
        (rand 3) = some (state_after_second_drop (rand_col (rand 2) 0)) :=
      (write_rand_irrelevant _ _ (rand 3) (fun _ => 0) hd).trans (h4 _)
    have hne : (state_after_second_drop (rand_col (rand 2) 0)).current_player
        ≠ (state_after_second_drop (rand_col (rand 2) 0)).user_color := by
      show 'Y' ≠ 'R'
      decide
    have e5 := fun (st : State) (hg : st.game_in_progress = true)
        (ht : st.current_player ≠ st.user_color) (r : Nat → Nat) =>
      dropc_oot_line st ['A'] r hg ht (by decide)
    have e6 : ∀ r : Nat → Nat,
        fourinarow_write
          { state_after_second_drop (rand_col (rand 2) 0) with msg_buffer := "OOT\n".toList }
          "DROPC A".toList r
        = some { state_after_second_drop (rand_col (rand 2) 0) with
                 msg_buffer := "OOT\n".toList } :=
      fun r => e5 _ rfl hne r
    have r7 := run_commands_step _ _ _ (rand 6) [] [] (e6 (rand 6)) rfl
    have r6 := run_commands_step _ _ _ (rand 5) _ _ (e6 (rand 5)) r7
    have r5 := run_commands_step _ _ _ (rand 4) _ _
      (e5 (state_after_second_drop (rand_col (rand 2) 0)) rfl hne (rand 4)) r6
    have r4 := run_commands_step _ _ _ (rand 3) _ _ e4 r5
    have r3 := run_commands_step _ _ _ (rand 2) _ _ e3 r4
    have r2 := run_commands_step _ _ _ (rand 1) _ _ e2 r3
    exact run_commands_step _ _ _ (rand 0) _ _ e1 r2

/-- Witness of C8: after `RESET R` and `DROPC A` a `DROPC H` is out of
turn; after the opponent's move into column 3 a `CTURN` is out of turn. -/
theorem turn_alternation_witness :
    fourinarow_write (reset_state 'R') ("DROPC ".toList ++ ['A']) (fun _ => 0)
      = some state_after_first_drop ∧
    fourinarow_write state_after_first_drop ("DROPC ".toList ++ ['H']) (fun _ => 0)
      = some { state_after_first_drop with msg_buffer := "OOT\n".toList } ∧
    fourinarow_write state_after_first_drop ("CTURN".toList ++ []) (fun _ => 3)
      = some (state_after_cturn 3) ∧
    fourinarow_write (state_after_cturn 3) ("CTURN".toList ++ ['\n']) (fun _ => 0)
      = some { state_after_cturn 3 with msg_buffer := "OOT\n".toList } :=
  ⟨by decide,
   (turn_alternation.1 (reset_state 'R') state_after_first_drop ['A'] (fun _ => 0)
      (by decide) rfl (by decide)).1 ['H'] (fun _ => 0) (by decide),
   by decide,
   (turn_alternation.2.1 state_after_first_drop (state_after_cturn 3) [] (fun _ => 3)
      (by decide) rfl).1 ['\n'] (fun _ => 0) (by decide)⟩

/-! ## Bounds of the direction checks -/

/-- Claim C18. From every start cell of the grid and for every step
`(dr, dc)` (so for each of the four scanned directions) `check_for_four`
returns a value, that is, it reads no cell outside the grid; when one of the
three stepped coordinates leaves the grid the value is `'0'`; and
`check_game_over` returns a value on every board. -/
theorem check_for_four_in_bounds (b : Board) (r c : Fin 8) (dr dc : Int) :
    (∃ w : Char, check_for_four b (r.val : Int) (c.val : Int) dr dc = some w) ∧
    ((∃ i : Int, 1 ≤ i ∧ i ≤ 3 ∧
        ¬(0 ≤ (r.val : Int) + i * dr ∧ (r.val : Int) + i * dr < 8 ∧
          0 ≤ (c.val : Int) + i * dc ∧ (c.val : Int) + i * dc < 8)) →
      check_for_four b (r.val : Int) (c.val : Int) dr dc = some '0') ∧
    (∃ w : Char, check_game_over b = some w) := by
  refine ⟨⟨_, check_for_four_eq b r c dr dc⟩, ?_, ⟨_, check_game_over_some b⟩⟩
  rintro ⟨i, h1, h3, hout⟩
  rw [check_for_four_eq]
  have hnone : b.get? ((r.val : Int) + i * dr) ((c.val : Int) + i * dc) = none :=
    Board.get?_eq_none b _ _ (by omega)
  have hno : ¬fourAtDir b r c dr dc := by
    rintro ⟨_, hA, hB, hC⟩
    have hi : i = 1 ∨ i = 2 ∨ i = 3 := by omega
    rcases hi with rfl | rfl | rfl
    · rw [one_mul, one_mul, hA] at hnone
      exact absurd hnone (by simp)
    · rw [hB] at hnone
      exact absurd hnone (by simp)
    · rw [hC] at hnone
      exact absurd hnone (by simp)
  rw [if_neg hno]

/-- Witness of C18: on the full red board the check to the right from
`(0, 6)` leaves the grid and yields `'0'`. -/
theorem check_for_four_in_bounds_witness :
    check_for_four sample_red_board ((0 : Fin 8).val : Int) ((6 : Fin 8).val : Int) 0 1
      = some '0' :=
  (check_for_four_in_bounds sample_red_board 0 6 0 1).2.1 ⟨2, by decide, by decide, by decide⟩

/-! ## Rejections of `CTURN` and `DROPC` -/

/-- Without a game the `CTURN` branch answers `NOGAME` and changes nothing else. -/
theorem write_cturn_nogame (s : State) (rand : Nat → Nat)
    (hidle : s.game_in_progress = false) :
    write_cturn s rand = some { s with msg_buffer := "NOGAME\n".toList } := by
  unfold write_cturn
  simp only [hidle, Bool.not_false, if_true]

/-- Without a game the `DROPC` branch answers `NOGAME` and changes nothing else. -/
theorem write_dropc_nogame (s : State) (input : List Char)
    (hidle : s.game_in_progress = false) :
    write_dropc s input = some { s with msg_buffer := "NOGAME\n".toList } := by
  unfold write_dropc
  simp only [hidle, Bool.not_false, if_true]

/-- Counterexample to C11 as stated: after `RESET R`, `DROPC A` and the
opponent's move it is the human's turn, and `CTURN` is answered `OOT`, not
`NOGAME`. -/
theorem cturn_out_of_turn_is_oot :
    (state_after_cturn 3).game_in_progress = true ∧
    (state_after_cturn 3).current_player = (state_after_cturn 3).user_color ∧
    fourinarow_write (state_after_cturn 3) "CTURN".toList (fun _ => 0)
      = some { state_after_cturn 3 with msg_buffer := "OOT\n".toList } ∧
    ({ state_after_cturn 3 with msg_buffer := "OOT\n".toList } : State).msg_buffer
      ≠ "NOGAME\n".toList := by
  decide

/-- Claim C11, amended. `CTURN` answers `NOGAME` when no game is in progress
and `OOT` when a game is in progress and `current_player` is the human's
colour; in both cases nothing but the response changes. -/
theorem cturn_rejections (s : State) (rest : List Char) (rand : Nat → Nat)
    (hlen : ("CTURN".toList ++ rest).length < BUF_LEN) :
    (s.game_in_progress = false →
      fourinarow_write s ("CTURN".toList ++ rest) rand
        = some { s with msg_buffer := "NOGAME\n".toList }) ∧
    (s.game_in_progress = true → s.current_player = s.user_color →
      fourinarow_write s ("CTURN".toList ++ rest) rand
        = some { s with msg_buffer := "OOT\n".toList }) := by
  constructor
  · intro hidle
    rw [write_cturn_cmd s rest rand hlen,
      write_cturn_nogame { s with msg_buffer := [] } rand hidle]
  · intro hgame hturn
    exact cturn_oot_line s rest rand hgame hturn hlen

/-- Witness of C11 amended: `CTURN` before any `RESET`, and `CTURN` on the
human's turn. -/
theorem cturn_rejections_witness :
    fourinarow_write init_state ("CTURN".toList ++ ['\n']) (fun _ => 0)
      = some { init_state with msg_buffer := "NOGAME\n".toList } ∧
    fourinarow_write (reset_state 'Y') ("CTURN".toList ++ ['\n']) (fun _ => 0)
      = some { reset_state 'Y' with msg_buffer := "OOT\n".toList } :=
  ⟨(cturn_rejections init_state ['\n'] (fun _ => 0) (by decide)).1 rfl,
   (cturn_rejections (reset_state 'Y') ['\n'] (fun _ => 0) (by decide)).2 rfl rfl⟩

/-- The trim of the trailing newline after a fixed head `p`: the argument is
kept, or its last byte, a newline, becomes NUL. -/
theorem trim_newline_cases (p arg : List Char) (hp : p.getLast? ≠ some '\n') :
    trim_newline (p ++ arg) = p ++ arg ∨
    (arg ≠ [] ∧ trim_newline (p ++ arg) = p ++ (arg.dropLast ++ [NUL])) := by
  unfold trim_newline
  split
  · rename_i h
    have hne : arg ≠ [] := by
      intro he
      subst he
      rw [List.append_nil] at h
      exact hp h
    right
    exact ⟨hne, by rw [List.dropLast_append_of_ne_nil _ hne, List.append_assoc]⟩
  · exact Or.inl rfl

/-- The column byte `input[6]` of a `DROPC` line is the first byte of the
argument, or NUL when that byte is the trimmed newline. -/
theorem dropc_column_byte (X : Char) (rest : List Char) :
    ∃ input : List Char,
      trim_newline ("DROPC ".toList ++ X :: rest) = input ∧
      (buf_at input 6 = X ∨ buf_at input 6 = NUL) ∧
      strncmp_eq input "RESET R".toList 7 = false ∧
      strncmp_eq input "RESET Y".toList 7 = false ∧
      strncmp_eq input "BOARD".toList 5 = false ∧
      strncmp_eq input "DROPC ".toList 6 = true := by
  rcases trim_newline_cases "DROPC ".toList (X :: rest) (by decide) with h | ⟨_, h⟩
  · refine ⟨_, h, Or.inl rfl, ?_, ?_, ?_, ?_⟩ <;> simp [strncmp_eq, NUL]
  · cases rest with
    | nil => refine ⟨_, h, Or.inr rfl, ?_, ?_, ?_, ?_⟩ <;> simp [strncmp_eq, NUL]
    | cons y t => refine ⟨_, h, Or.inl rfl, ?_, ?_, ?_, ?_⟩ <;> simp [strncmp_eq, NUL]

/-- A `DROPC` line reaches the `DROPC` branch with its column byte. -/
theorem write_dropc_arg (s : State) (X : Char) (rest : List Char) (rand : Nat → Nat)
    (hlen : ("DROPC ".toList ++ X :: rest).length < BUF_LEN) :
    ∃ input : List Char, (buf_at input 6 = X ∨ buf_at input 6 = NUL) ∧
      fourinarow_write s ("DROPC ".toList ++ X :: rest) rand =
        write_dropc { s with msg_buffer := [] } input := by
  have hlen' : ¬(("DROPC ".toList ++ X :: rest).length ≥ BUF_LEN) := by omega
  obtain ⟨input, htrim, hbyte, h1, h2, h3, h4⟩ := dropc_column_byte X rest
  refine ⟨input, hbyte, ?_⟩
  unfold fourinarow_write
  simp only [if_neg hlen', htrim, h1, h2, h3, h4, Bool.false_eq_true, if_false, if_true]

/-- On the human's turn the `DROPC` branch answers `NOGAME` to a byte that
is no column letter and changes nothing else. -/
theorem write_dropc_invalid (s : State) (input : List Char)
    (hgame : s.game_in_progress = true) (hturn : s.current_player = s.user_color)
    (hc : col_to_index (buf_at input 6) = -1) :
    write_dropc s input = some { s with msg_buffer := "NOGAME\n".toList } := by
  unfold write_dropc
  simp only [hgame, hturn, hc, Bool.not_true, Bool.false_eq_true, if_false, ne_eq,
    not_true_eq_false]
  rw [if_pos (by decide)]

/-- A byte outside `A`-`H` and `a`-`h` has no column index. -/
theorem col_to_index_invalid (X : Char)
    (hupper : ¬('A'.toNat ≤ X.toNat ∧ X.toNat ≤ 'H'.toNat))
    (hlower : ¬('a'.toNat ≤ X.toNat ∧ X.toNat ≤ 'h'.toNat)) :
    col_to_index X = -1 := by
  rw [col_to_index, if_neg hupper, if_neg hlower]

/-- Counterexample to C12 as stated: on the opponent's turn `DROPC Z` is
answered `OOT`, not `NOGAME`. -/
theorem dropc_invalid_out_of_turn_is_oot :
    state_after_first_drop.game_in_progress = true ∧
    state_after_first_drop.current_player ≠ state_after_first_drop.user_color ∧
    fourinarow_write state_after_first_drop "DROPC Z".toList (fun _ => 0)
      = some { state_after_first_drop with msg_buffer := "OOT\n".toList } ∧
    ({ state_after_first_drop with msg_buffer := "OOT\n".toList } : State).msg_buffer
      ≠ "NOGAME\n".toList := by
  decide

/-- Claim C12, amended. `DROPC` with a column byte outside `A`-`H` and
`a`-`h` is answered `NOGAME` when no game is in progress and when it is the
human's turn, and `OOT` when a game is in progress and it is the opponent's
turn; in every case nothing but the response changes. -/
theorem dropc_invalid_column (s : State) (X : Char) (rest : List Char) (rand : Nat → Nat)
    (hupper : ¬('A'.toNat ≤ X.toNat ∧ X.toNat ≤ 'H'.toNat))
    (hlower : ¬('a'.toNat ≤ X.toNat ∧ X.toNat ≤ 'h'.toNat))
    (hlen : ("DROPC ".toList ++ X :: rest).length < BUF_LEN) :
    (s.game_in_progress = false ∨ s.current_player = s.user_color →
      fourinarow_write s ("DROPC ".toList ++ X :: rest) rand
        = some { s with msg_buffer := "NOGAME\n".toList }) ∧
    (s.game_in_progress = true → s.current_player ≠ s.user_color →
      fourinarow_write s ("DROPC ".toList ++ X :: rest) rand
        = some { s with msg_buffer := "OOT\n".toList }) := by
  obtain ⟨input, hbyte, hw⟩ := write_dropc_arg s X rest rand hlen
  have hc : col_to_index (buf_at input 6) = -1 := by
    rcases hbyte with h | h
    · rw [h]; exact col_to_index_invalid X hupper hlower
    · rw [h]; decide
  constructor
  · intro h
    rw [hw]
    by_cases hgame : s.game_in_progress = true
    · rcases h with h | h
      · rw [h] at hgame
        exact absurd hgame (by decide)
      · exact write_dropc_invalid { s with msg_buffer := [] } input hgame h hc
    · exact write_dropc_nogame { s with msg_buffer := [] } input (by simpa using hgame)
  · intro hgame hturn
    rw [hw]
    exact write_dropc_oot { s with msg_buffer := [] } input hgame hturn

/-- Witness of C12 amended: `DROPC Z` before any `RESET`, on the human's
turn, and on the opponent's turn. -/
theorem dropc_invalid_column_witness :
    fourinarow_write init_state ("DROPC ".toList ++ 'Z' :: ['\n']) (fun _ => 0)
      = some { init_state with msg_buffer := "NOGAME\n".toList } ∧
    fourinarow_write (reset_state 'R') ("DROPC ".toList ++ 'Z' :: ['\n']) (fun _ => 0)
      = some { reset_state 'R' with msg_buffer := "NOGAME\n".toList } ∧
    fourinarow_write state_after_first_drop ("DROPC ".toList ++ 'Z' :: ['\n']) (fun _ => 0)
      = some { state_after_first_drop with msg_buffer := "OOT\n".toList } :=
  ⟨(dropc_invalid_column init_state 'Z' ['\n'] (fun _ => 0) (by decide) (by decide)
      (by decide)).1 (Or.inl rfl),
   (dropc_invalid_column (reset_state 'R') 'Z' ['\n'] (fun _ => 0) (by decide) (by decide)
      (by decide)).1 (Or.inr rfl),
   (dropc_invalid_column state_after_first_drop 'Z' ['\n'] (fun _ => 0) (by decide)
      (by decide) (by decide)).2 rfl (by decide)⟩

/-! ## `DROPC` into a full column -/

/-- The `DROPC` branch on the human's turn when the column is full. -/
theorem write_dropc_full (s : State) (input : List Char) (c : Fin 8)
    (hgame : s.game_in_progress = true) (hturn : s.current_player = s.user_color)
    (hc : col_to_index (buf_at input 6) = (c.val : Int)) (hfull : colFull s.board c) :
    write_dropc s input = some { s with msg_buffer := "OK\n".toList } := by
  have hr : ¬((c.val : Int) < 0 ∨ (c.val : Int) > 7) := by have := c.isLt; omega
  unfold write_dropc
  simp only [hgame, hturn, hc, drop_chip_of_full s.board s.user_color c hfull, if_neg hr,
    Bool.not_true, Bool.false_eq_true, if_false, ne_eq, not_true_eq_false]
  rw [if_neg (by decide)]
  simp only [if_true]

/-- Claim C14. In a game where it is the human's turn, `DROPC <X>` with `X`
the upper- or lower-case letter of a column that is full is answered `OK`
and leaves the board, `current_player`, `game_in_progress` and the human's
colour as they were. -/
theorem dropc_full_column (s : State) (c : Fin 8) (X : Char) (rest : List Char)
    (rand : Nat → Nat)
    (hgame : s.game_in_progress = true) (hturn : s.current_player = s.user_color)
    (hX : X = Char.ofNat ('A'.toNat + c.val) ∨ X = Char.ofNat ('a'.toNat + c.val))
    (hfull : colFull s.board c)
    (hlen : ("DROPC ".toList ++ X :: rest).length < BUF_LEN) :
    ∃ s' : State, fourinarow_write s ("DROPC ".toList ++ X :: rest) rand = some s' ∧
      s'.msg_buffer = "OK\n".toList ∧ s'.board = s.board ∧
      s'.current_player = s.current_player ∧ s'.current_player = s'.user_color ∧
      s'.game_in_progress = s.game_in_progress ∧ s'.user_color = s.user_color := by
  have hletter := col_to_index_letter c
  have hXc : col_to_index X = (c.val : Int) := by
    rcases hX with rfl | rfl
    · exact hletter.1
    · exact hletter.2.1
  have hXn : X ≠ '\n' := by
    rcases hX with rfl | rfl
    · exact hletter.2.2.1
    · exact hletter.2.2.2
  obtain ⟨rest', hw⟩ := write_dropc_cmd s [X] rest rand
    (fun _ => by
      show some X ≠ some '\n'
      intro h
      exact hXn (Option.some.inj h)) hlen
  have hw' : fourinarow_write s ("DROPC ".toList ++ X :: rest) rand =
      write_dropc { s with msg_buffer := [] } ("DROPC ".toList ++ [X] ++ rest') := hw
  have hfullw := write_dropc_full { s with msg_buffer := [] }
    ("DROPC ".toList ++ [X] ++ rest') c hgame hturn hXc hfull
  rw [← hw'] at hfullw
  exact ⟨_, hfullw, rfl, rfl, rfl, hturn, rfl, rfl⟩

/-- Witness of C14: `DROPC F` on the human's turn with column 5 full. -/
theorem dropc_full_column_witness :
    ∃ s' : State,
      fourinarow_write state_column_full_human ("DROPC ".toList ++ 'F' :: ['\n'])
        (fun _ => 0) = some s' ∧
      s'.msg_buffer = "OK\n".toList ∧ s'.board = state_column_full_human.board ∧
      s'.current_player = state_column_full_human.current_player ∧
      s'.current_player = s'.user_color ∧
      s'.game_in_progress = state_column_full_human.game_in_progress ∧
      s'.user_color = state_column_full_human.user_color :=
  dropc_full_column state_column_full_human 5 'F' ['\n'] (fun _ => 0) rfl rfl
    (Or.inl (by decide)) (by decide) (by decide)

/-! ## Command dispatch and unknown commands -/

/-- Against a keyword without NUL, `strncmp` over the length of the keyword
tests whether the buffer starts with the keyword. -/
theorem strncmp_eq_iff_starts (lit : List Char) (hlit : ∀ ch ∈ lit, ch ≠ NUL) :
    ∀ buf : List Char, strncmp_eq buf lit lit.length = true ↔ lit <+: buf := by
  induction lit with
  | nil => intro buf; simp [strncmp_eq]
  | cons a l ih =>
    intro buf
    have ha : a ≠ NUL := hlit a (List.mem_cons_self a l)
    have hl : ∀ ch ∈ l, ch ≠ NUL := fun ch hch => hlit ch (List.mem_cons_of_mem a hch)
    cases buf with
    | nil =>
      simp only [List.length_cons, strncmp_eq, List.headD_nil, List.headD_cons]
      rw [if_pos (fun h => ha h.symm)]
      simp
    | cons x t =>
      simp only [List.length_cons, strncmp_eq, List.headD_cons, List.tail_cons]
      by_cases hx : x = a
      · subst hx
        rw [if_neg (by simp), if_neg ha, ih hl t]
        simp [List.cons_prefix_cons]
      · rw [if_pos hx]
        simp only [Bool.false_eq_true, false_iff, List.cons_prefix_cons, not_and]
        intro h
        exact absurd h.symm hx

/-- A keyword without NUL starts the trimmed buffer exactly when it starts
the line without its trailing newline. -/
theorem starts_trim_newline (lit user : List Char) (hlit : ∀ ch ∈ lit, ch ≠ NUL) :
    lit <+: trim_newline user ↔ lit <+: strip_newline user := by
  unfold trim_newline strip_newline
  split
  · rw [List.prefix_concat_iff]
    constructor
    · rintro (h | h)
      · exact absurd rfl (hlit NUL (by rw [h]; simp))
      · exact h
    · intro h; exact Or.inr h
  · rfl

/-- The dispatch test of `fourinarow_write` for a keyword without NUL. -/
theorem dispatch_iff (lit user : List Char) (hlit : ∀ ch ∈ lit, ch ≠ NUL) :
    strncmp_eq (trim_newline user) lit lit.length = true ↔ lit <+: strip_newline user := by
  rw [strncmp_eq_iff_starts lit hlit, starts_trim_newline lit user hlit]

/-- The five dispatch tests of `fourinarow_write`. -/
theorem dispatch_tests (user : List Char) :
    (strncmp_eq (trim_newline user) "RESET R".toList 7 = true ↔
      "RESET R".toList <+: strip_newline user) ∧
    (strncmp_eq (trim_newline user) "RESET Y".toList 7 = true ↔
      "RESET Y".toList <+: strip_newline user) ∧
    (strncmp_eq (trim_newline user) "BOARD".toList 5 = true ↔
      "BOARD".toList <+: strip_newline user) ∧
    (strncmp_eq (trim_newline user) "DROPC ".toList 6 = true ↔
      "DROPC ".toList <+: strip_newline user) ∧
    (strncmp_eq (trim_newline user) "CTURN".toList 5 = true ↔
      "CTURN".toList <+: strip_newline user) :=
  ⟨dispatch_iff "RESET R".toList user (by decide),
   dispatch_iff "RESET Y".toList user (by decide),
   dispatch_iff "BOARD".toList user (by decide),
   dispatch_iff "DROPC ".toList user (by decide),
   dispatch_iff "CTURN".toList user (by decide)⟩

/-- Counterexample to C13 as stated: `RESET Rx` is none of the listed
commands, yet in the middle of a game it is answered `OK` and clears the
board. -/
theorem reset_with_suffix_is_reset :
    strip_newline "RESET Rx\n".toList ≠ "RESET R".toList ∧
    fourinarow_write state_after_first_drop "RESET Rx\n".toList (fun _ => 0)
      = some (reset_state 'R') ∧
    (reset_state 'R').msg_buffer ≠ "UNKNOWN\n".toList ∧
    (reset_state 'R').board ≠ state_after_first_drop.board ∧
    (reset_state 'R').current_player ≠ state_after_first_drop.current_player := by
  decide

/-- Claim C13, amended. Every command line shorter than `BUF_LEN` that,
without its trailing newline, starts with none of `RESET R`, `RESET Y`,
`BOARD`, `DROPC ` and `CTURN`, such as a keyword in another letter case,
is answered `UNKNOWN` and leaves the board and the session as they
were; a keyword followed by further characters is handled as that keyword:
`BOARDS` as `BOARD`, `CTURNX` as `CTURN`, `RESET Rx` as `RESET R`. -/
theorem unknown_command (s : State) (rand : Nat → Nat) :
    (∀ user : List Char, user.length < BUF_LEN →
      ¬("RESET R".toList <+: strip_newline user) →
      ¬("RESET Y".toList <+: strip_newline user) →
      ¬("BOARD".toList <+: strip_newline user) →
      ¬("DROPC ".toList <+: strip_newline user) →
      ¬("CTURN".toList <+: strip_newline user) →
      fourinarow_write s user rand = some { s with msg_buffer := "UNKNOWN\n".toList }) ∧
    fourinarow_write s "BOARDS".toList rand = fourinarow_write s "BOARD".toList rand ∧
    fourinarow_write s "CTURNX".toList rand = fourinarow_write s "CTURN".toList rand ∧
    fourinarow_write s "RESET Rx".toList rand = fourinarow_write s "RESET R".toList rand := by
  refine ⟨?_, ?_, ?_, ?_⟩
  · intro user hlen h1 h2 h3 h4 h5
    obtain ⟨d1, d2, d3, d4, d5⟩ := dispatch_tests user
    have hlen' : ¬(user.length ≥ BUF_LEN) := by omega
    unfold fourinarow_write
    simp only [if_neg hlen']
    rw [if_neg (fun h => h1 (d1.1 h)), if_neg (fun h => h2 (d2.1 h)),
      if_neg (fun h => h3 (d3.1 h)), if_neg (fun h => h4 (d4.1 h)),
      if_neg (fun h => h5 (d5.1 h))]
  · unfold fourinarow_write
    rfl
  · have hx := write_cturn_cmd s ['X'] rand (by decide)
    have h0 := write_cturn_cmd s [] rand (by decide)
    exact hx.trans h0.symm
  · have hx := write_reset_R s ['x'] rand (by decide)
    have h0 := write_reset_R s [] rand (by decide)
    exact hx.trans h0.symm

/-- Witness of C13 amended: the keyword `board` in lower case. -/
theorem unknown_command_witness :
    fourinarow_write (reset_state 'R') "board\n".toList (fun _ => 0)
      = some { reset_state 'R' with msg_buffer := "UNKNOWN\n".toList } :=
  (unknown_command (reset_state 'R') (fun _ => 0)).1 "board\n".toList (by decide)
    (by decide) (by decide) (by decide) (by decide) (by decide)

/-! ## No moves without a game -/

/-- Without a game, a write that is no `RESET` leaves the board alone and
starts no game. -/
theorem idle_write (s s' : State) (user : List Char) (rand : Nat → Nat)
    (hidle : s.game_in_progress = false) (hnr : ¬isResetLine user)
    (h : fourinarow_write s user rand = some s') :
    s'.board = s.board ∧ s'.game_in_progress = false := by
  obtain ⟨d1, d2, _, _, _⟩ := dispatch_tests user
  have h1 : ¬(strncmp_eq (trim_newline user) "RESET R".toList 7 = true) :=
    fun hc => hnr (Or.inl (d1.1 hc))
  have h2 : ¬(strncmp_eq (trim_newline user) "RESET Y".toList 7 = true) :=
    fun hc => hnr (Or.inr (d2.1 hc))
  unfold fourinarow_write at h
  simp only [if_neg h1, if_neg h2] at h
  split_ifs at h
  · injection h with h; subst h; exact ⟨rfl, hidle⟩
  · injection h with h; subst h; exact ⟨rfl, hidle⟩
  · have hn := write_dropc_nogame { s with msg_buffer := [] } (trim_newline user) hidle
    rw [hn] at h
    injection h with h; subst h; exact ⟨rfl, hidle⟩
  · have hn := write_cturn_nogame { s with msg_buffer := [] } rand hidle
    rw [hn] at h
    injection h with h; subst h; exact ⟨rfl, hidle⟩
  · injection h with h; subst h; exact ⟨rfl, hidle⟩

/-- Without a game, a sequence of writes without a `RESET` leaves the board
alone and starts no game. -/
theorem idle_run (cmds : List (List Char × (Nat → Nat))) :
    ∀ (s s' : State), s.game_in_progress = false →
      (∀ cmd ∈ cmds, ¬isResetLine cmd.1) → run_state s cmds = some s' →
      s'.board = s.board ∧ s'.game_in_progress = false := by
  induction cmds with
  | nil =>
    intro s s' hidle _ h
    rw [run_state] at h
    injection h with h
    subst h
    exact ⟨rfl, hidle⟩
  | cons cmd rest ih =>
    intro s s' hidle hnr h
    obtain ⟨user, rand⟩ := cmd
    rw [run_state] at h
    obtain ⟨s1, hs1⟩ := fourinarow_write_total s user rand
    simp only [hs1] at h
    have h1 := idle_write s s1 user rand hidle (hnr (user, rand) (List.mem_cons_self _ _)) hs1
    have h2 := ih s1 s' h1.2 (fun cmd hc => hnr cmd (List.mem_cons_of_mem _ hc)) h
    exact ⟨h2.1.trans h1.1, h2.2⟩

/-- Claim C15. While `game_in_progress` is false, every line that starts
with `DROPC ` and every line that starts with `CTURN` is answered `NOGAME`
and changes nothing else, whatever the random bytes; and no write or
sequence of writes without a `RESET R` or `RESET Y` changes the board or
starts a game. -/
theorem idle_no_moves (s : State) (hidle : s.game_in_progress = false) :
    (∀ (arg : List Char) (rand : Nat → Nat), ("DROPC ".toList ++ arg).length < BUF_LEN →
      fourinarow_write s ("DROPC ".toList ++ arg) rand
        = some { s with msg_buffer := "NOGAME\n".toList }) ∧
    (∀ (rest : List Char) (rand : Nat → Nat), ("CTURN".toList ++ rest).length < BUF_LEN →
      fourinarow_write s ("CTURN".toList ++ rest) rand
        = some { s with msg_buffer := "NOGAME\n".toList }) ∧
    (∀ (user : List Char) (rand : Nat → Nat) (s' : State), ¬isResetLine user →
      fourinarow_write s user rand = some s' →
      s'.board = s.board ∧ s'.game_in_progress = false) ∧
    (∀ (cmds : List (List Char × (Nat → Nat))) (s' : State),
      (∀ cmd ∈ cmds, ¬isResetLine cmd.1) → run_state s cmds = some s' →
      s'.board = s.board ∧ s'.game_in_progress = false) := by
  refine ⟨?_, ?_, ?_, ?_⟩
  · intro arg rand hlen
    obtain ⟨input, hin⟩ := write_dropc_line s arg rand hlen
    rw [hin, write_dropc_nogame { s with msg_buffer := [] } input hidle]
  · intro rest rand hlen
    rw [write_cturn_cmd s rest rand hlen,
      write_cturn_nogame { s with msg_buffer := [] } rand hidle]
  · intro user rand s' hnr h
    exact idle_write s s' user rand hidle hnr h
  · intro cmds s' hnr h
    exact idle_run cmds s s' hidle hnr h

/-- Witness of C15: `DROPC A` and `CTURN` before any `RESET`. -/
theorem idle_no_moves_witness :
    init_state.game_in_progress = false ∧
    fourinarow_write init_state ("DROPC ".toList ++ ['A', '\n']) (fun _ => 7)
      = some { init_state with msg_buffer := "NOGAME\n".toList } ∧
    fourinarow_write init_state ("CTURN".toList ++ ['\n']) (fun _ => 7)
      = some { init_state with msg_buffer := "NOGAME\n".toList } :=
  ⟨rfl, (idle_no_moves init_state rfl).1 ['A', '\n'] (fun _ => 7) (by decide),
   (idle_no_moves init_state rfl).2.1 ['\n'] (fun _ => 7) (by decide)⟩

/-! ## Reads -/

/-- Counterexample to C17 as stated. After `RESET R` a read at offset 0
returns `OK` and moves the offset of that open file to 3; the buffer is not
emptied, so a read at offset 0 returns `OK` again; and after a following
`BOARD` write, whose response is not empty, the first read of the same open
file, at offset 3, returns nothing. -/
theorem read_not_consuming :
    fourinarow_write init_state "RESET R\n".toList (fun _ => 0) = some (reset_state 'R') ∧
    fourinarow_read (reset_state 'R') 0 = (3, "OK\n".toList, 3) ∧
    (fourinarow_read (reset_state 'R') 0).2.1 ≠ [] ∧
    (∃ s2 : State,
      fourinarow_write (reset_state 'R') "BOARD\n".toList (fun _ => 0) = some s2 ∧
      s2.msg_buffer ≠ [] ∧ fourinarow_read s2 3 = (0, [], 3)) := by
  refine ⟨by decide, by decide, by decide,
    ⟨{ reset_state 'R' with msg_buffer := c_string (build_board_string reset_board) },
      by decide, by decide, by decide⟩⟩

/-- Claim C17, amended. After a write that produced a response, a read at
file offset 0 returns that response and advances the offset by its length,
and a second read at the advanced offset, with no write in between, returns
an empty result. -/
theorem read_once (s s' : State) (user : List Char) (rand : Nat → Nat)
    (_hw : fourinarow_write s user rand = some s') (hresp : s'.msg_buffer ≠ []) :
    fourinarow_read s' 0
      = ((s'.msg_buffer.length : Int), s'.msg_buffer, (s'.msg_buffer.length : Int)) ∧
    fourinarow_read s' (fourinarow_read s' 0).2.2
      = (0, [], (s'.msg_buffer.length : Int)) := by
  have hlen : s'.msg_buffer.length ≠ 0 := fun h => hresp (List.length_eq_zero.1 h)
  have hpos : (s'.msg_buffer.length : Int) > 0 := by omega
  have h1 : fourinarow_read s' 0
      = ((s'.msg_buffer.length : Int), s'.msg_buffer, (s'.msg_buffer.length : Int)) := by
    rw [fourinarow_read, if_neg (by decide), if_neg hlen, zero_add]
  refine ⟨h1, ?_⟩
  rw [h1]
  show fourinarow_read s' (s'.msg_buffer.length : Int) = _
  rw [fourinarow_read, if_pos hpos]

/-- Witness of C17 amended: the response `OK` of `RESET R`. -/
theorem read_once_witness :
    fourinarow_read (reset_state 'R') 0
      = (((reset_state 'R').msg_buffer.length : Int), (reset_state 'R').msg_buffer,
         ((reset_state 'R').msg_buffer.length : Int)) ∧
    fourinarow_read (reset_state 'R') (fourinarow_read (reset_state 'R') 0).2.2
      = (0, [], ((reset_state 'R').msg_buffer.length : Int)) :=
  read_once init_state (reset_state 'R') "RESET R\n".toList (fun _ => 0) (by decide)
    (by decide)

/-! ## The steps of the session -/

/-- The three results of `drop_chip`. -/
theorem drop_chip_trichotomy (b : Board) (player : Char) (col_idx : Int) :
    drop_chip b player col_idx = (-1, b) ∨ drop_chip b player col_idx = (1, b) ∨
    ∃ r0 c : Fin 8, b r0 c = '0' ∧ (∀ r : Fin 8, r.val < r0.val → b r c ≠ '0') ∧
      drop_chip b player col_idx = (0, b.set r0 c player) := by
  by_cases h : col_idx < 0 ∨ col_idx > 7
  · exact Or.inl (drop_chip_of_invalid b player col_idx h)
  · obtain ⟨c, rfl⟩ := exists_fin_of_range col_idx h
    by_cases hcol : ∃ r : Fin 8, b r c = '0'
    · obtain ⟨r0, h0, hmin⟩ := exists_lowest_empty b c hcol
      exact Or.inr (Or.inr ⟨r0, c, h0, hmin, drop_chip_of_empty b player c r0 h0 hmin⟩)
    · exact Or.inr (Or.inl (drop_chip_of_full b player c (fun r hr => hcol ⟨r, hr⟩)))

/-- The two results of the loop of `CTURN`. -/
theorem cturn_loop_cases (player : Char) (rand : Nat → Nat) (b : Board) :
    ∀ (n tries : Nat), cturn_loop player rand n tries b = (false, b) ∨
      ∃ b' : Board, placed b b' player ∧ cturn_loop player rand n tries b = (true, b') := by
  intro n
  induction n with
  | zero => intro tries; exact Or.inl rfl
  | succ n ih =>
    intro tries
    rw [cturn_loop]
    rcases drop_chip_trichotomy b player ((rand tries % 256 % 8 : Nat) : Int)
      with h | h | ⟨r0, c, h0, hmin, h⟩
    · simp only [h]
      rw [if_neg (by decide)]
      exact ih (tries + 1)
    · simp only [h]
      rw [if_neg (by decide)]
      exact ih (tries + 1)
    · simp only [h, if_true]
      exact Or.inr ⟨_, ⟨r0, c, h0, hmin, rfl⟩, rfl⟩

/-- The outcomes of the `DROPC` branch. -/
theorem write_dropc_cases (s s' : State) (input : List Char)
    (h : write_dropc s input = some s') :
    (sameSession s s' ∧ quiet_response s s') ∨ dropc_placed s s' := by
  unfold write_dropc at h
  by_cases hgame : s.game_in_progress = true
  swap
  · have hg : s.game_in_progress = false := by simpa using hgame
    simp only [hg, Bool.not_false, if_true] at h
    injection h with h; subst h
    exact Or.inl ⟨⟨rfl, hg.symm, rfl, rfl⟩, Or.inl rfl⟩
  simp only [hgame, Bool.not_true, Bool.false_eq_true, if_false] at h
  by_cases hturn : s.current_player = s.user_color
  swap
  · rw [if_pos hturn] at h
    injection h with h; subst h
    exact Or.inl ⟨⟨rfl, hgame.symm, rfl, rfl⟩, Or.inr (Or.inl rfl)⟩
  rw [if_neg (not_not.2 hturn)] at h
  by_cases hcol : col_to_index (buf_at input 6) < 0 ∨ col_to_index (buf_at input 6) > 7
  · simp only [if_pos hcol] at h
    injection h with h; subst h
    exact Or.inl ⟨⟨rfl, hgame.symm, rfl, rfl⟩, Or.inl rfl⟩
  simp only [if_neg hcol, check_game_over_some] at h
  rcases drop_chip_trichotomy s.board s.user_color (col_to_index (buf_at input 6))
    with hd | hd | ⟨r0, c, h0, hmin, hd⟩
  · simp only [hd, if_true] at h
    injection h with h; subst h
    exact Or.inl ⟨⟨rfl, hgame.symm, rfl, rfl⟩, Or.inl rfl⟩
  · simp only [hd] at h
    rw [if_neg (by decide)] at h
    simp only [if_true] at h
    injection h with h; subst h
    exact Or.inl ⟨⟨rfl, hgame.symm, rfl, rfl⟩, Or.inr (Or.inr ⟨rfl, hgame⟩)⟩
  · simp only [hd] at h
    rw [if_neg (by decide), if_neg (by decide)] at h
    right
    have hpl : placed s.board (s.board.set r0 c s.user_color) s.user_color :=
      ⟨r0, c, h0, hmin, rfl⟩
    by_cases h1 : winner (s.board.set r0 c s.user_color) = s.user_color
    · rw [if_pos h1] at h
      injection h with h; subst h
      exact ⟨hgame, hturn, hpl, rfl, Or.inl ⟨h1, rfl, rfl, rfl⟩⟩
    · rw [if_neg h1] at h
      by_cases h2 : winner (s.board.set r0 c s.user_color) = 'T'
      · rw [if_pos h2] at h
        injection h with h; subst h
        exact ⟨hgame, hturn, hpl, rfl, Or.inr (Or.inl ⟨h1, h2, rfl, rfl, rfl⟩)⟩
      · rw [if_neg h2] at h
        injection h with h; subst h
        exact ⟨hgame, hturn, hpl, rfl, Or.inr (Or.inr ⟨h1, h2, rfl, rfl, rfl⟩)⟩

/-- The outcomes of the `CTURN` branch. -/
theorem write_cturn_cases (s s' : State) (rand : Nat → Nat)
    (h : write_cturn s rand = some s') :
    (sameSession s s' ∧ quiet_response s s') ∨ cturn_full_tie s s' ∨ cturn_placed s s' := by
  unfold write_cturn at h
  by_cases hgame : s.game_in_progress = true
  swap
  · have hg : s.game_in_progress = false := by simpa using hgame
    simp only [hg, Bool.not_false, if_true] at h
    injection h with h; subst h
    exact Or.inl ⟨⟨rfl, hg.symm, rfl, rfl⟩, Or.inl rfl⟩
  simp only [hgame, Bool.not_true, Bool.false_eq_true, if_false] at h
  by_cases hturn : s.current_player = s.user_color
  · rw [if_pos hturn] at h
    injection h with h; subst h
    exact Or.inl ⟨⟨rfl, hgame.symm, rfl, rfl⟩, Or.inr (Or.inl rfl)⟩
  rw [if_neg hturn] at h
  simp only [check_game_over_some] at h
  rcases cturn_loop_cases s.current_player rand s.board 100 0 with hl | ⟨b', hpl, hl⟩
  · simp only [hl, Bool.not_false, if_true] at h
    by_cases hf : board_is_full s.board = true
    · rw [if_pos hf] at h
      injection h with h; subst h
      exact Or.inr (Or.inl ⟨hgame, hturn, hf, rfl, rfl, rfl, rfl, rfl⟩)
    · rw [if_neg hf] at h
      injection h with h; subst h
      exact Or.inl ⟨⟨rfl, hgame.symm, rfl, rfl⟩, Or.inl rfl⟩
  · simp only [hl, Bool.not_true, Bool.false_eq_true, if_false] at h
    right; right
    by_cases h1 : winner b' = s.current_player
    · rw [if_pos h1] at h
      injection h with h; subst h
      exact ⟨hgame, hturn, hpl, rfl, Or.inl ⟨h1, rfl, rfl, rfl⟩⟩
    · rw [if_neg h1] at h
      by_cases h2 : winner b' = 'T'
      · rw [if_pos h2] at h
        injection h with h; subst h
        exact ⟨hgame, hturn, hpl, rfl, Or.inr (Or.inl ⟨h1, h2, rfl, rfl, rfl⟩)⟩
      · rw [if_neg h2] at h
        injection h with h; subst h
        exact ⟨hgame, hturn, hpl, rfl, Or.inr (Or.inr ⟨h1, h2, rfl, rfl, rfl⟩)⟩

/-- The outcomes of a write. -/
theorem write_cases (s s' : State) (user : List Char) (rand : Nat → Nat)
    (h : fourinarow_write s user rand = some s') :
    sameSession s s' ∨ s' = reset_state 'R' ∨ s' = reset_state 'Y' ∨
    dropc_placed s s' ∨ cturn_full_tie s s' ∨ cturn_placed s s' := by
  unfold fourinarow_write at h
  simp only [] at h
  split_ifs at h
  · injection h with h; subst h; exact Or.inl ⟨rfl, rfl, rfl, rfl⟩
  · injection h with h; subst h; exact Or.inr (Or.inl rfl)
  · injection h with h; subst h; exact Or.inr (Or.inr (Or.inl rfl))
  · injection h with h; subst h; exact Or.inl ⟨rfl, rfl, rfl, rfl⟩
  · rcases write_dropc_cases _ s' _ h with ⟨hs, _⟩ | hp
    · exact Or.inl hs
    · exact Or.inr (Or.inr (Or.inr (Or.inl hp)))
  · rcases write_cturn_cases _ s' _ h with ⟨hs, _⟩ | hf | hp
    · exact Or.inl hs
    · exact Or.inr (Or.inr (Or.inr (Or.inr (Or.inl hf))))
    · exact Or.inr (Or.inr (Or.inr (Or.inr (Or.inr hp))))
  · injection h with h; subst h; exact Or.inl ⟨rfl, rfl, rfl, rfl⟩

/-! ## Invariants of the reachable states -/

theorem validCells_set (b : Board) (r0 c0 : Fin 8) (p : Char) (hv : validCells b)
    (hp : p = 'R' ∨ p = 'Y') : validCells (b.set r0 c0 p) := by
  intro r c
  by_cases h : r = r0 ∧ c = c0
  · obtain ⟨rfl, rfl⟩ := h
    rw [Board.set_same]
    exact Or.inr hp
  · rw [Board.set_other b r0 c0 r c p h]
    exact hv r c

theorem other_color_cases (p : Char) (hp : p = 'R' ∨ p = 'Y') :
    (other_color p = 'R' ∨ other_color p = 'Y') ∧ other_color p ≠ p ∧
    other_color p ≠ '0' ∧ p ≠ '0' := by
  rcases hp with rfl | rfl <;> decide

/-- Every write preserves the well-formedness of cells and colours. -/
theorem sessionInv_write (s s' : State) (user : List Char) (rand : Nat → Nat)
    (h : fourinarow_write s user rand = some s') (hi : sessionInv s) : sessionInv s' := by
  obtain ⟨hv, hu, hc⟩ := hi
  rcases write_cases s s' user rand h with hs | rfl | rfl | hd | hf | hp
  · obtain ⟨h1, _, h3, h4⟩ := hs
    exact ⟨by rw [h1]; exact hv, by rw [h4]; exact hu, by rw [h3]; exact hc⟩
  · exact ⟨by decide, by decide, by decide⟩
  · exact ⟨by decide, by decide, by decide⟩
  · obtain ⟨_, _, ⟨r0, c, _, _, hb⟩, h4, hout⟩ := hd
    refine ⟨by rw [hb]; exact validCells_set _ _ _ _ hv hu, by rw [h4]; exact hu, ?_⟩
    rcases hout with ⟨_, _, h3, _⟩ | ⟨_, _, _, h3, _⟩ | ⟨_, _, _, h3, _⟩
    · rw [h3]; exact hc
    · rw [h3]; exact hc
    · rw [h3]; exact (other_color_cases _ hu).1
  · obtain ⟨_, _, _, h1, _, h3, h4, _⟩ := hf
    exact ⟨by rw [h1]; exact hv, by rw [h4]; exact hu, by rw [h3]; exact hc⟩
  · obtain ⟨_, _, ⟨r0, c, _, _, hb⟩, h4, hout⟩ := hp
    refine ⟨by rw [hb]; exact validCells_set _ _ _ _ hv hc, by rw [h4]; exact hu, ?_⟩
    rcases hout with ⟨_, _, h3, _⟩ | ⟨_, _, _, h3, _⟩ | ⟨_, _, _, h3, _⟩
    · rw [h3]; exact hc
    · rw [h3]; exact hc
    · rw [h3]; exact hu

/-- In every reachable state the cells are `'0'`, `'R'` or `'Y'` and both
colours of the session are `'R'` or `'Y'`. -/
theorem reachable_sessionInv (s : State) (hs : Reachable s) : sessionInv s := by
  induction hs with
  | init => exact ⟨by decide, by decide, by decide⟩
  | write s s' user rand _ hw ih => exact sessionInv_write s s' user rand hw ih

/-- A bounded read of the board after one store. -/
theorem Board.get?_set (b : Board) (r0 c0 : Fin 8) (p : Char) (x y : Int) :
    (b.set r0 c0 p).get? x y =
      if x = (r0.val : Int) ∧ y = (c0.val : Int) then some p else b.get? x y := by
  have hr := r0.isLt
  have hc := c0.isLt
  by_cases hin : 0 ≤ x ∧ x < 8 ∧ 0 ≤ y ∧ y < 8
  · rw [Board.get?, dif_pos hin, Board.get?, dif_pos hin]
    by_cases hxy : x = (r0.val : Int) ∧ y = (c0.val : Int)
    · rw [if_pos hxy]
      have h1 : (⟨x.toNat, by omega⟩ : Fin 8) = r0 := Fin.ext (by simp; omega)
      have h2 : (⟨y.toNat, by omega⟩ : Fin 8) = c0 := Fin.ext (by simp; omega)
      rw [h1, h2, Board.set_same]
    · rw [if_neg hxy]
      rw [Board.set_other]
      rintro ⟨h1, h2⟩
      apply hxy
      have e1 := congrArg Fin.val h1
      have e2 := congrArg Fin.val h2
      simp only at e1 e2
      omega
  · rw [Board.get?, dif_neg hin, Board.get?, dif_neg hin, if_neg (by omega)]

theorem Board.get?_set_ne (b : Board) (r0 c0 : Fin 8) (p v : Char) (x y : Int)
    (h : (b.set r0 c0 p).get? x y = some v) (hv : v ≠ p) : b.get? x y = some v := by
  rw [Board.get?_set] at h
  by_cases hxy : x = (r0.val : Int) ∧ y = (c0.val : Int)
  · rw [if_pos hxy] at h
    exact absurd (Option.some.inj h).symm hv
  · rw [if_neg hxy] at h
    exact h

/-- After one chip on a board without a run of four, every run of four has
the colour of that chip. -/
theorem four_after_set (b : Board) (r0 c0 : Fin 8) (p : Char) (hno : ¬hasFour b)
    (r c : Fin 8) (d : Fin 4) (hf : fourAt (b.set r0 c0 p) r c d) :
    b.set r0 c0 p r c = p := by
  by_contra hne
  have hrc : ¬(r = r0 ∧ c = c0) := by
    rintro ⟨rfl, rfl⟩
    exact hne (Board.set_same b r c p)
  have hsame : b.set r0 c0 p r c = b r c := Board.set_other b r0 c0 r c p hrc
  obtain ⟨h0, h1, h2, h3⟩ := hf
  apply hno
  refine ⟨r, c, d, ?_, ?_, ?_, ?_⟩
  · rw [← hsame]; exact h0
  · rw [← hsame]; exact Board.get?_set_ne b r0 c0 p _ _ _ h1 hne
  · rw [← hsame]; exact Board.get?_set_ne b r0 c0 p _ _ _ h2 hne
  · rw [← hsame]; exact Board.get?_set_ne b r0 c0 p _ _ _ h3 hne

/-- What `check_game_over` can return after one chip on a board without a
run of four. -/
theorem winner_after_set (b : Board) (r0 c0 : Fin 8) (p : Char) (hno : ¬hasFour b) :
    winner (b.set r0 c0 p) = p ∨ winner (b.set r0 c0 p) = 'T' ∨
    winner (b.set r0 c0 p) = '0' := by
  unfold winner
  by_cases h0 : scanWin (b.set r0 c0 p) = '0'
  · rw [if_neg (not_not.2 h0)]
    by_cases hf : board_is_full (b.set r0 c0 p) = true
    · rw [if_pos hf]; exact Or.inr (Or.inl rfl)
    · rw [if_neg hf]; exact Or.inr (Or.inr rfl)
  · rw [if_pos h0]
    obtain ⟨r, c, d, hd, heq⟩ := scanWin_ne_zero _ h0
    left
    rw [heq]
    exact four_after_set b r0 c0 p hno r c d hd

/-- A board on which `check_game_over` returns `'0'` has no run of four and
is not full. -/
theorem winner_zero (b : Board) (h : winner b = '0') :
    ¬hasFour b ∧ board_is_full b = false := by
  unfold winner at h
  by_cases h0 : scanWin b = '0'
  · rw [if_neg (not_not.2 h0)] at h
    refine ⟨(scanWin_eq_zero_iff b).1 h0, ?_⟩
    by_cases hf : board_is_full b = true
    · rw [if_pos hf] at h
      exact absurd h (by decide)
    · simpa using hf
  · rw [if_pos h0] at h
    exact absurd h h0

/-- Every write preserves: while a game is in progress `check_game_over`
returns `'0'`. -/
theorem gameInv_write (s s' : State) (user : List Char) (rand : Nat → Nat)
    (h : fourinarow_write s user rand = some s')
    (hi : s.game_in_progress = true → winner s.board = '0') :
    s'.game_in_progress = true → winner s'.board = '0' := by
  intro hg'
  rcases write_cases s s' user rand h with hs | rfl | rfl | hd | hf | hp
  · obtain ⟨h1, h2, _, _⟩ := hs
    rw [h1]
    exact hi (by rw [← h2]; exact hg')
  · decide
  · decide
  · obtain ⟨hg, _, ⟨r0, c, _, _, hb⟩, _, hout⟩ := hd
    have hno := (winner_zero s.board (hi hg)).1
    rcases hout with ⟨_, h2, _⟩ | ⟨_, _, h2, _⟩ | ⟨h1, h2, _⟩
    · rw [h2] at hg'; exact absurd hg' (by decide)
    · rw [h2] at hg'; exact absurd hg' (by decide)
    · rw [hb] at h1 h2 ⊢
      rcases winner_after_set s.board r0 c s.user_color hno with hw | hw | hw
      · exact absurd hw h1
      · exact absurd hw h2
      · exact hw
  · obtain ⟨_, _, _, _, h2, _⟩ := hf
    rw [h2] at hg'; exact absurd hg' (by decide)
  · obtain ⟨hg, _, ⟨r0, c, _, _, hb⟩, _, hout⟩ := hp
    have hno := (winner_zero s.board (hi hg)).1
    rcases hout with ⟨_, h2, _⟩ | ⟨_, _, h2, _⟩ | ⟨h1, h2, _⟩
    · rw [h2] at hg'; exact absurd hg' (by decide)
    · rw [h2] at hg'; exact absurd hg' (by decide)
    · rw [hb] at h1 h2 ⊢
      rcases winner_after_set s.board r0 c s.current_player hno with hw | hw | hw
      · exact absurd hw h1
      · exact absurd hw h2
      · exact hw

/-- In every reachable state with a game in progress `check_game_over`
returns `'0'`. -/
theorem reachable_gameInv (s : State) (hs : Reachable s) :
    s.game_in_progress = true → winner s.board = '0' := by
  induction hs with
  | init => intro h; exact absurd h (by decide)
  | write s s' user rand _ hw ih => exact gameInv_write s s' user rand hw ih

/-! ## The `BOARD` command -/

/-- A line that starts with `BOARD` reaches the `BOARD` branch. -/
theorem write_board_cmd (s : State) (rest : List Char) (rand : Nat → Nat)
    (hlen : ("BOARD".toList ++ rest).length < BUF_LEN) :
    fourinarow_write s ("BOARD".toList ++ rest) rand =
      some { s with msg_buffer := c_string (build_board_string s.board) } := by
  have hlen' : ¬(("BOARD".toList ++ rest).length ≥ BUF_LEN) := by omega
  obtain ⟨rest', hrest⟩ := trim_newline_append "BOARD".toList rest (fun _ => by decide)
  unfold fourinarow_write
  simp only [if_neg hlen', hrest]
  rw [if_neg (by simp [strncmp_eq, NUL]), if_neg (by simp [strncmp_eq, NUL]),
    if_pos (by simp [strncmp_eq, NUL])]

theorem build_board_string_cols_mem (b : Board) (r : Fin 8) :
    ∀ (n c : Nat) (buf : List Char) (x : Char),
      x ∈ build_board_string_cols b r n c buf → x ∈ buf ∨ ∃ j : Fin 8, x = b r j := by
  intro n
  induction n with
  | zero => intro c buf x hx; exact Or.inl hx
  | succ n ih =>
    intro c buf x hx
    rw [build_board_string_cols] at hx
    by_cases hc : c < 8
    · rw [dif_pos hc] at hx
      rcases ih (c + 1) _ x hx with h | h
      · rcases List.mem_append.1 h with h | h
        · exact Or.inl h
        · exact Or.inr ⟨⟨c, hc⟩, List.mem_singleton.1 h⟩
      · exact Or.inr h
    · rw [dif_neg hc] at hx
      exact Or.inl hx

theorem build_board_string_rows_mem (b : Board) :
    ∀ (n : Nat) (buf : List Char) (x : Char),
      x ∈ build_board_string_rows b n buf →
      x ∈ buf ∨ x = '\n' ∨ ∃ i j : Fin 8, x = b i j := by
  intro n
  induction n with
  | zero => intro buf x hx; exact Or.inl hx
  | succ n ih =>
    intro buf x hx
    rw [build_board_string_rows] at hx
    by_cases hn : n < 8
    · rw [dif_pos hn] at hx
      rcases ih _ x hx with h | h | h
      · rcases List.mem_append.1 h with h | h
        · rcases build_board_string_cols_mem b ⟨n, hn⟩ 8 0 buf x h with h | ⟨j, h⟩
          · exact Or.inl h
          · exact Or.inr (Or.inr ⟨⟨n, hn⟩, j, h⟩)
        · exact Or.inr (Or.inl (List.mem_singleton.1 h))
      · exact Or.inr (Or.inl h)
      · exact Or.inr (Or.inr h)
    · rw [dif_neg hn] at hx
      exact Or.inl hx

/-- On a board without NUL cells the `strlen` cut keeps the whole rendering. -/
theorem c_string_build_board_string (b : Board) (hcells : ∀ r c : Fin 8, b r c ≠ NUL) :
    c_string (build_board_string b) = build_board_string b := by
  rw [c_string, List.takeWhile_eq_self_iff]
  intro x hx
  have hne : x ≠ NUL := by
    rcases build_board_string_rows_mem b 8 [] x hx with h | h | ⟨i, j, h⟩
    · exact absurd h (List.not_mem_nil x)
    · rw [h]; decide
    · rw [h]; exact hcells i j
  simpa using hne

/-- The inner loop of `build_board_string` appends the cells of the row. -/
theorem build_board_string_cols_layout (b : Board) (r : Fin 8) :
    ∀ (n c : Nat) (buf : List Char), c + n = 8 →
      (build_board_string_cols b r n c buf).length = buf.length + n ∧
      (∀ i : Nat, i < buf.length → (build_board_string_cols b r n c buf)[i]? = buf[i]?) ∧
      (∀ j : Fin 8, c ≤ j.val →
        (build_board_string_cols b r n c buf)[buf.length + (j.val - c)]? = some (b r j)) := by
  intro n
  induction n with
  | zero =>
    intro c buf hc
    refine ⟨rfl, fun i _ => rfl, ?_⟩
    intro j hj
    have := j.isLt
    omega
  | succ n ih =>
    intro c buf hc
    have hc8 : c < 8 := by omega
    rw [build_board_string_cols, dif_pos hc8]
    obtain ⟨hlen, hold, hnew⟩ := ih (c + 1) (buf ++ [b r ⟨c, hc8⟩]) (by omega)
    have hl : (buf ++ [b r ⟨c, hc8⟩]).length = buf.length + 1 := by simp
    refine ⟨by rw [hlen, hl]; omega, ?_, ?_⟩
    · intro i hi
      rw [hold i (by rw [hl]; omega), List.getElem?_append_left hi]
    · intro j hj
      by_cases hjc : j.val = c
      · have hj' : j = ⟨c, hc8⟩ := Fin.ext hjc
        rw [hj']
        have h0 : buf.length + (c - c) = buf.length := by omega
        show (build_board_string_cols b r n (c + 1) (buf ++ [b r ⟨c, hc8⟩]))[
          buf.length + (c - c)]? = _
        rw [h0, hold buf.length (by rw [hl]; omega),
          List.getElem?_append_right (le_refl _)]
        simp
      · have h1 := hnew j (by omega)
        rw [hl] at h1
        have h2 : buf.length + 1 + (j.val - (c + 1)) = buf.length + (j.val - c) := by omega
        rw [h2] at h1
        exact h1

/-- The outer loop of `build_board_string` appends the rows from `n - 1`
down to `0`, each followed by a newline. -/
theorem build_board_string_rows_layout (b : Board) :
    ∀ (n : Nat) (buf : List Char), n ≤ 8 →
      (build_board_string_rows b n buf).length = buf.length + 9 * n ∧
      (∀ i : Nat, i < buf.length → (build_board_string_rows b n buf)[i]? = buf[i]?) ∧
      (∀ i j : Fin 8, i.val < n →
        (build_board_string_rows b n buf)[buf.length + 9 * (n - 1 - i.val) + j.val]?
          = some (b i j) ∧
        (build_board_string_rows b n buf)[buf.length + 9 * (n - 1 - i.val) + 8]?
          = some '\n') := by
  intro n
  induction n with
  | zero =>
    intro buf _
    refine ⟨rfl, fun i _ => rfl, ?_⟩
    intro i j hi
    omega
  | succ n ih =>
    intro buf hn
    have hn8 : n < 8 := by omega
    rw [build_board_string_rows, dif_pos hn8]
    obtain ⟨clen, cold, cnew⟩ := build_board_string_cols_layout b ⟨n, hn8⟩ 8 0 buf rfl
    obtain ⟨hlen, hold, hnew⟩ :=
      ih (build_board_string_cols b ⟨n, hn8⟩ 8 0 buf ++ ['\n']) (by omega)
    have hl : (build_board_string_cols b ⟨n, hn8⟩ 8 0 buf ++ ['\n']).length
        = buf.length + 9 := by
      rw [List.length_append, clen]; rfl
    refine ⟨by rw [hlen, hl]; omega, ?_, ?_⟩
    · intro i hi
      rw [hold i (by rw [hl]; omega), List.getElem?_append_left (by rw [clen]; omega),
        cold i hi]
    · intro i j hi
      by_cases hin : i.val = n
      · have hi' : i = ⟨n, hn8⟩ := Fin.ext hin
        have h0 : n + 1 - 1 - i.val = 0 := by omega
        rw [h0, Nat.mul_zero, Nat.add_zero]
        constructor
        · rw [hold _ (by rw [hl]; have := j.isLt; omega),
            List.getElem?_append_left (by rw [clen]; have := j.isLt; omega), hi']
          have := cnew j (Nat.zero_le _)
          rw [Nat.sub_zero] at this
          exact this
        · rw [hold _ (by rw [hl]; omega),
            List.getElem?_append_right (by rw [clen]), clen]
          simp
      · have h1 := hnew i j (by omega)
        rw [hl] at h1
        have h2 : buf.length + 9 + 9 * (n - 1 - i.val)
            = buf.length + 9 * (n + 1 - 1 - i.val) := by omega
        rw [h2] at h1
        exact h1

/-- The rendering: 72 bytes, line `k` holding row `7 - k` and a newline. -/
theorem build_board_string_layout (b : Board) :
    (build_board_string b).length = 72 ∧
    ∀ k j : Fin 8,
      (build_board_string b)[9 * k.val + j.val]? = some (b ⟨7 - k.val, by omega⟩ j) ∧
      (build_board_string b)[9 * k.val + 8]? = some '\n' := by
  obtain ⟨hlen, _, hnew⟩ := build_board_string_rows_layout b 8 [] (le_refl _)
  refine ⟨hlen, ?_⟩
  intro k j
  have hk := k.isLt
  have h := hnew ⟨7 - k.val, by omega⟩ j (by show 7 - k.val < 8; omega)
  have he : ([] : List Char).length + 9 * (8 - 1 - (7 - k.val)) = 9 * k.val := by
    simp only [List.length_nil]
    omega
  simp only [he] at h
  exact h

theorem validCells_ne_NUL (b : Board) (hv : validCells b) : ∀ r c : Fin 8, b r c ≠ NUL := by
  intro r c
  rcases hv r c with h | h | h <;> rw [h] <;> decide

/-- Claim C16. (1) On every board whose cells are `'0'`, `'R'` or `'Y'`, a
line that starts with `BOARD` changes neither board nor session, and its
response has exactly 72 characters: for `k`, `j` in `0..7`, character `j`
of line `k` (position `9 k + j`) is the cell of row `7 - k`, column `j`,
and a newline ends the line (position `9 k + 8`). (2) Every reachable state
has such a board. (3) In the initial state every cell character of the
response is `'0'`. -/
theorem board_command :
    (∀ (s : State) (rest : List Char) (rand : Nat → Nat),
      ("BOARD".toList ++ rest).length < BUF_LEN → validCells s.board →
      ∃ s' : State, fourinarow_write s ("BOARD".toList ++ rest) rand = some s' ∧
        s'.board = s.board ∧ s'.game_in_progress = s.game_in_progress ∧
        s'.current_player = s.current_player ∧ s'.user_color = s.user_color ∧
        s'.msg_buffer.length = 72 ∧
        ∀ k j : Fin 8,
          s'.msg_buffer[9 * k.val + j.val]? = some (s.board ⟨7 - k.val, by omega⟩ j) ∧
          s'.msg_buffer[9 * k.val + 8]? = some '\n') ∧
    (∀ s : State, Reachable s → validCells s.board) ∧
    (∀ (rest : List Char) (rand : Nat → Nat), ("BOARD".toList ++ rest).length < BUF_LEN →
      ∃ s' : State, fourinarow_write init_state ("BOARD".toList ++ rest) rand = some s' ∧
        ∀ k j : Fin 8, s'.msg_buffer[9 * k.val + j.val]? = some '0') := by
  have hmain : ∀ (s : State) (rest : List Char) (rand : Nat → Nat),
      ("BOARD".toList ++ rest).length < BUF_LEN → validCells s.board →
      fourinarow_write s ("BOARD".toList ++ rest) rand
        = some { s with msg_buffer := build_board_string s.board } := by
    intro s rest rand hlen hv
    rw [write_board_cmd s rest rand hlen,
      c_string_build_board_string s.board (validCells_ne_NUL s.board hv)]
  refine ⟨?_, fun s hs => (reachable_sessionInv s hs).1, ?_⟩
  · intro s rest rand hlen hv
    have hl := build_board_string_layout s.board
    exact ⟨_, hmain s rest rand hlen hv, rfl, rfl, rfl, rfl, hl.1, hl.2⟩
  · intro rest rand hlen
    refine ⟨_, hmain init_state rest rand hlen (by decide), ?_⟩
    intro k j
    exact ((build_board_string_layout init_state.board).2 k j).1

/-- Witness of C16: `BOARD` after `RESET R` and `DROPC A` shows the red chip
at the start of the last line. -/
theorem board_command_witness :
    ∃ s' : State,
      fourinarow_write state_after_first_drop ("BOARD".toList ++ ['\n']) (fun _ => 0)
        = some s' ∧
      s'.board = state_after_first_drop.board ∧
      s'.game_in_progress = state_after_first_drop.game_in_progress ∧
      s'.current_player = state_after_first_drop.current_player ∧
      s'.user_color = state_after_first_drop.user_color ∧
      s'.msg_buffer.length = 72 ∧
      ∀ k j : Fin 8,
        s'.msg_buffer[9 * k.val + j.val]?
          = some (state_after_first_drop.board ⟨7 - k.val, by omega⟩ j) ∧
        s'.msg_buffer[9 * k.val + 8]? = some '\n' :=
  board_command.1 state_after_first_drop ['\n'] (fun _ => 0) (by decide) (by decide)

/-! ## No finished position while a game is in progress -/

/-- On a board of `'0'`, `'R'`, `'Y'` no response of other than 72 bytes is
the response of `BOARD`. -/
theorem board_response_ne (b : Board) (hv : validCells b) (m : List Char)
    (hm : m.length ≠ 72) : c_string (build_board_string b) ≠ m := by
  intro h
  apply hm
  rw [← h, c_string_build_board_string b (validCells_ne_NUL b hv)]
  exact (build_board_string_layout b).1

theorem empty_ne_msgs :
    ([] : List Char) ≠ "OK\n".toList ∧ ([] : List Char) ≠ "TIE\n".toList ∧
    "UNKNOWN\n".toList ≠ "OK\n".toList ∧ "UNKNOWN\n".toList ≠ "TIE\n".toList ∧
    "OK\n".toList ≠ "TIE\n".toList := by decide

/-- In a well-formed state a write that answers `OK` leaves a game in
progress. -/
theorem write_ok_game (s s' : State) (user : List Char) (rand : Nat → Nat)
    (hv : validCells s.board) (h : fourinarow_write s user rand = some s')
    (hok : s'.msg_buffer = "OK\n".toList) : s'.game_in_progress = true := by
  unfold fourinarow_write at h
  simp only [] at h
  split_ifs at h
  · injection h with h; subst h; exact absurd hok empty_ne_msgs.1
  · injection h with h; subst h; rfl
  · injection h with h; subst h; rfl
  · injection h with h; subst h
    dsimp only at hok
    exact absurd hok (board_response_ne s.board hv "OK\n".toList (by decide))
  · rcases write_dropc_cases _ s' _ h with ⟨hs, hq⟩ | hd
    · rcases hq with hq | hq | ⟨_, hg⟩
      · rw [hq] at hok; exact absurd hok (by decide)
      · rw [hq] at hok; exact absurd hok (by decide)
      · rw [hs.2.1]; exact hg
    · obtain ⟨_, _, _, _, hout⟩ := hd
      rcases hout with ⟨_, _, _, hm⟩ | ⟨_, _, _, _, hm⟩ | ⟨_, _, hg, _⟩
      · rw [hm] at hok; exact absurd hok (by decide)
      · rw [hm] at hok; exact absurd hok (by decide)
      · exact hg
  · rcases write_cturn_cases _ s' _ h with ⟨hs, hq⟩ | hf | hp
    · rcases hq with hq | hq | ⟨_, hg⟩
      · rw [hq] at hok; exact absurd hok (by decide)
      · rw [hq] at hok; exact absurd hok (by decide)
      · rw [hs.2.1]; exact hg
    · obtain ⟨_, _, _, _, _, _, _, hm⟩ := hf
      rw [hm] at hok; exact absurd hok (by decide)
    · obtain ⟨_, _, _, _, hout⟩ := hp
      rcases hout with ⟨_, _, _, hm⟩ | ⟨_, _, _, _, hm⟩ | ⟨_, _, hg, _⟩
      · rw [hm] at hok; exact absurd hok (by decide)
      · rw [hm] at hok; exact absurd hok (by decide)
      · exact hg
  · injection h with h; subst h; exact absurd hok empty_ne_msgs.2.2.1

/-- Claim C19. (1) In every state reachable from the initial state, if a
game is in progress then `check_game_over` returns `'0'` on the board: the
board has no run of four and has an empty cell. (2) Hence in such a state
the condition of the `CTURN` branch that answers `TIE` without a chip, the
loop failing on a full board, never holds. (3) And a write that is answered
`OK` in a reachable state, a `DROPC` or `CTURN` move in particular, leaves a
game in progress on a board without a run of four. -/
theorem no_win_while_playing :
    (∀ s : State, Reachable s → s.game_in_progress = true →
      check_game_over s.board = some '0' ∧ ¬hasFour s.board ∧ hasEmpty s.board) ∧
    (∀ (s : State) (rand : Nat → Nat), Reachable s → s.game_in_progress = true →
      ¬((cturn_loop s.current_player rand 100 0 s.board).1 = false ∧
        board_is_full (cturn_loop s.current_player rand 100 0 s.board).2 = true)) ∧
    (∀ (s s' : State) (user : List Char) (rand : Nat → Nat), Reachable s →
      fourinarow_write s user rand = some s' → s'.msg_buffer = "OK\n".toList →
      s'.game_in_progress = true ∧ ¬hasFour s'.board) := by
  have hmain : ∀ s : State, Reachable s → s.game_in_progress = true →
      check_game_over s.board = some '0' ∧ ¬hasFour s.board ∧ hasEmpty s.board := by
    intro s hs hg
    have hw := reachable_gameInv s hs hg
    have hz := winner_zero s.board hw
    refine ⟨by rw [check_game_over_some, hw], hz.1, ?_⟩
    by_contra hne
    have hfull := (board_is_full_iff_not_hasEmpty s.board).2 hne
    rw [hz.2] at hfull
    exact absurd hfull (by decide)
  refine ⟨hmain, ?_, ?_⟩
  · rintro s rand hs hg ⟨hfail, hfull⟩
    rw [cturn_loop_false _ _ _ _ _ hfail] at hfull
    have hz := winner_zero s.board (reachable_gameInv s hs hg)
    rw [hz.2] at hfull
    exact absurd hfull (by decide)
  · intro s s' user rand hs hw hok
    have hg' := write_ok_game s s' user rand (reachable_sessionInv s hs).1 hw hok
    exact ⟨hg', (hmain s' (Reachable.write s s' user rand hs hw) hg').2.1⟩

/-- Witness of C19: the state after `RESET R` and `DROPC A` is reachable,
and `check_game_over` returns `'0'` on its board. -/
theorem no_win_while_playing_witness :
    Reachable state_after_first_drop ∧
    check_game_over state_after_first_drop.board = some '0' ∧
    ¬hasFour state_after_first_drop.board ∧ hasEmpty state_after_first_drop.board :=
  have hr : Reachable state_after_first_drop :=
    Reachable.write (reset_state 'R') state_after_first_drop "DROPC A".toList (fun _ => 0)
      (Reachable.write init_state (reset_state 'R') "RESET R".toList (fun _ => 0)
        Reachable.init (by decide)) (by decide)
  ⟨hr, no_win_while_playing.1 state_after_first_drop hr rfl⟩

/-! ## Alternation of the chips -/

theorem count_chips_reset (p : Char) (hp : p ≠ '0') : count_chips reset_board p = 0 := by
  unfold count_chips
  rw [Finset.card_eq_zero, Finset.filter_eq_empty_iff]
  intro rc _ h
  exact hp h.symm

/-- A chip on an empty cell adds one to the count of its colour. -/
theorem count_chips_set_same (b : Board) (r0 c0 : Fin 8) (p : Char) (h0 : b r0 c0 = '0')
    (hp : p ≠ '0') : count_chips (b.set r0 c0 p) p = count_chips b p + 1 := by
  unfold count_chips
  have hins : Finset.univ.filter (fun rc : Fin 8 × Fin 8 => b.set r0 c0 p rc.1 rc.2 = p)
      = insert (r0, c0) (Finset.univ.filter (fun rc : Fin 8 × Fin 8 => b rc.1 rc.2 = p)) := by
    ext rc
    simp only [Finset.mem_filter, Finset.mem_univ, true_and, Finset.mem_insert]
    by_cases h : rc.1 = r0 ∧ rc.2 = c0
    · obtain ⟨h1, h2⟩ := h
      have hrc : rc = (r0, c0) := Prod.ext h1 h2
      rw [h1, h2, Board.set_same]
      simp [hrc]
    · rw [Board.set_other b r0 c0 rc.1 rc.2 p h]
      have hrc : rc ≠ (r0, c0) := fun he => h ⟨by rw [he], by rw [he]⟩
      simp [hrc]
  rw [hins, Finset.card_insert_of_not_mem]
  simp only [Finset.mem_filter, Finset.mem_univ, true_and]
  rw [h0]
  exact fun h => hp h.symm

/-- A chip on an empty cell leaves the count of any other colour alone. -/
theorem count_chips_set_other (b : Board) (r0 c0 : Fin 8) (p q : Char) (h0 : b r0 c0 = '0')
    (hq : q ≠ '0') (hpq : q ≠ p) : count_chips (b.set r0 c0 p) q = count_chips b q := by
  unfold count_chips
  congr 1
  ext rc
  simp only [Finset.mem_filter, Finset.mem_univ, true_and]
  by_cases h : rc.1 = r0 ∧ rc.2 = c0
  · obtain ⟨h1, h2⟩ := h
    rw [h1, h2, Board.set_same, h0]
    constructor
    · intro h; exact absurd h.symm hpq
    · intro h; exact absurd h.symm hq
  · rw [Board.set_other b r0 c0 rc.1 rc.2 p h]

/-- A full board of `'R'` and `'Y'` holds 64 chips. -/
theorem count_chips_full (b : Board) (hv : validCells b) (hfull : ∀ r c : Fin 8, b r c ≠ '0') :
    count_chips b 'R' + count_chips b 'Y' = 64 := by
  unfold count_chips
  have hY : Finset.univ.filter (fun rc : Fin 8 × Fin 8 => b rc.1 rc.2 = 'Y')
      = Finset.univ.filter (fun rc : Fin 8 × Fin 8 => ¬b rc.1 rc.2 = 'R') := by
    ext rc
    simp only [Finset.mem_filter, Finset.mem_univ, true_and]
    rcases hv rc.1 rc.2 with h | h | h
    · exact absurd h (hfull rc.1 rc.2)
    · rw [h]; decide
    · rw [h]; decide
  rw [hY, Finset.filter_card_add_filter_neg_card_eq_card]
  rfl

/-- The opponent's colour is the other colour. -/
theorem opponent_is_other (u p : Char) (hu : u = 'R' ∨ u = 'Y') (hp : p = 'R' ∨ p = 'Y')
    (hne : p ≠ u) : p = other_color u := by
  rcases hu with rfl | rfl <;> rcases hp with rfl | rfl <;>
    first | rfl | exact absurd rfl hne

/-- The two colours of a full board add up to 64 chips. -/
theorem count_chips_full_colors (b : Board) (u : Char) (hu : u = 'R' ∨ u = 'Y')
    (hv : validCells b) (hfull : ∀ r c : Fin 8, b r c ≠ '0') :
    count_chips b u + count_chips b (other_color u) = 64 := by
  have h := count_chips_full b hv hfull
  rcases hu with rfl | rfl
  · exact h
  · rw [Nat.add_comm]; exact h

/-- Every write preserves the alternation of the chips. -/
theorem countInv_write (s s' : State) (user : List Char) (rand : Nat → Nat)
    (h : fourinarow_write s user rand = some s') (hsi : sessionInv s) (hi : countInv s) :
    countInv s' := by
  obtain ⟨_, hu, hc⟩ := hsi
  obtain ⟨hoc, hou, ho0, hu0⟩ := other_color_cases s.user_color hu
  intro hg'
  rcases write_cases s s' user rand h with hs | rfl | rfl | hd | hf | hp
  · obtain ⟨h1, h2, h3, h4⟩ := hs
    rw [h1, h3, h4]
    exact hi (by rw [← h2]; exact hg')
  · show count_chips reset_board 'R' = count_chips reset_board (other_color 'R') + 0
    rw [count_chips_reset 'R' (by decide), count_chips_reset _ (by decide)]
  · show count_chips reset_board 'Y' = count_chips reset_board (other_color 'Y') + 0
    rw [count_chips_reset 'Y' (by decide), count_chips_reset _ (by decide)]
  · obtain ⟨hg, ht, ⟨r0, c, h0, _, hb⟩, h4, hout⟩ := hd
    rcases hout with ⟨_, h2, _⟩ | ⟨_, _, h2, _⟩ | ⟨_, _, _, h3, _⟩
    · rw [h2] at hg'; exact absurd hg' (by decide)
    · rw [h2] at hg'; exact absurd hg' (by decide)
    · have hbefore := hi hg
      rw [if_pos ht] at hbefore
      rw [hb, h3, h4, if_neg hou, count_chips_set_same s.board r0 c _ h0 hu0,
        count_chips_set_other s.board r0 c _ _ h0 ho0 hou]
      omega
  · obtain ⟨_, _, _, _, h2, _⟩ := hf
    rw [h2] at hg'; exact absurd hg' (by decide)
  · obtain ⟨hg, ht, ⟨r0, c, h0, _, hb⟩, h4, hout⟩ := hp
    rcases hout with ⟨_, h2, _⟩ | ⟨_, _, h2, _⟩ | ⟨_, _, _, h3, _⟩
    · rw [h2] at hg'; exact absurd hg' (by decide)
    · rw [h2] at hg'; exact absurd hg' (by decide)
    · have hbefore := hi hg
      rw [if_neg ht] at hbefore
      have hcp := opponent_is_other s.user_color s.current_player hu hc ht
      rw [hb, h3, h4, if_pos rfl, hcp,
        count_chips_set_same s.board r0 c _ h0 ho0,
        count_chips_set_other s.board r0 c _ _ h0 hu0 (fun he => hou he.symm)]
      omega

/-- In every reachable state the chips alternate. -/
theorem reachable_countInv (s : State) (hs : Reachable s) : countInv s := by
  induction hs with
  | init => intro h; exact absurd h (by decide)
  | write s s' user rand hr hw ih =>
    exact countInv_write s s' user rand hw (reachable_sessionInv s hr) ih

/-- On a board of `'0'`, `'R'`, `'Y'` the answer `'T'` of `check_game_over`
means a full board. -/
theorem winner_tie_full (b : Board) (hv : validCells b) (h : winner b = 'T') :
    ∀ r c : Fin 8, b r c ≠ '0' := by
  unfold winner at h
  by_cases h0 : scanWin b = '0'
  · rw [if_neg (not_not.2 h0)] at h
    by_cases hf : board_is_full b = true
    · exact (board_is_full_iff b).1 hf
    · rw [if_neg hf] at h
      exact absurd h (by decide)
  · rw [if_pos h0] at h
    rcases scanWin_color b hv h0 with hc | hc
    · rw [hc] at h; exact absurd h (by decide)
    · rw [hc] at h; exact absurd h (by decide)

/-- In a well-formed state with alternating chips the `DROPC` branch never
answers `TIE`. -/
theorem write_dropc_no_tie (s s' : State) (input : List Char) (hsi : sessionInv s)
    (hi : countInv s) (h : write_dropc s input = some s') :
    s'.msg_buffer ≠ "TIE\n".toList := by
  obtain ⟨hv, hu, _⟩ := hsi
  obtain ⟨_, hou, ho0, hu0⟩ := other_color_cases s.user_color hu
  rcases write_dropc_cases s s' input h with ⟨_, hq⟩ | hd
  · rcases hq with hq | hq | ⟨hq, _⟩ <;> rw [hq] <;> decide
  · obtain ⟨hg, ht, ⟨r0, c, h0, _, hb⟩, _, hout⟩ := hd
    rcases hout with ⟨_, _, _, hm⟩ | ⟨_, hT, _⟩ | ⟨_, _, _, _, hm⟩
    · rw [hm]; decide
    · exfalso
      have hv' : validCells s'.board := by
        rw [hb]; exact validCells_set _ _ _ _ hv hu
      have hfull := winner_tie_full s'.board hv' hT
      have h64 := count_chips_full_colors s'.board s.user_color hu hv' hfull
      have hbefore := hi hg
      rw [if_pos ht] at hbefore
      rw [hb, count_chips_set_same s.board r0 c _ h0 hu0,
        count_chips_set_other s.board r0 c _ _ h0 ho0 hou] at h64
      omega
    · rw [hm]; decide

/-- Claim C20. (1) In every reachable state with a game in progress the
number of chips of the human's colour equals the number of chips of the
other colour when it is the human's turn and exceeds it by one when it is
the opponent's turn. (2) So on the human's turn the board never holds 63
chips: the 64th chip is not the human's. (3) In no reachable state is a
line that starts with `DROPC ` answered `TIE`, and (4) a write answered
`TIE` in a reachable state is a line that starts with `CTURN`. -/
theorem chips_alternate :
    (∀ s : State, Reachable s → s.game_in_progress = true →
      (s.current_player = s.user_color →
        count_chips s.board s.user_color = count_chips s.board (other_color s.user_color)) ∧
      (s.current_player ≠ s.user_color →
        count_chips s.board s.user_color
          = count_chips s.board (other_color s.user_color) + 1)) ∧
    (∀ s : State, Reachable s → s.game_in_progress = true →
      s.current_player = s.user_color →
      count_chips s.board s.user_color + count_chips s.board (other_color s.user_color)
        ≠ 63) ∧
    (∀ (s s' : State) (arg : List Char) (rand : Nat → Nat), Reachable s →
      fourinarow_write s ("DROPC ".toList ++ arg) rand = some s' →
      s'.msg_buffer ≠ "TIE\n".toList) ∧
    (∀ (s s' : State) (user : List Char) (rand : Nat → Nat), Reachable s →
      fourinarow_write s user rand = some s' → s'.msg_buffer = "TIE\n".toList →
      "CTURN".toList <+: strip_newline user) := by
  have hcount : ∀ s : State, Reachable s → s.game_in_progress = true →
      (s.current_player = s.user_color →
        count_chips s.board s.user_color = count_chips s.board (other_color s.user_color)) ∧
      (s.current_player ≠ s.user_color →
        count_chips s.board s.user_color
          = count_chips s.board (other_color s.user_color) + 1) := by
    intro s hs hg
    have h := reachable_countInv s hs hg
    constructor
    · intro ht
      rw [if_pos ht] at h
      exact h
    · intro ht
      rw [if_neg ht] at h
      exact h
  have htie : ∀ (s s' : State) (user : List Char) (rand : Nat → Nat), Reachable s →
      fourinarow_write s user rand = some s' → s'.msg_buffer = "TIE\n".toList →
      "CTURN".toList <+: strip_newline user := by
    intro s s' user rand hs h hm
    have hsi := reachable_sessionInv s hs
    have hci := reachable_countInv s hs
    obtain ⟨_, _, _, _, d5⟩ := dispatch_tests user
    unfold fourinarow_write at h
    simp only [] at h
    split_ifs at h with _ _ _ _ _ h5
    · injection h with h; subst h; exact absurd hm empty_ne_msgs.2.1
    · injection h with h; subst h; exact absurd hm empty_ne_msgs.2.2.2.2
    · injection h with h; subst h; exact absurd hm empty_ne_msgs.2.2.2.2
    · injection h with h; subst h
      dsimp only at hm
      exact absurd hm (board_response_ne s.board hsi.1 "TIE\n".toList (by decide))
    · exact absurd hm (write_dropc_no_tie _ s' _ hsi hci h)
    · exact d5.1 h5
    · injection h with h; subst h; exact absurd hm empty_ne_msgs.2.2.2.1
  refine ⟨hcount, ?_, ?_, htie⟩
  · intro s hs hg ht
    have h := (hcount s hs hg).1 ht
    omega
  · intro s s' arg rand hs h hm
    have hlen : ("DROPC ".toList ++ arg).length < BUF_LEN :=
      length_of_response s s' _ rand h (by rw [hm]; decide)
    obtain ⟨input, hin⟩ := write_dropc_line s arg rand hlen
    rw [hin] at h
    exact write_dropc_no_tie _ s' input (reachable_sessionInv s hs) (reachable_countInv s hs)
      h hm

/-- Witness of C20: after `RESET R` and `DROPC A` it is the opponent's turn
and Red has one chip more than Yellow. -/
theorem chips_alternate_witness :
    Reachable state_after_first_drop ∧
    count_chips state_after_first_drop.board state_after_first_drop.user_color
      = count_chips state_after_first_drop.board
          (other_color state_after_first_drop.user_color) + 1 :=
  have hr : Reachable state_after_first_drop :=
    Reachable.write (reset_state 'R') state_after_first_drop "DROPC A".toList (fun _ => 0)
      (Reachable.write init_state (reset_state 'R') "RESET R".toList (fun _ => 0)
        Reachable.init (by decide)) (by decide)
  ⟨hr, (chips_alternate.1 state_after_first_drop hr rfl).2 (by decide)⟩

end FourInARow
